import Mathlib

/-!
# Input-method composition and key-event ordering (chromium-efl)

A shallow embedding of `impl/browser/renderer_host/im_context_efl.cc`
(`IMContextEfl`, the input-method session) and of the key-event sequencing part
of `impl/browser/renderer_host/render_widget_host_view_efl.cc`
(`RenderWidgetHostViewEfl`), together with the helper
`UpdateWebTouchEventAfterDispatch` of the same file and the file-name search of
`ContextMenuControllerEfl::DownloadFile` in `impl/context_menu_controller_efl.cc`.

Conventions of the embedding:

* `std::queue` values are lists; `push` appends at the back, `front` is the head
  and `pop` drops the head.
* Calls made on the render widget host (`host_`) are recorded, in order, in
  `host_calls`; calls made on the native input-method context (`context_`) are
  recorded in `context_`.  A call on the native context delivers no callback
  while it runs, except for the filter call, whose callbacks are listed in its
  `FilterOutcome`; every other callback is an event of its own.
* Everything that lives outside the repository and whose result the code
  depends on (text conversion, the key-event factory, ICU, the signedness of
  `char`) is a field of `Platform`.
-/

namespace content

/-! ## Data model -/

/-- A `base::string16`: the sequence of its UTF-16 code units. -/
abbrev String16 := List Nat

/-- A NUL-terminated `char*` buffer: its bytes before the terminator. -/
abbrev CString := List Nat

/-- The `blink::WebInputEvent::Type` values the sequencer distinguishes; every
non-keyboard type is `NonKeyboard`. -/
inductive WebInputEventType
  | RawKeyDown
  | KeyDown
  | KeyUp
  | Char
  | NonKeyboard
  deriving DecidableEq

/-- The `blink::WebInputEvent::isKeyboardEventType` predicate. -/
def isKeyboardEventType : WebInputEventType → Bool
  | .NonKeyboard => false
  | _ => true

/-- The part of a `blink::WebInputEvent` read by `OnDidInputEventHandled`. -/
structure WebInputEvent where
  type : WebInputEventType
  modifiers : Int
  deriving DecidableEq

/-- The members of a `NativeWebKeyboardEvent` that the sequencer reads or
writes.  `timeStampSeconds` is only ever copied, so it is kept as an uninterpreted
value; `other` stands for all remaining members (key identifier, the tail of the
text buffers, the OS event). -/
structure NativeWebKeyboardEvent where
  type : WebInputEventType
  modifiers : Int
  timeStampSeconds : Nat
  nativeKeyCode : Int
  windowsKeyCode : Int
  isSystemKey : Bool
  unmodifiedText0 : Nat
  text0 : Nat
  skip_in_browser : Bool
  other : Nat
  deriving DecidableEq

/-- The event as seen through a `const blink::WebInputEvent*`. -/
def NativeWebKeyboardEvent.toWebInputEvent (e : NativeWebKeyboardEvent) : WebInputEvent :=
  { type := e.type, modifiers := e.modifiers }

/-- An `Evas_Event_Key_Down` / `Evas_Event_Key_Up`: the two strings the code sets
when it builds a synthetic event, and `other` for every remaining member (zero
after `memset`). -/
structure EvasKeyEvent where
  key : CString
  string : Option CString
  other : Nat
  deriving DecidableEq

/-- A `ui::CompositionUnderline`. -/
structure CompositionUnderline where
  start_offset : Nat
  end_offset : Nat
  color : Nat
  thick : Bool
  deriving DecidableEq

/-- A `gfx::Range`. -/
structure Range where
  start : Nat
  finish : Nat
  deriving DecidableEq

/-- A `ui::CompositionText`. -/
structure CompositionText where
  text : String16
  underlines : List CompositionUnderline
  selection : Range
  deriving DecidableEq

/-- The `ui::CompositionText::Clear` operation: empty text, no underline, default range. -/
def CompositionText.Clear (_c : CompositionText) : CompositionText :=
  { text := [], underlines := [], selection := { start := 0, finish := 0 } }

/-- The colour constant `SK_ColorBLACK`. -/
def SK_ColorBLACK : Nat := 0xFF000000

/-- The `ui::TextInputType` enumeration. -/
inductive TextInputType
  | NONE
  | TEXT
  | PASSWORD
  | SEARCH
  | EMAIL
  | NUMBER
  | TELEPHONE
  | URL
  | DATE
  | DATE_TIME
  | DATE_TIME_LOCAL
  | MONTH
  | TIME
  | WEEK
  | TEXT_AREA
  | CONTENT_EDITABLE
  | DATE_TIME_FIELD
  deriving DecidableEq

/-- A call on the render widget host.  `ImeConfirmComposition` is always called
with `gfx::Range::InvalidRange()` and `keep_selection = false`, so only the text
is recorded. -/
inductive HostCall
  | ForwardKeyboardEvent (event : NativeWebKeyboardEvent)
  | ImeConfirmComposition (text : String16)
  | ImeSetComposition (text : String16) (underlines : List CompositionUnderline)
      (selection_start selection_end : Nat)
  | SetInputMethodActive (active : Bool)
  deriving DecidableEq

/-- The `ui::TextInputMode` enumeration. -/
inductive TextInputMode
  | DEFAULT
  | VERBATIM
  | LATIN
  | LATIN_NAME
  | LATIN_PROSE
  | FULL_WIDTH_LATIN
  | KANA
  | KATAKANA
  | NUMERIC
  | TEL
  | EMAIL
  | URL
  deriving DecidableEq

/-- The values of `Ecore_IMF_Input_Panel_Layout` that `ShowPanel` selects. -/
inductive InputPanelLayout
  | NORMAL
  | NUMBER
  | EMAIL
  | URL
  | PHONENUMBER
  | MONTH
  | PASSWORD
  deriving DecidableEq

/-- The `Ecore_IMF_Input_Panel_Return_Key_Type` enumeration. -/
inductive ReturnKeyType
  | DEFAULT
  | DONE
  | GO
  | JOIN
  | LOGIN
  | NEXT
  | SEARCH
  | SEND
  | SIGNIN
  deriving DecidableEq

/-- The `Ecore_IMF_Autocapital_Type` enumeration. -/
inductive AutocapitalType
  | NONE
  | WORD
  | SENTENCE
  | ALLCHARACTER
  deriving DecidableEq

/-- The values of `Ecore_IMF_Input_Mode` that `ShowPanel` names. -/
inductive InputMode
  | ALPHA
  | NUMERIC
  deriving DecidableEq

/-- The `Ecore_IMF_Input_Panel_State` enumeration. -/
inductive InputPanelState
  | SHOW
  | HIDE
  | WILL_SHOW
  deriving DecidableEq

/-- A call on the native `Ecore_IMF_Context`.  `del` and `add` are the
destruction of the context and the creation of its replacement in
`ResetIMFContext`; `add` records whether `CreateIMFContext` returned a context.
`callbacks_add` stands for the registrations made by `InitializeIMFContext`. -/
inductive ImfCall
  | reset
  | focus_in
  | focus_out
  | input_panel_show
  | input_panel_hide
  | input_panel_layout_set (layout : InputPanelLayout)
  | input_mode_set (mode : InputMode)
  | input_panel_return_key_type_set (return_key_type : ReturnKeyType)
  | autocapital_type_set (cap_type : AutocapitalType)
  | prediction_allow_set (allow_prediction : Bool)
  | use_preedit_set (use_preedit : Bool)
  | input_panel_enabled_set (enabled : Bool)
  | del
  | add (created : Bool)
  | callbacks_add
  deriving DecidableEq

/-- What the code takes from outside the repository. -/
structure Platform where
  /-- Text conversion `base::UTF8ToUTF16`. -/
  UTF8ToUTF16 : CString → String16
  /-- Key-event factory `WebEventFactoryEfl::toWebKeyboardEvent`, the overload
  for `Evas_Event_Key_Down`. -/
  toWebKeyboardEvent : EvasKeyEvent → NativeWebKeyboardEvent
  /-- Key-event factory `WebEventFactoryEfl::toWebKeyboardEvent`, the overload
  for `Evas_Event_Key_Up`. -/
  toWebKeyboardEventUp : EvasKeyEvent → NativeWebKeyboardEvent
  /-- ICU whitespace test `u_isspace`. -/
  u_isspace : Int → Bool
  /-- Whether plain `char` is a signed type on the target. -/
  char_is_signed : Bool
  /-- The default-constructed `NativeWebKeyboardEvent()`. -/
  defaultEvent : NativeWebKeyboardEvent
  /-- Whether `DCHECK` and `NOTREACHED` are compiled in (a debug build), where a
  failing one is fatal. -/
  dcheck_is_on : Bool

/-- Members of `IMContextEfl`. -/
structure IMContextEfl where
  context_ : List ImfCall
  focused_ : Bool
  enabled_ : Bool
  panel_was_ever_shown_ : Bool
  is_in_form_tag_ : Bool
  is_handling_keydown_ : Bool
  input_type_ : TextInputType
  composition_ : CompositionText
  commit_queue_ : List String16
  preedit_queue_ : List CompositionText
  deriving DecidableEq

/-- Members of `RenderWidgetHostViewEfl` that take part in key-event sequencing.
`host_` tells whether `GetRenderWidgetHost()` is non-null; the view itself calls
through `host_` without a check. -/
structure RenderWidgetHostViewEfl where
  host_ : Bool
  host_calls : List HostCall
  im_context_ : Option IMContextEfl
  keyupev_queue_ : List Int
  keydownev_queue_ : List NativeWebKeyboardEvent
  is_modifier_key_ : Bool
  deriving DecidableEq

/-- A callback the native framework delivers to the session. -/
inductive ImfCallback
  | commit (text : CString)
  | preeditChanged (buffer : Option CString)
  deriving DecidableEq

/-- What one `ecore_imf_context_filter_event` call does: the callbacks it
delivers synchronously, in order, and its return value. -/
structure FilterOutcome where
  callbacks : List ImfCallback
  filtered : Bool
  deriving DecidableEq

/-! ## `IMContextEfl` -/

/-- The loop `while (!q.empty()) q.pop();`. -/
def popAll {α : Type} : List α → List α
  | [] => []
  | _ :: rest => popAll rest

/-- The member initialisers of the constructor `IMContextEfl::IMContextEfl`; a
newly created native context has no call made on it yet. -/
def IMContextEfl.init : IMContextEfl :=
  { context_ := [], focused_ := false, enabled_ := false, panel_was_ever_shown_ := false,
    is_in_form_tag_ := false, is_handling_keydown_ := false, input_type_ := .NONE,
    composition_ := { text := [], underlines := [], selection := { start := 0, finish := 0 } },
    commit_queue_ := [], preedit_queue_ := [] }

/-- Modelled from the spec: the accessor `GetCommitQueue` is declared in the
missing header `im_context_efl.h`; it is the "peek" queue accessor and returns
the commit queue. -/
def IMContextEfl.GetCommitQueue (im : IMContextEfl) : List String16 := im.commit_queue_

/-- Modelled from the spec: the accessor `GetPreeditQueue` is declared in the
missing header `im_context_efl.h`; it is the "peek" queue accessor and returns
the preedit queue. -/
def IMContextEfl.GetPreeditQueue (im : IMContextEfl) : List CompositionText := im.preedit_queue_

/-- Modelled from the spec: `CommitQueuePop` is declared in the missing header
`im_context_efl.h`; it pops the front of the commit queue. -/
def IMContextEfl.CommitQueuePop (im : IMContextEfl) : IMContextEfl :=
  { im with commit_queue_ := im.commit_queue_.tail }

/-- Modelled from the spec: `PreeditQueuePop` is declared in the missing header
`im_context_efl.h`; it pops the front of the preedit queue. -/
def IMContextEfl.PreeditQueuePop (im : IMContextEfl) : IMContextEfl :=
  { im with preedit_queue_ := im.preedit_queue_.tail }

/-- Modelled from the spec: `KeyUpEventQueuePush` is declared in the missing
header `render_widget_host_view_efl.h`; it appends a key code to the key-up
queue. -/
def RenderWidgetHostViewEfl.KeyUpEventQueuePush (v : RenderWidgetHostViewEfl) (key : Int) :
    RenderWidgetHostViewEfl :=
  { v with keyupev_queue_ := v.keyupev_queue_ ++ [key] }

/-- Record a call made through `host_`. -/
def RenderWidgetHostViewEfl.call (v : RenderWidgetHostViewEfl) (c : HostCall) :
    RenderWidgetHostViewEfl :=
  { v with host_calls := v.host_calls ++ [c] }

/-- Record a call made on the native context. -/
def IMContextEfl.imf (im : IMContextEfl) (c : ImfCall) : IMContextEfl :=
  { im with context_ := im.context_ ++ [c] }

/-- The method `IMContextEfl::ClearQueues`. -/
def IMContextEfl.ClearQueues (im : IMContextEfl) : IMContextEfl :=
  { im with commit_queue_ := popAll im.commit_queue_, preedit_queue_ := popAll im.preedit_queue_ }

/-- The method `RenderWidgetHostViewEfl::ClearQueues`. -/
def RenderWidgetHostViewEfl.ClearQueues (v : RenderWidgetHostViewEfl) : RenderWidgetHostViewEfl :=
  { v with keyupev_queue_ := popAll v.keyupev_queue_,
           keydownev_queue_ := popAll v.keydownev_queue_ }

/-- The method `IMContextEfl::Reset`.  Methods of the session that reach into
the view take the view as `view_` and return both; the caller stores the session
back into `im_context_`. -/
def IMContextEfl.Reset (im : IMContextEfl) (view_ : RenderWidgetHostViewEfl) :
    IMContextEfl × RenderWidgetHostViewEfl :=
  ((im.ClearQueues).imf .reset, view_.ClearQueues)

/-- The method `IMContextEfl::CancelComposition`. -/
def IMContextEfl.CancelComposition (im : IMContextEfl) (view_ : RenderWidgetHostViewEfl) :
    IMContextEfl × RenderWidgetHostViewEfl :=
  ((im.ClearQueues).imf .reset, view_.ClearQueues)

/-- The method `IMContextEfl::HidePanel`. -/
def IMContextEfl.HidePanel (im : IMContextEfl) : IMContextEfl :=
  (im.imf .focus_out).imf .input_panel_hide

/-- The one-argument `IMContextEfl::UpdateInputMethodState(ui::TextInputType)`;
`is_showing` is what `ecore_imf_context_input_panel_state_get` reports. -/
def IMContextEfl.UpdateInputMethodState1 (im : IMContextEfl) (view_ : RenderWidgetHostViewEfl)
    (input_type : TextInputType) (is_showing : Bool) : IMContextEfl × RenderWidgetHostViewEfl :=
  let enabled := decide (input_type ≠ .NONE)
  let im := { im with input_type_ := input_type, enabled_ := enabled }
  let im := im.ClearQueues
  let view_ := view_.ClearQueues
  if im.enabled_ then
    if !is_showing then
      ((im.imf .focus_in).imf .input_panel_show, view_)
    else
      (im, view_)
  else
    (im.HidePanel, view_)

/-- The method `IMContextEfl::OnFocusIn`. -/
def IMContextEfl.OnFocusIn (im : IMContextEfl) (view_ : RenderWidgetHostViewEfl) :
    IMContextEfl × RenderWidgetHostViewEfl :=
  let (im, view_) := im.CancelComposition view_
  if im.focused_ then
    (im, view_)
  else
    let im := { im with focused_ := true }
    let im := if im.enabled_ then (im.imf .focus_in).imf .input_panel_show else im
    if view_.host_ then
      (im, view_.call (.SetInputMethodActive true))
    else
      (im, view_)

/-- The method `IMContextEfl::OnFocusOut`. -/
def IMContextEfl.OnFocusOut (im : IMContextEfl) (view_ : RenderWidgetHostViewEfl) :
    IMContextEfl × RenderWidgetHostViewEfl :=
  if !im.focused_ then
    (im, view_)
  else
    let im := { im with focused_ := false }
    let im := im.ClearQueues
    let view_ := view_.ClearQueues
    let im := ((im.imf .reset).imf .focus_out).imf .input_panel_hide
    if view_.host_ then
      (im, view_.call (.SetInputMethodActive false))
    else
      (im, view_)

/-- The conversion of a `char` to `UChar32`: sign-extending where `char` is signed. -/
def Platform.charToInt (env : Platform) (b : Nat) : Int :=
  if env.char_is_signed && decide (128 ≤ b % 256) then (b % 256 : Int) - 256 else (b % 256 : Int)

/-- The narrowing of an `int` to `char` followed by the widening back to `int`. -/
def Platform.intToChar (env : Platform) (k : Int) : Int :=
  if env.char_is_signed && decide (128 ≤ k % 256) then k % 256 - 256 else k % 256

/-- The C string seen through `std::string::c_str()`: the bytes before the first NUL. -/
def c_str (s : List Nat) : CString := s.takeWhile (fun b => b != 0)

/-- The bytes of the literal `"space"`. -/
def spaceLiteral : List Nat := [115, 112, 97, 99, 101]

/-- The key symbol `SendFakeCompositionKeyEvent` derives from its buffer: `ch`
is the last `char` of the buffer (0 for an empty buffer), and the symbol is
`"space"` when `u_isspace(ch)` and the one-`char` string `ch` otherwise. -/
def fakeKeySymbol (env : Platform) (buf : CString) : List Nat :=
  let ch : Int :=
    match buf.getLast? with
    | some b => env.charToInt b
    | none => 0
  if env.u_isspace ch then spaceLiteral else [(ch % 256).toNat]

/-- The synthetic key-down `SendFakeCompositionKeyEvent` builds: a zeroed
`Evas_Event_Key_Down` whose `key` and `string` are the key symbol, converted by
the factory, then given the type `KeyDown` and marked as a system key. -/
def fakeKeyEvent (env : Platform) (buf : CString) : NativeWebKeyboardEvent :=
  let str := fakeKeySymbol env buf
  let downEvent : EvasKeyEvent := { key := c_str str, string := some (c_str str), other := 0 }
  let n_event := env.toWebKeyboardEvent downEvent
  let n_event := { n_event with type := .KeyDown }
  { n_event with isSystemKey := true }

/-- The method `IMContextEfl::SendFakeCompositionKeyEvent`. -/
def IMContextEfl.SendFakeCompositionKeyEvent (env : Platform) (im : IMContextEfl)
    (view_ : RenderWidgetHostViewEfl) (buf : Option CString) : RenderWidgetHostViewEfl :=
  if im.is_handling_keydown_ then
    view_
  else
    match buf with
    | none => view_
    | some buf =>
      let n_event := fakeKeyEvent env buf
      if !view_.host_ then
        view_
      else
        (view_.KeyUpEventQueuePush n_event.windowsKeyCode).call (.ForwardKeyboardEvent n_event)

/-- The method `IMContextEfl::OnCommit` (with `USE_IM_COMPOSITING` set). -/
def IMContextEfl.OnCommit (env : Platform) (im : IMContextEfl) (view_ : RenderWidgetHostViewEfl)
    (text : CString) : IMContextEfl × RenderWidgetHostViewEfl :=
  let im := { im with composition_ := im.composition_.Clear }
  let text16 := env.UTF8ToUTF16 text
  let im := { im with commit_queue_ := im.commit_queue_ ++ [text16] }
  (im, im.SendFakeCompositionKeyEvent env view_ (some text))

/-- The method `IMContextEfl::OnPreeditChanged` (with `USE_IM_COMPOSITING` set);
`buffer` is what `ecore_imf_context_preedit_string_get` stores. -/
def IMContextEfl.OnPreeditChanged (env : Platform) (im : IMContextEfl)
    (view_ : RenderWidgetHostViewEfl) (buffer : Option CString) :
    IMContextEfl × RenderWidgetHostViewEfl :=
  let im := { im with composition_ := im.composition_.Clear }
  match buffer with
  | none => (im, view_)
  | some buf =>
    let view_ := im.SendFakeCompositionKeyEvent env view_ (some buf)
    let im := { im with composition_ := im.composition_.Clear }
    let text := env.UTF8ToUTF16 buf
    let composition : CompositionText :=
      { text := text,
        underlines := im.composition_.underlines ++
          [{ start_offset := 0, end_offset := text.length, color := SK_ColorBLACK, thick := false }],
        selection := { start := text.length, finish := text.length } }
    let im := { im with composition_ := composition }
    let im := { im with preedit_queue_ := im.preedit_queue_ ++ [im.composition_] }
    (im, view_)

/-- The method `IMContextEfl::OnCandidateInputPanelLanguageChanged`. -/
def IMContextEfl.OnCandidateInputPanelLanguageChanged (im : IMContextEfl)
    (view_ : RenderWidgetHostViewEfl) : IMContextEfl × RenderWidgetHostViewEfl :=
  if !view_.host_ || im.composition_.text.length == 0 then
    (im, view_)
  else
    let (im, view_) := im.Reset view_
    let view_ := view_.call (.ImeConfirmComposition im.composition_.text)
    ({ im with composition_ := im.composition_.Clear }, view_)

/-- Deliver one framework callback to the session. -/
def IMContextEfl.deliver (env : Platform) (im : IMContextEfl) (view_ : RenderWidgetHostViewEfl) :
    ImfCallback → IMContextEfl × RenderWidgetHostViewEfl
  | .commit text => im.OnCommit env view_ text
  | .preeditChanged buffer => im.OnPreeditChanged env view_ buffer

/-- Deliver a sequence of framework callbacks, in order. -/
def IMContextEfl.deliverAll (env : Platform) (im : IMContextEfl) (view_ : RenderWidgetHostViewEfl) :
    List ImfCallback → IMContextEfl × RenderWidgetHostViewEfl
  | [] => (im, view_)
  | cb :: rest =>
    let r := im.deliver env view_ cb
    r.1.deliverAll env r.2 rest

/-- The method `IMContextEfl::HandleKeyDownEvent`: the filter call runs between
the two writes of the guard flag; its return value is the third component. -/
def IMContextEfl.HandleKeyDownEvent (env : Platform) (im : IMContextEfl)
    (view_ : RenderWidgetHostViewEfl) (filter : FilterOutcome) :
    IMContextEfl × RenderWidgetHostViewEfl × Bool :=
  let im := { im with is_handling_keydown_ := true }
  let r := im.deliverAll env view_ filter.callbacks
  ({ r.1 with is_handling_keydown_ := false }, r.2, filter.filtered)

/-- The method `IMContextEfl::HandleKeyUpEvent`. -/
def IMContextEfl.HandleKeyUpEvent (env : Platform) (im : IMContextEfl)
    (view_ : RenderWidgetHostViewEfl) (filter : FilterOutcome) :
    IMContextEfl × RenderWidgetHostViewEfl × Bool :=
  let r := im.deliverAll env view_ filter.callbacks
  (r.1, r.2, filter.filtered)

/-! ## `IMContextEfl`: the input panel -/

/-- What a panel operation takes from outside the session: the setting
`useKeyPadWithoutUserAction` of the embedding view, and whether
`CreateIMFContext` returns a context should the native context be recreated. -/
structure PanelEnv where
  useKeyPadWithoutUserAction : Bool
  contextCreated : Bool
  deriving DecidableEq

/-- Whether `context_` is non-null after the calls recorded so far: the session
is constructed with a context, and `ResetIMFContext` replaces it by whatever
`CreateIMFContext` returns. -/
def contextPresent (log : List ImfCall) : Bool :=
  log.foldl (fun present c =>
    match c with
    | .add created => created
    | _ => present) true

/-- The method `IMContextEfl::InitializeIMFContext`. -/
def IMContextEfl.InitializeIMFContext (im : IMContextEfl) : IMContextEfl :=
  (((im.imf (.input_panel_enabled_set false)).imf (.use_preedit_set false)).imf .callbacks_add)

/-- The method `IMContextEfl::ResetIMFContext`. -/
def IMContextEfl.ResetIMFContext (im : IMContextEfl) (created : Bool) : IMContextEfl :=
  let im := im.imf .focus_out
  let im := im.imf .input_panel_hide
  let im := im.imf .del
  let im := im.imf (.add created)
  im.InitializeIMFContext

/-- The first `switch` of `ShowPanel` together with the initialisations before
it: the layout, return-key type, autocapitalisation type and prediction flag for
an input type, or `none` in the `default:` case. -/
def panelSettings (input_type : TextInputType) (is_in_form_tag_ : Bool) :
    Option (InputPanelLayout × ReturnKeyType × AutocapitalType × Bool) :=
  let return_key_type := ReturnKeyType.DEFAULT
  let cap_type := AutocapitalType.NONE
  let allow_prediction := true
  let return_key_type := if is_in_form_tag_ then ReturnKeyType.GO else return_key_type
  match input_type with
  | .TEXT =>
    some (.NORMAL, if !is_in_form_tag_ then .DONE else return_key_type, cap_type,
      allow_prediction)
  | .PASSWORD => some (.PASSWORD, return_key_type, cap_type, false)
  | .SEARCH => some (.NORMAL, .SEARCH, cap_type, allow_prediction)
  | .EMAIL => some (.EMAIL, return_key_type, cap_type, allow_prediction)
  | .NUMBER =>
    some (.NUMBER, if !is_in_form_tag_ then .DONE else return_key_type, cap_type,
      allow_prediction)
  | .TELEPHONE => some (.PHONENUMBER, return_key_type, cap_type, allow_prediction)
  | .URL => some (.URL, return_key_type, cap_type, allow_prediction)
  | .MONTH => some (.MONTH, return_key_type, cap_type, allow_prediction)
  | .TEXT_AREA => some (.NORMAL, return_key_type, .SENTENCE, allow_prediction)
  | .DATE => some (.NORMAL, return_key_type, cap_type, allow_prediction)
  | .DATE_TIME => some (.NORMAL, return_key_type, cap_type, allow_prediction)
  | .DATE_TIME_LOCAL => some (.NORMAL, return_key_type, cap_type, allow_prediction)
  | .TIME => some (.NORMAL, return_key_type, cap_type, allow_prediction)
  | .WEEK => some (.NORMAL, return_key_type, cap_type, allow_prediction)
  | .CONTENT_EDITABLE => some (.NORMAL, return_key_type, cap_type, allow_prediction)
  | .DATE_TIME_FIELD => some (.NORMAL, return_key_type, cap_type, allow_prediction)
  | .NONE => none

/-- The second `switch` of `ShowPanel`: `case ui::TEXT_INPUT_MODE_NUMERIC:` has
no `break`, so its assignment is overwritten by the one under `default:`. -/
def panelInputMode (input_mode : TextInputMode) : InputMode :=
  match input_mode with
  | .NUMERIC =>
    let _mode := InputMode.NUMERIC
    InputMode.ALPHA
  | _ => InputMode.ALPHA

/-- The method `IMContextEfl::ShowPanel`.  The result is `error` when a fatal
`NOTREACHED` is hit, with the session as it was at that point. -/
def IMContextEfl.ShowPanel (env : Platform) (penv : PanelEnv) (im : IMContextEfl)
    (input_type : TextInputType) (input_mode : TextInputMode) (is_user_action : Bool) :
    Except IMContextEfl IMContextEfl :=
  if !is_user_action && !penv.useKeyPadWithoutUserAction then
    .ok im
  else
    match panelSettings input_type im.is_in_form_tag_ with
    | none => if env.dcheck_is_on then .error im else .ok im
    | some (layout, return_key_type, cap_type, allow_prediction) =>
      let mode := panelInputMode input_mode
      let im := if im.panel_was_ever_shown_ then im.ResetIMFContext penv.contextCreated else im
      let im := { im with panel_was_ever_shown_ := true }
      let im := im.imf (.input_panel_layout_set layout)
      let im := im.imf (.input_mode_set mode)
      let im := im.imf (.input_panel_return_key_type_set return_key_type)
      let im := im.imf (.autocapital_type_set cap_type)
      let im := im.imf (.prediction_allow_set allow_prediction)
      let im := im.imf .focus_in
      .ok (im.imf .input_panel_show)

/-- The four-argument `IMContextEfl::UpdateInputMethodState`.  The result is
`error` when the fatal `DCHECK(focused_)` (or a fatal `NOTREACHED` in
`ShowPanel`) fails, with the session and the view as they were at that point. -/
def IMContextEfl.UpdateInputMethodState (env : Platform) (penv : PanelEnv) (im : IMContextEfl)
    (view_ : RenderWidgetHostViewEfl) (input_type : TextInputType) (can_compose_inline : Bool)
    (input_mode : TextInputMode) (is_user_action : Bool) :
    Except (IMContextEfl × RenderWidgetHostViewEfl) (IMContextEfl × RenderWidgetHostViewEfl) :=
  let im := { im with input_type_ := input_type }
  let enabled := decide (input_type ≠ .NONE)
  let im := { im with enabled_ := enabled }
  let im := im.ClearQueues
  let view_ := view_.ClearQueues
  let im := im.imf .reset
  if env.dcheck_is_on && !im.focused_ then
    .error (im, view_)
  else
    let shown :=
      if enabled then im.ShowPanel env penv input_type input_mode is_user_action
      else .ok im.HidePanel
    match shown with
    | .error im => .error (im, view_)
    | .ok im =>
      if enabled then
        .ok (im.imf (.use_preedit_set can_compose_inline), view_)
      else
        .ok (im, view_)

/-- The method `IMContextEfl::SetIsInFormTag`; `panel_state` and
`return_key_type` are what `ecore_imf_context_input_panel_state_get` and
`ecore_imf_context_input_panel_return_key_type_get` report. -/
def IMContextEfl.SetIsInFormTag (im : IMContextEfl) (is_in_form_tag : Bool)
    (panel_state : InputPanelState) (return_key_type : ReturnKeyType) : IMContextEfl :=
  let im := { im with is_in_form_tag_ := is_in_form_tag }
  if !contextPresent im.context_ then
    im
  else if panel_state = .HIDE then
    im
  else if return_key_type = .SEARCH then
    im
  else if im.is_in_form_tag_ then
    im.imf (.input_panel_return_key_type_set .GO)
  else if im.input_type_ = .TEXT ∨ im.input_type_ = .NUMBER then
    im.imf (.input_panel_return_key_type_set .DONE)
  else
    im.imf (.input_panel_return_key_type_set .DEFAULT)

/-- The layout in effect on the current native context after the calls recorded
so far: the last one set since the context was created, if any. -/
def layoutInEffect (log : List ImfCall) : Option InputPanelLayout :=
  log.foldl (fun current c =>
    match c with
    | .add _ => none
    | .input_panel_layout_set layout => some layout
    | _ => current) none

/-- The return-key type in effect on the current native context after the calls
recorded so far: the last one set since the context was created, if any. -/
def returnKeyInEffect (log : List ImfCall) : Option ReturnKeyType :=
  log.foldl (fun current c =>
    match c with
    | .add _ => none
    | .input_panel_return_key_type_set return_key_type => some return_key_type
    | _ => current) none

/-- The fixed type-to-layout table, as the specification lists it; every input
type without an entry falls back to the normal layout. -/
def layoutTable : TextInputType → InputPanelLayout
  | .TEXT => .NORMAL
  | .PASSWORD => .PASSWORD
  | .SEARCH => .NORMAL
  | .EMAIL => .EMAIL
  | .NUMBER => .NUMBER
  | .TELEPHONE => .PHONENUMBER
  | .URL => .URL
  | .MONTH => .MONTH
  | .TEXT_AREA => .NORMAL
  | _ => .NORMAL

/-- The return-key label as the specification words it: Search for the search
type; otherwise Go inside a form; otherwise Done for text and number fields and
Default for every other type. -/
def returnKeyLabel (input_type : TextInputType) (is_in_form_tag : Bool) : ReturnKeyType :=
  if input_type = .SEARCH then .SEARCH
  else if is_in_form_tag then .GO
  else if input_type = .TEXT ∨ input_type = .NUMBER then .DONE
  else .DEFAULT

/-! ## `RenderWidgetHostViewEfl`: key-event sequencing -/

/-- The constructor `RenderWidgetHostViewEfl::RenderWidgetHostViewEfl` followed by
`IMContextEfl::Create`: `im` is `none` when no native context could be created. -/
def RenderWidgetHostViewEfl.init (host : Bool) (im : Option IMContextEfl) :
    RenderWidgetHostViewEfl :=
  { host_ := host, host_calls := [], im_context_ := im, keyupev_queue_ := [],
    keydownev_queue_ := [], is_modifier_key_ := false }

/-- Store the session back into the view after one of its methods ran. -/
def RenderWidgetHostViewEfl.store (r : IMContextEfl × RenderWidgetHostViewEfl) :
    RenderWidgetHostViewEfl :=
  { r.2 with im_context_ := some r.1 }

/-- The copy made for the key-down queue: a default-constructed event into which
eight members of `n_event` are copied. -/
def queuedCopy (env : Platform) (n_event : NativeWebKeyboardEvent) : NativeWebKeyboardEvent :=
  { env.defaultEvent with
    timeStampSeconds := n_event.timeStampSeconds
    modifiers := n_event.modifiers
    type := n_event.type
    nativeKeyCode := n_event.nativeKeyCode
    windowsKeyCode := n_event.windowsKeyCode
    isSystemKey := n_event.isSystemKey
    unmodifiedText0 := n_event.unmodifiedText0
    text0 := n_event.text0 }

/-- The sequencing part of `RenderWidgetHostViewEfl::HandleEvasEvent(const
Evas_Event_Key_Down*)`, from the `if (im_context_)` on.  The statements before it
(popup dismissal, `WasHidden` on the phone and power keys, hiding of the
selection handles) touch none of the members modelled here. -/
def RenderWidgetHostViewEfl.HandleEvasEvent_KeyDown (env : Platform)
    (v : RenderWidgetHostViewEfl) (event : EvasKeyEvent) (filter : FilterOutcome) :
    RenderWidgetHostViewEfl :=
  match v.im_context_ with
  | some im =>
    let r := im.HandleKeyDownEvent env v filter
    let im := r.1
    let v := r.2.1
    let wasFiltered := r.2.2
    let n_event := env.toWebKeyboardEvent event
    let n_event := if wasFiltered then { n_event with isSystemKey := true } else n_event
    let v :=
      if im.GetPreeditQueue.isEmpty || v.keyupev_queue_.isEmpty then
        v.call (.ForwardKeyboardEvent n_event)
      else
        { v with keydownev_queue_ := v.keydownev_queue_ ++ [queuedCopy env n_event] }
    let v := { v with keyupev_queue_ := v.keyupev_queue_ ++ [n_event.windowsKeyCode] }
    { v with im_context_ := some im }
  | none => v.call (.ForwardKeyboardEvent (env.toWebKeyboardEvent event))

/-- The method `RenderWidgetHostViewEfl::HandleEvasEvent(const Evas_Event_Key_Up*)`. -/
def RenderWidgetHostViewEfl.HandleEvasEvent_KeyUp (env : Platform)
    (v : RenderWidgetHostViewEfl) (event : EvasKeyEvent) (filter : FilterOutcome) :
    RenderWidgetHostViewEfl :=
  match v.im_context_ with
  | some im =>
    let r := im.HandleKeyUpEvent env v filter
    { r.2.1 with im_context_ := some r.1 }
  | none => v.call (.ForwardKeyboardEvent (env.toWebKeyboardEventUp event))

/-- The method `RenderWidgetHostViewEfl::HandleCommitQueue`. -/
def RenderWidgetHostViewEfl.HandleCommitQueue (v : RenderWidgetHostViewEfl) (processed : Bool) :
    RenderWidgetHostViewEfl :=
  match v.im_context_ with
  | none => v
  | some im =>
    if !processed then
      match im.GetCommitQueue with
      | text16 :: _ =>
        { v.call (.ImeConfirmComposition text16) with im_context_ := some im.CommitQueuePop }
      | [] => v
    else
      match im.GetCommitQueue with
      | _ :: _ => { v with im_context_ := some im.CommitQueuePop }
      | [] => v

/-- The method `RenderWidgetHostViewEfl::HandlePreeditQueue`.  The
`reinterpret_cast` of the underline vector changes its static type only. -/
def RenderWidgetHostViewEfl.HandlePreeditQueue (v : RenderWidgetHostViewEfl) (processed : Bool) :
    RenderWidgetHostViewEfl :=
  match v.im_context_ with
  | none => v
  | some im =>
    if !processed then
      match im.GetPreeditQueue with
      | composition_ :: _ =>
        { v.call (.ImeSetComposition composition_.text composition_.underlines
              composition_.selection.start composition_.selection.finish) with
          im_context_ := some im.PreeditQueuePop }
      | [] => v
    else
      match im.GetPreeditQueue with
      | _ :: _ => { v with im_context_ := some im.PreeditQueuePop }
      | [] => v

/-- The method `RenderWidgetHostViewEfl::SendCompositionKeyUpEvent(char c)`; the
argument arrives as an `int` and is narrowed to `char` by the call. -/
def RenderWidgetHostViewEfl.SendCompositionKeyUpEvent (env : Platform)
    (v : RenderWidgetHostViewEfl) (keyCode : Int) : RenderWidgetHostViewEfl :=
  let event := { env.defaultEvent with windowsKeyCode := env.intToChar keyCode }
  let event := { event with skip_in_browser := false }
  let event := { event with type := .KeyUp }
  v.call (.ForwardKeyboardEvent event)

/-- The method `RenderWidgetHostViewEfl::HandleKeyUpQueue`. -/
def RenderWidgetHostViewEfl.HandleKeyUpQueue (env : Platform) (v : RenderWidgetHostViewEfl) :
    RenderWidgetHostViewEfl :=
  match v.im_context_ with
  | none => v
  | some _ =>
    match v.keyupev_queue_ with
    | [] => v
    | keyCode :: rest =>
      { v.SendCompositionKeyUpEvent env keyCode with keyupev_queue_ := rest }

/-- The method `RenderWidgetHostViewEfl::HandleKeyDownQueue`. -/
def RenderWidgetHostViewEfl.HandleKeyDownQueue (v : RenderWidgetHostViewEfl) :
    RenderWidgetHostViewEfl :=
  match v.im_context_ with
  | none => v
  | some _ =>
    match v.keydownev_queue_ with
    | [] => v
    | n_event :: rest =>
      { v.call (.ForwardKeyboardEvent n_event) with keydownev_queue_ := rest }

/-- One drain cycle: the four `Handle...Queue` calls in the order in which
`OnDidInputEventHandled` makes them. -/
def RenderWidgetHostViewEfl.drainCycle (env : Platform) (v : RenderWidgetHostViewEfl)
    (processed : Bool) : RenderWidgetHostViewEfl :=
  (((v.HandleCommitQueue processed).HandlePreeditQueue processed).HandleKeyUpQueue env).HandleKeyDownQueue

/-- The method `RenderWidgetHostViewEfl::OnDidInputEventHandled` (Tizen build,
`EWK_BRINGUP` not defined). -/
def RenderWidgetHostViewEfl.OnDidInputEventHandled (env : Platform)
    (v : RenderWidgetHostViewEfl) (input_event : WebInputEvent) (processed : Bool) :
    RenderWidgetHostViewEfl :=
  match v.im_context_ with
  | none => v
  | some _ =>
    if isKeyboardEventType input_event.type then
      if input_event.type = .KeyDown then
        if input_event.modifiers ≠ 0 ∧ v.is_modifier_key_ = false then
          { v with is_modifier_key_ := true }
        else
          let v :=
            if v.is_modifier_key_ then
              let v := v.HandleCommitQueue processed
              let v := v.HandlePreeditQueue processed
              let v := v.HandleKeyUpQueue env
              let v := v.HandleKeyDownQueue
              { v with is_modifier_key_ := false }
            else v
          let v := v.HandleCommitQueue processed
          let v := v.HandlePreeditQueue processed
          let v := v.HandleKeyUpQueue env
          v.HandleKeyDownQueue
      else v
    else v

/-! ## Runs -/

/-- What can happen to a view, one entry per external stimulus.  Framework
callbacks listed in a `FilterOutcome` are delivered inside that filter call;
`imf` is a callback delivered outside any filter call. -/
inductive Event
  | keyDown (event : EvasKeyEvent) (filter : FilterOutcome)
  | keyUp (event : EvasKeyEvent) (filter : FilterOutcome)
  | imf (cb : ImfCallback)
  | ack (input_event : WebInputEvent) (processed : Bool)
  | focusIn
  | focusOut
  | reset
  | cancelComposition
  | languageChanged
  | textInputStateChanged (type : TextInputType) (is_showing : Bool)
  deriving DecidableEq

/-- Run a method of the session, if there is one, and store the session back. -/
def RenderWidgetHostViewEfl.withSession (v : RenderWidgetHostViewEfl)
    (f : IMContextEfl → RenderWidgetHostViewEfl → IMContextEfl × RenderWidgetHostViewEfl) :
    RenderWidgetHostViewEfl :=
  match v.im_context_ with
  | none => v
  | some im => RenderWidgetHostViewEfl.store (f im v)

/-- The effect of one event.  `focusIn`, `focusOut`, `reset`, `cancelComposition`
and `textInputStateChanged` are the session calls made by `HandleFocusIn`,
`HandleFocusOut`, the mouse-up handler, `ImeCancelComposition` and
`TextInputStateChanged`. -/
def RenderWidgetHostViewEfl.step (env : Platform) (v : RenderWidgetHostViewEfl) :
    Event → RenderWidgetHostViewEfl
  | .keyDown event filter => v.HandleEvasEvent_KeyDown env event filter
  | .keyUp event filter => v.HandleEvasEvent_KeyUp env event filter
  | .imf cb => v.withSession (fun im view_ => im.deliver env view_ cb)
  | .ack input_event processed => v.OnDidInputEventHandled env input_event processed
  | .focusIn => v.withSession (fun im view_ => im.OnFocusIn view_)
  | .focusOut => v.withSession (fun im view_ => im.OnFocusOut view_)
  | .reset => v.withSession (fun im view_ => im.Reset view_)
  | .cancelComposition => v.withSession (fun im view_ => im.CancelComposition view_)
  | .languageChanged => v.withSession (fun im view_ => im.OnCandidateInputPanelLanguageChanged view_)
  | .textInputStateChanged type is_showing =>
    v.withSession (fun im view_ => im.UpdateInputMethodState1 view_ type is_showing)

/-- The effect of a sequence of events, in order. -/
def RenderWidgetHostViewEfl.run (env : Platform) (v : RenderWidgetHostViewEfl) :
    List Event → RenderWidgetHostViewEfl
  | [] => v
  | e :: rest => (v.step env e).run env rest

/-- The sequencer is idle: a session exists, the four queues are empty and the
modifier flag is unset. -/
def RenderWidgetHostViewEfl.Idle (v : RenderWidgetHostViewEfl) : Prop :=
  ∃ im, v.im_context_ = some im ∧ im.commit_queue_ = [] ∧ im.preedit_queue_ = [] ∧
    v.keyupev_queue_ = [] ∧ v.keydownev_queue_ = [] ∧ v.is_modifier_key_ = false

/-- The texts of the `ImeConfirmComposition` calls in a call log, in order. -/
def confirmedTexts : List HostCall → List String16
  | [] => []
  | .ImeConfirmComposition text :: rest => text :: confirmedTexts rest
  | _ :: rest => confirmedTexts rest

/-- The arguments of the `ImeSetComposition` calls in a call log, in order. -/
def setCompositions : List HostCall → List CompositionText
  | [] => []
  | .ImeSetComposition text underlines s e :: rest =>
    { text := text, underlines := underlines, selection := { start := s, finish := e } } ::
      setCompositions rest
  | _ :: rest => setCompositions rest

/-- The key-down events forwarded in a call log, in order. -/
def forwardedKeyDowns : List HostCall → List NativeWebKeyboardEvent
  | [] => []
  | .ForwardKeyboardEvent e :: rest =>
    if e.type = .KeyDown then e :: forwardedKeyDowns rest else forwardedKeyDowns rest
  | _ :: rest => forwardedKeyDowns rest

/-! ## Events built by the handlers -/

/-- The synthetic key-up event built by `SendCompositionKeyUpEvent` for a key code. -/
def keyUpEventFor (env : Platform) (keyCode : Int) : NativeWebKeyboardEvent :=
  { env.defaultEvent with
    windowsKeyCode := env.intToChar keyCode, skip_in_browser := false, type := .KeyUp }

/-- The event a hardware key-down is forwarded as: the factory's event, marked
as a system key when the filter consumed it. -/
def hardwareEvent (env : Platform) (event : EvasKeyEvent) (filtered : Bool) :
    NativeWebKeyboardEvent :=
  if filtered then { env.toWebKeyboardEvent event with isSystemKey := true }
  else env.toWebKeyboardEvent event

/-! ## The calls of a drain cycle -/

/-- The calls of one drain cycle, listed from the fronts of the four queues. -/
def drainCalls (env : Platform) (processed : Bool) (commits : List String16)
    (preedits : List CompositionText) (keyups : List Int)
    (keydowns : List NativeWebKeyboardEvent) : List HostCall :=
  (if processed then [] else commits.head?.toList.map HostCall.ImeConfirmComposition) ++
  (if processed then [] else preedits.head?.toList.map (fun c =>
    HostCall.ImeSetComposition c.text c.underlines c.selection.start c.selection.finish)) ++
  keyups.head?.toList.map (fun k => HostCall.ForwardKeyboardEvent (keyUpEventFor env k)) ++
  keydowns.head?.toList.map HostCall.ForwardKeyboardEvent

/-! ## Sample data for the concrete evaluations -/

/-- A platform for concrete evaluations: ASCII text converts byte for byte, the
key-event factory yields a key-down whose codes are the first byte of the key
name and whose modifier bits are the `other` member, `char` is signed. -/
def samplePlatform : Platform :=
  { UTF8ToUTF16 := fun bytes => bytes
    toWebKeyboardEvent := fun ev =>
      { type := .KeyDown, modifiers := ev.other, timeStampSeconds := 0,
        nativeKeyCode := ev.key.headD 0, windowsKeyCode := ev.key.headD 0,
        isSystemKey := false, unmodifiedText0 := ev.key.headD 0, text0 := ev.key.headD 0,
        skip_in_browser := false, other := 1 }
    toWebKeyboardEventUp := fun ev =>
      { type := .KeyUp, modifiers := ev.other, timeStampSeconds := 0,
        nativeKeyCode := ev.key.headD 0, windowsKeyCode := ev.key.headD 0,
        isSystemKey := false, unmodifiedText0 := ev.key.headD 0, text0 := ev.key.headD 0,
        skip_in_browser := false, other := 1 }
    u_isspace := fun c => decide (c = 32 ∨ (9 ≤ c ∧ c ≤ 13))
    char_is_signed := true
    defaultEvent :=
      { type := .NonKeyboard, modifiers := 0, timeStampSeconds := 0, nativeKeyCode := 0,
        windowsKeyCode := 0, isSystemKey := false, unmodifiedText0 := 0, text0 := 0,
        skip_in_browser := false, other := 0 }
    dcheck_is_on := true }

/-- A freshly created view with a host and a session. -/
def freshView : RenderWidgetHostViewEfl :=
  RenderWidgetHostViewEfl.init true (some IMContextEfl.init)

/-- The hardware key `a`, no modifier held. -/
def keyA : EvasKeyEvent := { key := [97], string := some [97], other := 0 }

/-- The hardware key `b`, no modifier held. -/
def keyB : EvasKeyEvent := { key := [98], string := some [98], other := 0 }

/-- The hardware key `c`, no modifier held. -/
def keyC : EvasKeyEvent := { key := [99], string := some [99], other := 0 }

/-- The Shift key; its key-down carries a modifier bit. -/
def keyShift : EvasKeyEvent := { key := [83], string := none, other := 1 }

/-- The key `A` typed with Shift held. -/
def keyShiftA : EvasKeyEvent := { key := [65], string := some [65], other := 1 }

/-- The acknowledged event of a key-down without modifier bits. -/
def plainKeyDown : WebInputEvent := { type := .KeyDown, modifiers := 0 }

/-- The acknowledged event of a key-down carrying a modifier bit. -/
def modifierKeyDown : WebInputEvent := { type := .KeyDown, modifiers := 1 }

/-- The text `hi` as bytes. -/
def textHi : CString := [104, 105]

/-! ## What a filter call enqueues -/

/-- The snapshot `OnPreeditChanged` builds from a non-null preedit string. -/
def snapshot (env : Platform) (buf : CString) : CompositionText :=
  { text := env.UTF8ToUTF16 buf
    underlines := [{ start_offset := 0, end_offset := (env.UTF8ToUTF16 buf).length,
                     color := SK_ColorBLACK, thick := false }]
    selection := { start := (env.UTF8ToUTF16 buf).length,
                   finish := (env.UTF8ToUTF16 buf).length } }

/-- The committed texts among a sequence of callbacks, converted, in order. -/
def commitsOf (env : Platform) : List ImfCallback → List String16
  | [] => []
  | .commit text :: rest => env.UTF8ToUTF16 text :: commitsOf env rest
  | .preeditChanged _ :: rest => commitsOf env rest

/-- The preedit snapshots a sequence of callbacks enqueues, in order. -/
def preeditsOf (env : Platform) : List ImfCallback → List CompositionText
  | [] => []
  | .commit _ :: rest => preeditsOf env rest
  | .preeditChanged none :: rest => preeditsOf env rest
  | .preeditChanged (some buf) :: rest => snapshot env buf :: preeditsOf env rest

/-- The composition state after a sequence of callbacks. -/
def compositionAfter (env : Platform) (c : CompositionText) : List ImfCallback → CompositionText
  | [] => c
  | .commit _ :: rest => compositionAfter env c.Clear rest
  | .preeditChanged none :: rest => compositionAfter env c.Clear rest
  | .preeditChanged (some buf) :: rest => compositionAfter env (snapshot env buf) rest

/-! ## Sample views -/

/-- A view whose modifier flag is set while three commits and three key-ups are queued. -/
def flaggedView : RenderWidgetHostViewEfl :=
  { freshView with
    im_context_ := some { IMContextEfl.init with commit_queue_ := [[97], [98], [99]] }
    keyupev_queue_ := [1, 2, 3]
    is_modifier_key_ := true }

/-- A view with two commits, two preedits, two key-ups and one key-down queued,
modifier flag unset. -/
def loadedView : RenderWidgetHostViewEfl :=
  { freshView with
    im_context_ := some { IMContextEfl.init with
      commit_queue_ := [[97], [98]]
      preedit_queue_ := [⟨[104], [], ⟨1, 1⟩⟩, ⟨[104, 105], [], ⟨2, 2⟩⟩] }
    keyupev_queue_ := [1, 2]
    keydownev_queue_ := [samplePlatform.toWebKeyboardEvent keyB] }

/-! ## Two drain cycles -/

/-- Two successive ordinary drain cycles with the same consumed value, the
modifier flag cleared: what the specification says an acknowledgement received
while the flag is set amounts to. -/
def twoDrainCycles (env : Platform) (v : RenderWidgetHostViewEfl) (consumed : Bool) :
    RenderWidgetHostViewEfl :=
  { (v.drainCycle env consumed).drainCycle env consumed with is_modifier_key_ := false }

/-! ## Draining acknowledgements -/

/-- A key-down acknowledgement drains unless it carries modifier bits while the
modifier flag is unset. -/
def drains (v : RenderWidgetHostViewEfl) (e : WebInputEvent) : Prop :=
  e.type = .KeyDown ∧ (e.modifiers = 0 ∨ v.is_modifier_key_ = true)

/-! ## A session in the middle of a composition -/

/-- A focused session in the middle of a composition: the preedit `h` is the
live composition and is queued, and a commit is queued as well. -/
def composingSession : IMContextEfl :=
  { IMContextEfl.init with
    focused_ := true
    composition_ := snapshot samplePlatform [104]
    commit_queue_ := [[97]]
    preedit_queue_ := [snapshot samplePlatform [104]] }

/-! ## What a run hands over to the queues -/

/-- The commit queue of the view's session; empty when there is no session. -/
def commitQ (v : RenderWidgetHostViewEfl) : List String16 :=
  match v.im_context_ with
  | some im => im.commit_queue_
  | none => []

/-- The preedit queue of the view's session; empty when there is no session. -/
def preeditQ (v : RenderWidgetHostViewEfl) : List CompositionText :=
  match v.im_context_ with
  | some im => im.preedit_queue_
  | none => []

/-- The texts an event commits, converted, in order. -/
def committedTexts (env : Platform) : Event → List String16
  | .keyDown _ filter => commitsOf env filter.callbacks
  | .keyUp _ filter => commitsOf env filter.callbacks
  | .imf cb => commitsOf env [cb]
  | _ => []

/-- The preedit snapshots an event enqueues, in order. -/
def enqueuedSnapshots (env : Platform) : Event → List CompositionText
  | .keyDown _ filter => preeditsOf env filter.callbacks
  | .keyUp _ filter => preeditsOf env filter.callbacks
  | .imf cb => preeditsOf env [cb]
  | _ => []

/-- The text a candidate-panel language change confirms directly, without going
through the commit queue: the live composition text, when there is a host and
that text is not empty. -/
def directlyConfirmed (v : RenderWidgetHostViewEfl) : Event → List String16
  | .languageChanged =>
    match v.im_context_ with
    | some im =>
      if !v.host_ || im.composition_.text.length == 0 then [] else [im.composition_.text]
    | none => []
  | _ => []

/-- The committed texts of a run, in order. -/
def committedAlong (env : Platform) : List Event → List String16
  | [] => []
  | e :: rest => committedTexts env e ++ committedAlong env rest

/-- The preedit snapshots enqueued by a run, in order. -/
def enqueuedAlong (env : Platform) : List Event → List CompositionText
  | [] => []
  | e :: rest => enqueuedSnapshots env e ++ enqueuedAlong env rest

/-- The texts handed over for confirmation during a run, in order: the
committed texts and the texts confirmed directly by language changes. -/
def offeredAlong (env : Platform) (v : RenderWidgetHostViewEfl) : List Event → List String16
  | [] => []
  | e :: rest =>
    committedTexts env e ++ directlyConfirmed v e ++ offeredAlong env (v.step env e) rest

/-! ## Keyboard-only schedules -/

/-- One step of a keyboard-only schedule: a hardware key-down with what its
filter call does, or the acknowledgement of the oldest forwarded key-down that
has not been acknowledged yet. -/
inductive KeyStep
  | down (event : EvasKeyEvent) (filter : FilterOutcome)
  | ack (processed : Bool)
  deriving DecidableEq

/-- The key-downs forwarded between two states of the view, in order. -/
def newlyForwarded (before after : RenderWidgetHostViewEfl) : List NativeWebKeyboardEvent :=
  (forwardedKeyDowns after.host_calls).drop (forwardedKeyDowns before.host_calls).length

/-- Run a keyboard-only schedule.  `forwarded` lists the key-downs forwarded so
far and `acked` counts the acknowledgements delivered; acknowledgements come in
forwarding order, so the next one is for `forwarded[acked]`.  The result is
`none` when an acknowledgement is scheduled although every forwarded key-down
has been acknowledged already. -/
def runKeys (env : Platform) :
    RenderWidgetHostViewEfl → List NativeWebKeyboardEvent → Nat → List KeyStep →
      Option (RenderWidgetHostViewEfl × List NativeWebKeyboardEvent × Nat)
  | v, forwarded, acked, [] => some (v, forwarded, acked)
  | v, forwarded, acked, .down event filter :: rest =>
    runKeys env (v.HandleEvasEvent_KeyDown env event filter)
      (forwarded ++ newlyForwarded v (v.HandleEvasEvent_KeyDown env event filter)) acked rest
  | v, forwarded, acked, .ack processed :: rest =>
    match forwarded[acked]? with
    | some e =>
      runKeys env (v.OnDidInputEventHandled env e.toWebInputEvent processed)
        (forwarded ++
          newlyForwarded v (v.OnDidInputEventHandled env e.toWebInputEvent processed))
        (acked + 1) rest
    | none => none

/-- The key-downs of a schedule as the handler builds them, in arrival order. -/
def arrivals (env : Platform) : List KeyStep → List NativeWebKeyboardEvent
  | [] => []
  | .down event filter :: rest => hardwareEvent env event filter.filtered :: arrivals env rest
  | .ack _ :: rest => arrivals env rest

/-- The number of acknowledgements in a schedule. -/
def ackCount : List KeyStep → Nat
  | [] => 0
  | .down _ _ :: rest => ackCount rest
  | .ack _ :: rest => ackCount rest + 1

/-- Every key-down of the schedule is a `KeyDown` event without modifier bits. -/
def PlainKeys (env : Platform) : List KeyStep → Prop
  | [] => True
  | .down event _ :: rest =>
    ((env.toWebKeyboardEvent event).type = .KeyDown ∧
      (env.toWebKeyboardEvent event).modifiers = 0) ∧ PlainKeys env rest
  | .ack _ :: rest => PlainKeys env rest

/-- The eight members that the key-down queue keeps of an event. -/
def keySignature (e : NativeWebKeyboardEvent) :
    WebInputEventType × Int × Nat × Int × Int × Bool × Nat × Nat :=
  (e.type, e.modifiers, e.timeStampSeconds, e.nativeKeyCode, e.windowsKeyCode, e.isSystemKey,
    e.unmodifiedText0, e.text0)

/-- What holds between the key-downs of a schedule: `arrived` lists the
key-downs that have arrived, `forwarded` those forwarded, `acked` counts the
acknowledgements. -/
def KeysInv (v : RenderWidgetHostViewEfl) (forwarded : List NativeWebKeyboardEvent) (acked : Nat)
    (arrived : List NativeWebKeyboardEvent) : Prop :=
  (∃ im, v.im_context_ = some im) ∧
  v.is_modifier_key_ = false ∧
  v.keyupev_queue_.length + acked = arrived.length ∧
  ((forwarded ++ v.keydownev_queue_).map keySignature).Perm (arrived.map keySignature) ∧
  (∀ e ∈ forwarded, e.type = .KeyDown ∧ e.modifiers = 0) ∧
  (∀ e ∈ v.keydownev_queue_, e.type = .KeyDown ∧ e.modifiers = 0) ∧
  acked ≤ forwarded.length ∧
  (acked < arrived.length → acked < forwarded.length)

/-- The steps of hardware key-downs arriving in a row. -/
def downSteps (downs : List (EvasKeyEvent × FilterOutcome)) : List KeyStep :=
  downs.map (fun d => KeyStep.down d.1 d.2)

/-- The steps of acknowledgements arriving in a row. -/
def ackSteps (acks : List Bool) : List KeyStep :=
  acks.map KeyStep.ack

/-- The schedule in which the keys `a`, `b` and `c` arrive in a row, the filter
call of each delivering a preedit, before the first acknowledgement. -/
def threeKeysOneAck : List KeyStep :=
  [.down keyA { callbacks := [.preeditChanged (some [97])], filtered := true },
   .down keyB { callbacks := [.preeditChanged (some [97, 98])], filtered := true },
   .down keyC { callbacks := [.preeditChanged (some [97, 98, 99])], filtered := true },
   .ack false]

/-- The schedule in which the keys `a`, `b` and `c` arrive in a row, each
delivering a preedit, followed by three acknowledgements. -/
def threeKeysThreeAcks : List KeyStep :=
  [.down keyA { callbacks := [.preeditChanged (some [97])], filtered := true },
   .down keyB { callbacks := [.preeditChanged (some [97, 98])], filtered := true },
   .down keyC { callbacks := [.preeditChanged (some [97, 98, 99])], filtered := true },
   .ack false, .ack false, .ack true]

/-! ## What `ShowPanel` sets -/

/-- The calls `ShowPanel` makes on the native context once it has chosen its
settings, as the specification describes them: the layout from the table, the
return-key label, and prediction allowed except for password fields. -/
def showCalls (input_type : TextInputType) (is_in_form_tag : Bool) : List ImfCall :=
  [.input_panel_layout_set (layoutTable input_type),
   .input_mode_set .ALPHA,
   .input_panel_return_key_type_set (returnKeyLabel input_type is_in_form_tag),
   .autocapital_type_set (if input_type = .TEXT_AREA then .SENTENCE else .NONE),
   .prediction_allow_set (decide (input_type ≠ .PASSWORD)),
   .focus_in,
   .input_panel_show]

/-- The session on which `ShowPanel` makes its calls: the given one, with the
native context recreated first when the panel was ever shown before. -/
def showBase (penv : PanelEnv) (im : IMContextEfl) : IMContextEfl :=
  if im.panel_was_ever_shown_ then im.ResetIMFContext penv.contextCreated else im

/-- The session after a call, whether it returned or hit a fatal assertion. -/
def sessionAfter :
    Except (IMContextEfl × RenderWidgetHostViewEfl) (IMContextEfl × RenderWidgetHostViewEfl) →
      IMContextEfl
  | .ok r => r.1
  | .error r => r.1

/-- A focused, freshly created session. -/
def focusedSession : IMContextEfl := { IMContextEfl.init with focused_ := true }

/-- A focused session on which the panel was shown for a password field before. -/
def passwordShownSession : IMContextEfl :=
  { IMContextEfl.init with
    focused_ := true
    panel_was_ever_shown_ := true
    input_type_ := .PASSWORD
    enabled_ := true
    context_ := showCalls .PASSWORD false }

/-- A panel environment: the keypad needs a user action, contexts can be created. -/
def samplePanelEnv : PanelEnv := { useKeyPadWithoutUserAction := false, contextCreated := true }

/-- The session after the first statements of the four-argument
`UpdateInputMethodState`: the input type and the enabled flag recorded, both
queues cleared, the native context reset. -/
def updateBase (im : IMContextEfl) (input_type : TextInputType) : IMContextEfl :=
  ((({ im with input_type_ := input_type, enabled_ := decide (input_type ≠ .NONE) } :
    IMContextEfl).ClearQueues).imf .reset)

/-! ## The end-to-end composition `h`, `hi`, commit `hi` -/

/-- The input method reports the preedit string `h`, outside any filter call. -/
def preeditH : Event := .imf (.preeditChanged (some [104]))

/-- The input method reports the preedit string `hi`, outside any filter call. -/
def preeditHi : Event := .imf (.preeditChanged (some textHi))

/-- The input method commits `hi`, outside any filter call. -/
def commitHi : Event := .imf (.commit textHi)

/-- The acknowledgement, not consumed, of the synthetic key-down forwarded for
the string `buf`. -/
def ackNotConsumed (env : Platform) (buf : CString) : Event :=
  .ack (fakeKeyEvent env buf).toWebInputEvent false

/-- The orders in which the three input-method events and the acknowledgements
of the three synthetic key-downs can arrive: each acknowledgement after the event
that forwarded its key-down, acknowledgements in forwarding order. -/
def hiSchedules (env : Platform) : List (List Event) :=
  [[preeditH, preeditHi, commitHi,
      ackNotConsumed env [104], ackNotConsumed env textHi, ackNotConsumed env textHi],
   [preeditH, preeditHi, ackNotConsumed env [104], commitHi,
      ackNotConsumed env textHi, ackNotConsumed env textHi],
   [preeditH, preeditHi, ackNotConsumed env [104], ackNotConsumed env textHi, commitHi,
      ackNotConsumed env textHi],
   [preeditH, ackNotConsumed env [104], preeditHi, commitHi,
      ackNotConsumed env textHi, ackNotConsumed env textHi],
   [preeditH, ackNotConsumed env [104], preeditHi, ackNotConsumed env textHi, commitHi,
      ackNotConsumed env textHi]]

/-- A focused session, otherwise as constructed, in a view with a host. -/
def focusedView : RenderWidgetHostViewEfl :=
  RenderWidgetHostViewEfl.init true (some focusedSession)

/-! ## Creation of the session -/

/-- The helper `CreateIMFContext`: whether it returns a context.
`default_context_id` is what `ecore_imf_context_default_id_get` returns and
`context_add` tells whether `ecore_imf_context_add` returns a context for an
id. -/
def CreateIMFContext (default_context_id : Option CString) (context_add : CString → Bool) :
    Bool :=
  match default_context_id with
  | none => false
  | some id => if !context_add id then false else true

/-- The constructor `IMContextEfl::IMContextEfl` in full: the member
initialisers, then `InitializeIMFContext`. -/
def IMContextEfl.ctor : IMContextEfl := IMContextEfl.init.InitializeIMFContext

/-- The factory `IMContextEfl::Create`: `none` is the null session. -/
def IMContextEfl.Create (default_context_id : Option CString) (context_add : CString → Bool) :
    Option IMContextEfl :=
  if !CreateIMFContext default_context_id context_add then none
  else some IMContextEfl.ctor

/-- A view with a host and no session, with entries in its key queues. -/
def sessionlessView : RenderWidgetHostViewEfl :=
  { RenderWidgetHostViewEfl.init true none with
    keyupev_queue_ := [1, 2]
    keydownev_queue_ := [samplePlatform.toWebKeyboardEvent keyB]
    is_modifier_key_ := true }


/-! ## Synthetic key events and the key queues -/

/-- The view after synthetic key-downs were sent for the strings `bufs`: their
key codes pushed on the key-up queue, the events forwarded. -/
def afterFakeKeys (env : Platform) (v : RenderWidgetHostViewEfl) (bufs : List CString) :
    RenderWidgetHostViewEfl :=
  { v with
    keyupev_queue_ := v.keyupev_queue_ ++ bufs.map (fun b => (fakeKeyEvent env b).windowsKeyCode)
    host_calls := v.host_calls ++
      bufs.map (fun b => HostCall.ForwardKeyboardEvent (fakeKeyEvent env b)) }

/-- The key-down queue is not longer than the key-up queue. -/
def RenderWidgetHostViewEfl.KeyDownsCovered (v : RenderWidgetHostViewEfl) : Prop :=
  v.keydownev_queue_.length ≤ v.keyupev_queue_.length

/-- A run in which a second key-down is queued behind a pending preedit. -/
def queueingRun : List Event :=
  [.keyDown keyA { callbacks := [.preeditChanged (some [104])], filtered := true },
   .keyDown keyB { callbacks := [], filtered := false },
   .keyDown keyC { callbacks := [], filtered := false },
   .ack plainKeyDown false]

/-- The key-up events forwarded in a call log, in order. -/
def forwardedKeyUps : List HostCall → List NativeWebKeyboardEvent
  | [] => []
  | .ForwardKeyboardEvent e :: rest =>
    if e.type = .KeyUp then e :: forwardedKeyUps rest else forwardedKeyUps rest
  | _ :: rest => forwardedKeyUps rest

/-- No event waiting in the key-down queue is a key-up event. -/
def RenderWidgetHostViewEfl.NoQueuedKeyUp (v : RenderWidgetHostViewEfl) : Prop :=
  ∀ e ∈ v.keydownev_queue_, e.type ≠ .KeyUp

/-- The hardware key-up of the key `a`, whose filter call commits `a`. -/
def keyUpA : Event := .keyUp keyA { callbacks := [.commit [97]], filtered := true }

/-- A hardware key to which the sample key-event factory gives the key code 190
(`VK_OEM_PERIOD`), no modifier held. -/
def keyPeriod : EvasKeyEvent := { key := [190], string := some [46], other := 0 }

/-! ## `UpdateWebTouchEventAfterDispatch` -/

/-- The `blink::WebTouchPoint::State` enumeration. -/
inductive WebTouchPointState
  | StateUndefined
  | StateReleased
  | StatePressed
  | StateMoved
  | StateStationary
  | StateCancelled
  deriving DecidableEq

/-- A `blink::WebTouchPoint`: its `id`, its `state`, and `other` for every
remaining member. -/
structure WebTouchPoint where
  id : Int
  state : WebTouchPointState
  other : Nat
  deriving DecidableEq

/-- The members of a `blink::WebTouchEvent` the function touches: the `unsigned`
count `touchesLength` and the array `touches`, a list as long as the array's
capacity. -/
structure WebTouchEvent where
  touchesLength : Nat
  touches : List WebTouchPoint
  deriving DecidableEq

/-- The loop `for (i = ...; i < event->touchesLength; ++i) event->touches[i] =
event->touches[i + 1];`, entered at index `i` with `n` iterations to go (the
difference between `touchesLength` and `i`).  The result is the array together
with the indices read and written, in order; `none` when an index is outside
the array. -/
def shiftTouches (touches : List WebTouchPoint) (i : Nat) :
    Nat → Option (List WebTouchPoint × List Nat)
  | 0 => some (touches, [])
  | n + 1 =>
    match touches[i + 1]? with
    | none => none
    | some next =>
      if i < touches.length then
        (shiftTouches (touches.set i next) (i + 1) n).map
          (fun r => (r.1, (i + 1) :: i :: r.2))
      else none

/-- The function `UpdateWebTouchEventAfterDispatch`; `point` is the index
`point - event->touches` of the touch point in the event's array.  The result
is the event together with the array indices read and written, in order; `none`
when an index is outside the array. -/
def UpdateWebTouchEventAfterDispatch (event : WebTouchEvent) (point : Nat) :
    Option (WebTouchEvent × List Nat) :=
  match event.touches[point]? with
  | none => none
  | some p =>
    if p.state ≠ .StateReleased ∧ p.state ≠ .StateCancelled then
      some (event, [point])
    else
      let touchesLength := (event.touchesLength + 2 ^ 32 - 1) % 2 ^ 32
      (shiftTouches event.touches point (touchesLength - point)).map
        (fun r => ({ touchesLength := touchesLength, touches := r.1 }, point :: r.2))

/-- A touch point with the given id and state. -/
def touchPoint (id : Int) (state : WebTouchPointState) : WebTouchPoint :=
  { id := id, state := state, other := 0 }

/-- A touch event with three live points in an array of capacity four; the
middle one was released. -/
def threeTouches : WebTouchEvent :=
  { touchesLength := 3
    touches := [touchPoint 0 .StateMoved, touchPoint 1 .StateReleased,
                touchPoint 2 .StateStationary, touchPoint 9 .StateUndefined] }

/-! ## `ContextMenuControllerEfl::DownloadFile`: the search for a free name -/

/-- A `base::FilePath`: the bytes of its value. -/
abbrev FilePath := List Nat

/-- What the search takes from outside the repository: the file system as
`base::PathExists` sees it (taken not to change during the search) and the two
`base::FilePath` operations. -/
structure DownloadEnv where
  PathExists : FilePath → Bool
  Append : FilePath → FilePath → FilePath
  InsertBeforeExtension : FilePath → List Nat → FilePath

/-- The decimal digits of a number, most significant first, as `%d` prints a
non-negative value; the first argument bounds the number of digits. -/
def decimalDigits : Nat → Nat → List Nat
  | 0, _ => []
  | fuel + 1, n => if n < 10 then [48 + n] else decimalDigits fuel (n / 10) ++ [48 + n % 10]

/-- The output of the format `"(%d)"` for a non-negative value. -/
def formatIndex (i : Nat) : List Nat := [40] ++ decimalDigits (i + 1) i ++ [41]

/-- The string left in a buffer of `size` bytes by `snprintf`: the output cut
to `size - 1` bytes, before the terminating NUL. -/
def snprintf (size : Nat) (output : List Nat) : CString := output.take (size - 1)

/-- The path tried at index `i`: `outputDir.Append(fileName.InsertBeforeExtension(
std::string(buffer)))` with `buffer` filled by `snprintf(buffer, sizeof(buffer),
"(%d)", i)`, `buffer` being six bytes long. -/
def DownloadFile.variant (denv : DownloadEnv) (outputDir fileName : FilePath) (i : Nat) :
    FilePath :=
  denv.Append outputDir (denv.InsertBeforeExtension fileName (snprintf 6 (formatIndex i)))

/-- The loop `for (i = 0; PathExists(fullPath) && i <= 999; i++)`, entered at
index `i` with `fullPath`; the first argument bounds the number of condition
tests, of which there are at most 1001. -/
def DownloadFile.forLoop (denv : DownloadEnv) (outputDir fileName : FilePath) :
    Nat → Nat → FilePath → FilePath
  | 0, _, fullPath => fullPath
  | n + 1, i, fullPath =>
    if denv.PathExists fullPath && decide (i ≤ 999) then
      DownloadFile.forLoop denv outputDir fileName n (i + 1)
        (DownloadFile.variant denv outputDir fileName i)
    else fullPath

/-- The loop `while (PathExists(fullPath))` around the `for` loop; `none` when
the given number of iterations does not end it. -/
def DownloadFile.whileLoop (denv : DownloadEnv) (outputDir fileName : FilePath) :
    Nat → FilePath → Option FilePath
  | 0, _ => none
  | fuel + 1, fullPath =>
    if denv.PathExists fullPath then
      DownloadFile.whileLoop denv outputDir fileName fuel
        (DownloadFile.forLoop denv outputDir fileName 1001 0 fullPath)
    else some fullPath

/-- The path `ContextMenuControllerEfl::DownloadFile` passes to the download
manager and returns; `fileName` is what `net::GenerateFileName` returns for
the URL.  The result is `none` when `fuel` iterations of the outer loop do not
end the search. -/
def ContextMenuControllerEfl.DownloadFile (denv : DownloadEnv) (fuel : Nat)
    (outputDir fileName : FilePath) : Option FilePath :=
  DownloadFile.whileLoop denv outputDir fileName fuel (denv.Append outputDir fileName)

/-- A file system for concrete evaluations: paths are joined with `/`, the
insertion appends to the name, and exactly the paths `d/f`, `d/f(0)` and
`d/f(1)` exist. -/
def sampleDownloadEnv : DownloadEnv :=
  { PathExists := fun p =>
      decide (p = [100, 47, 102] ∨ p = [100, 47, 102, 40, 48, 41] ∨
        p = [100, 47, 102, 40, 49, 41])
    Append := fun dir name => dir ++ [47] ++ name
    InsertBeforeExtension := fun name s => name ++ s }

/-! ## Queue operations made by an acknowledgement -/

/-- The four queues of the sequencer. -/
inductive QueueName
  | commit_queue
  | preedit_queue
  | keyupev_queue
  | keydownev_queue
  deriving DecidableEq

/-- A call of a `std::queue` member on one of the four queues. -/
inductive QueueOp
  | empty (q : QueueName)
  | front (q : QueueName)
  | pop (q : QueueName)
  deriving DecidableEq

/-- The method `RenderWidgetHostViewEfl::HandleCommitQueue` with the queue
operations it makes listed in order; `none` when `front()` is called on an empty
queue, which is undefined. -/
def RenderWidgetHostViewEfl.HandleCommitQueueTraced (v : RenderWidgetHostViewEfl)
    (processed : Bool) : Option (RenderWidgetHostViewEfl × List QueueOp) :=
  match v.im_context_ with
  | none => some (v, [])
  | some im =>
    if !processed then
      if !im.GetCommitQueue.isEmpty then
        match im.GetCommitQueue.head? with
        | none => none
        | some text16 =>
          some ({ v.call (.ImeConfirmComposition text16) with
                  im_context_ := some im.CommitQueuePop },
                [.empty .commit_queue, .front .commit_queue, .pop .commit_queue])
      else some (v, [.empty .commit_queue])
    else
      if !im.GetCommitQueue.isEmpty then
        some ({ v with im_context_ := some im.CommitQueuePop },
              [.empty .commit_queue, .pop .commit_queue])
      else some (v, [.empty .commit_queue])

/-- The method `RenderWidgetHostViewEfl::HandlePreeditQueue` with the queue
operations it makes listed in order; `none` when `front()` is called on an empty
queue. -/
def RenderWidgetHostViewEfl.HandlePreeditQueueTraced (v : RenderWidgetHostViewEfl)
    (processed : Bool) : Option (RenderWidgetHostViewEfl × List QueueOp) :=
  match v.im_context_ with
  | none => some (v, [])
  | some im =>
    if !processed then
      if !im.GetPreeditQueue.isEmpty then
        match im.GetPreeditQueue.head? with
        | none => none
        | some composition_ =>
          some ({ v.call (.ImeSetComposition composition_.text composition_.underlines
                    composition_.selection.start composition_.selection.finish) with
                  im_context_ := some im.PreeditQueuePop },
                [.empty .preedit_queue, .front .preedit_queue, .pop .preedit_queue])
      else some (v, [.empty .preedit_queue])
    else
      if !im.GetPreeditQueue.isEmpty then
        some ({ v with im_context_ := some im.PreeditQueuePop },
              [.empty .preedit_queue, .pop .preedit_queue])
      else some (v, [.empty .preedit_queue])

/-- The method `RenderWidgetHostViewEfl::HandleKeyUpQueue` with the queue
operations it makes listed in order; `none` when `front()` is called on an empty
queue. -/
def RenderWidgetHostViewEfl.HandleKeyUpQueueTraced (env : Platform)
    (v : RenderWidgetHostViewEfl) : Option (RenderWidgetHostViewEfl × List QueueOp) :=
  match v.im_context_ with
  | none => some (v, [])
  | some _ =>
    if v.keyupev_queue_.isEmpty then some (v, [.empty .keyupev_queue])
    else
      match v.keyupev_queue_.head? with
      | none => none
      | some keyCode =>
        some ({ v.SendCompositionKeyUpEvent env keyCode with
                keyupev_queue_ := v.keyupev_queue_.tail },
              [.empty .keyupev_queue, .front .keyupev_queue, .pop .keyupev_queue])

/-- The method `RenderWidgetHostViewEfl::HandleKeyDownQueue` with the queue
operations it makes listed in order; `none` when `front()` is called on an empty
queue. -/
def RenderWidgetHostViewEfl.HandleKeyDownQueueTraced (v : RenderWidgetHostViewEfl) :
    Option (RenderWidgetHostViewEfl × List QueueOp) :=
  match v.im_context_ with
  | none => some (v, [])
  | some _ =>
    if v.keydownev_queue_.isEmpty then some (v, [.empty .keydownev_queue])
    else
      match v.keydownev_queue_.head? with
      | none => none
      | some n_event =>
        some ({ v.call (.ForwardKeyboardEvent n_event) with
                keydownev_queue_ := v.keydownev_queue_.tail },
              [.empty .keydownev_queue, .front .keydownev_queue, .pop .keydownev_queue])

/-- Run a traced handler after another: the operations of the first, then those
of the second. -/
def thenTraced (r : Option (RenderWidgetHostViewEfl × List QueueOp))
    (f : RenderWidgetHostViewEfl → Option (RenderWidgetHostViewEfl × List QueueOp)) :
    Option (RenderWidgetHostViewEfl × List QueueOp) :=
  match r with
  | none => none
  | some (v, ops) =>
    match f v with
    | none => none
    | some (v', ops') => some (v', ops ++ ops')

/-- One drain cycle with its queue operations: the four handlers in the order
in which `OnDidInputEventHandled` calls them. -/
def RenderWidgetHostViewEfl.drainCycleTraced (env : Platform) (v : RenderWidgetHostViewEfl)
    (processed : Bool) : Option (RenderWidgetHostViewEfl × List QueueOp) :=
  thenTraced
    (thenTraced
      (thenTraced (v.HandleCommitQueueTraced processed)
        (fun v => v.HandlePreeditQueueTraced processed))
      (fun v => v.HandleKeyUpQueueTraced env))
    (fun v => v.HandleKeyDownQueueTraced)

/-- The method `RenderWidgetHostViewEfl::OnDidInputEventHandled` with the queue
operations it makes listed in order. -/
def RenderWidgetHostViewEfl.OnDidInputEventHandledTraced (env : Platform)
    (v : RenderWidgetHostViewEfl) (input_event : WebInputEvent) (processed : Bool) :
    Option (RenderWidgetHostViewEfl × List QueueOp) :=
  match v.im_context_ with
  | none => some (v, [])
  | some _ =>
    if isKeyboardEventType input_event.type then
      if input_event.type = .KeyDown then
        if input_event.modifiers ≠ 0 ∧ v.is_modifier_key_ = false then
          some ({ v with is_modifier_key_ := true }, [])
        else
          thenTraced
            (if v.is_modifier_key_ then
              thenTraced (v.drainCycleTraced env processed)
                (fun v => some ({ v with is_modifier_key_ := false }, []))
            else some (v, []))
            (fun v => v.drainCycleTraced env processed)
      else some (v, [])
    else some (v, [])

/-! # Theorems -/

/-! ## Basic facts -/

@[simp]
theorem popAll_eq_nil {α : Type} (l : List α) : popAll l = [] := by
  induction l with
  | nil => rfl
  | cons _ _ ih => simpa [popAll] using ih

@[simp]
theorem confirmedTexts_append (l₁ l₂ : List HostCall) :
    confirmedTexts (l₁ ++ l₂) = confirmedTexts l₁ ++ confirmedTexts l₂ := by
  induction l₁ with
  | nil => rfl
  | cons c rest ih => cases c <;> simp [confirmedTexts, ih]

@[simp]
theorem setCompositions_append (l₁ l₂ : List HostCall) :
    setCompositions (l₁ ++ l₂) = setCompositions l₁ ++ setCompositions l₂ := by
  induction l₁ with
  | nil => rfl
  | cons c rest ih => cases c <;> simp [setCompositions, ih]

@[simp]
theorem forwardedKeyDowns_append (l₁ l₂ : List HostCall) :
    forwardedKeyDowns (l₁ ++ l₂) = forwardedKeyDowns l₁ ++ forwardedKeyDowns l₂ := by
  induction l₁ with
  | nil => rfl
  | cons c rest ih =>
    cases c with
    | ForwardKeyboardEvent e =>
      by_cases h : e.type = .KeyDown <;> simp [forwardedKeyDowns, h, ih]
    | _ => simp [forwardedKeyDowns, ih]

@[simp]
theorem hardwareEvent_type (env : Platform) (event : EvasKeyEvent) (filtered : Bool) :
    (hardwareEvent env event filtered).type = (env.toWebKeyboardEvent event).type := by
  cases filtered <;> rfl

@[simp]
theorem hardwareEvent_modifiers (env : Platform) (event : EvasKeyEvent) (filtered : Bool) :
    (hardwareEvent env event filtered).modifiers = (env.toWebKeyboardEvent event).modifiers := by
  cases filtered <;> rfl

@[simp]
theorem hardwareEvent_windowsKeyCode (env : Platform) (event : EvasKeyEvent) (filtered : Bool) :
    (hardwareEvent env event filtered).windowsKeyCode =
      (env.toWebKeyboardEvent event).windowsKeyCode := by
  cases filtered <;> rfl

/-! ## C1: a commit delivered inside a key-down filter call -/

/-- C1: from an idle sequencer, a hardware key-down `D1` without modifier bits
whose filter call delivers the commit `t`, followed by the acknowledgement of
`D1`: the key-down itself makes no confirm call (it only forwards `D1`); the
acknowledgement confirms `t` exactly once when the event was not consumed and
never when it was consumed; the commit queue is empty afterwards. -/
theorem C1_commit_confirmed_iff_not_consumed (env : Platform) (v : RenderWidgetHostViewEfl)
    (D1 : EvasKeyEvent) (t : CString) (filtered consumed : Bool)
    (hidle : v.Idle)
    (htype : (env.toWebKeyboardEvent D1).type = .KeyDown)
    (hmod : (env.toWebKeyboardEvent D1).modifiers = 0) :
    let v1 := v.HandleEvasEvent_KeyDown env D1 { callbacks := [.commit t], filtered := filtered }
    let v2 := v1.OnDidInputEventHandled env (hardwareEvent env D1 filtered).toWebInputEvent consumed
    v1.host_calls = v.host_calls ++ [.ForwardKeyboardEvent (hardwareEvent env D1 filtered)] ∧
    confirmedTexts v1.host_calls = confirmedTexts v.host_calls ∧
    (∃ im1, v1.im_context_ = some im1 ∧ im1.commit_queue_ = [env.UTF8ToUTF16 t]) ∧
    v2.host_calls = v1.host_calls ++
      (if consumed then [] else [.ImeConfirmComposition (env.UTF8ToUTF16 t)]) ++
      [.ForwardKeyboardEvent (keyUpEventFor env (env.toWebKeyboardEvent D1).windowsKeyCode)] ∧
    confirmedTexts v2.host_calls = confirmedTexts v.host_calls ++
      (if consumed then [] else [env.UTF8ToUTF16 t]) ∧
    (∃ im2, v2.im_context_ = some im2 ∧ im2.commit_queue_ = []) := by
  obtain ⟨im, him, hc, hp, hku, hkd, hflag⟩ := hidle
  cases filtered <;> cases consumed <;>
    simp [RenderWidgetHostViewEfl.HandleEvasEvent_KeyDown, IMContextEfl.HandleKeyDownEvent,
      IMContextEfl.deliverAll, IMContextEfl.deliver, IMContextEfl.OnCommit,
      IMContextEfl.SendFakeCompositionKeyEvent, RenderWidgetHostViewEfl.OnDidInputEventHandled,
      RenderWidgetHostViewEfl.HandleCommitQueue, RenderWidgetHostViewEfl.HandlePreeditQueue,
      RenderWidgetHostViewEfl.HandleKeyUpQueue, RenderWidgetHostViewEfl.HandleKeyDownQueue,
      RenderWidgetHostViewEfl.SendCompositionKeyUpEvent, RenderWidgetHostViewEfl.call,
      IMContextEfl.GetCommitQueue, IMContextEfl.GetPreeditQueue, IMContextEfl.CommitQueuePop,
      IMContextEfl.PreeditQueuePop, NativeWebKeyboardEvent.toWebInputEvent, isKeyboardEventType,
      hardwareEvent, keyUpEventFor, confirmedTexts, him, hc, hp, hku, hkd, hflag, htype, hmod]

/-! ## Drain cycles and acknowledgements -/

/-- One drain cycle pops the front of each non-empty queue, leaves the entries
behind the fronts queued, and makes its calls in the order commit, preedit,
key-up, key-down. -/
theorem drainCycle_eq (env : Platform) (v : RenderWidgetHostViewEfl) (im : IMContextEfl)
    (processed : Bool) (him : v.im_context_ = some im) :
    v.drainCycle env processed =
      { v with
        host_calls := v.host_calls ++ drainCalls env processed im.commit_queue_
          im.preedit_queue_ v.keyupev_queue_ v.keydownev_queue_
        im_context_ := some { im with commit_queue_ := im.commit_queue_.tail
                                      preedit_queue_ := im.preedit_queue_.tail }
        keyupev_queue_ := v.keyupev_queue_.tail
        keydownev_queue_ := v.keydownev_queue_.tail } := by
  obtain ⟨host, calls, imo, ku, kd, flag⟩ := v
  obtain ⟨ctx, foc, en, shown, form, handling, ty, comp, cq, pq⟩ := im
  simp only at him
  subst him
  cases processed <;> cases cq <;> cases pq <;> cases ku <;> cases kd <;>
    simp [RenderWidgetHostViewEfl.drainCycle, RenderWidgetHostViewEfl.HandleCommitQueue,
      RenderWidgetHostViewEfl.HandlePreeditQueue, RenderWidgetHostViewEfl.HandleKeyUpQueue,
      RenderWidgetHostViewEfl.HandleKeyDownQueue, RenderWidgetHostViewEfl.SendCompositionKeyUpEvent,
      RenderWidgetHostViewEfl.call, IMContextEfl.GetCommitQueue, IMContextEfl.GetPreeditQueue,
      IMContextEfl.CommitQueuePop, IMContextEfl.PreeditQueuePop, drainCalls, keyUpEventFor]

/-- A drain cycle does not read the modifier flag. -/
theorem drainCycle_setFlag (env : Platform) (v : RenderWidgetHostViewEfl) (processed b : Bool) :
    ({ v with is_modifier_key_ := b } : RenderWidgetHostViewEfl).drainCycle env processed =
      { v.drainCycle env processed with is_modifier_key_ := b } := by
  obtain ⟨host, calls, imo, ku, kd, flag⟩ := v
  cases imo with
  | none =>
    simp [RenderWidgetHostViewEfl.drainCycle, RenderWidgetHostViewEfl.HandleCommitQueue,
      RenderWidgetHostViewEfl.HandlePreeditQueue, RenderWidgetHostViewEfl.HandleKeyUpQueue,
      RenderWidgetHostViewEfl.HandleKeyDownQueue]
  | some im =>
    rw [drainCycle_eq env _ im processed rfl, drainCycle_eq env _ im processed rfl]

/-- Without a session the acknowledgement handler returns at once. -/
theorem OnDidInputEventHandled_none (env : Platform) (v : RenderWidgetHostViewEfl)
    (e : WebInputEvent) (processed : Bool) (h : v.im_context_ = none) :
    v.OnDidInputEventHandled env e processed = v := by
  simp [RenderWidgetHostViewEfl.OnDidInputEventHandled, h]

/-- A key-down acknowledgement without modifier bits, received while the modifier
flag is unset, is one drain cycle. -/
theorem ack_plain (env : Platform) (v : RenderWidgetHostViewEfl) (e : WebInputEvent)
    (processed : Bool) (htype : e.type = .KeyDown) (hmod : e.modifiers = 0)
    (hflag : v.is_modifier_key_ = false) :
    v.OnDidInputEventHandled env e processed = v.drainCycle env processed := by
  cases him : v.im_context_ with
  | none =>
    simp [RenderWidgetHostViewEfl.OnDidInputEventHandled, RenderWidgetHostViewEfl.drainCycle,
      RenderWidgetHostViewEfl.HandleCommitQueue, RenderWidgetHostViewEfl.HandlePreeditQueue,
      RenderWidgetHostViewEfl.HandleKeyUpQueue, RenderWidgetHostViewEfl.HandleKeyDownQueue, him]
  | some im =>
    simp [RenderWidgetHostViewEfl.OnDidInputEventHandled, RenderWidgetHostViewEfl.drainCycle,
      isKeyboardEventType, him, htype, hmod, hflag]

/-- Field by field: one drain cycle on a view with a session. -/
theorem drainCycle_im (env : Platform) (v : RenderWidgetHostViewEfl) (im : IMContextEfl)
    (processed : Bool) (him : v.im_context_ = some im) :
    (v.drainCycle env processed).im_context_ =
      some { im with commit_queue_ := im.commit_queue_.tail
                     preedit_queue_ := im.preedit_queue_.tail } := by
  rw [drainCycle_eq env v im processed him]

theorem drainCycle_keyup (env : Platform) (v : RenderWidgetHostViewEfl) (im : IMContextEfl)
    (processed : Bool) (him : v.im_context_ = some im) :
    (v.drainCycle env processed).keyupev_queue_ = v.keyupev_queue_.tail := by
  rw [drainCycle_eq env v im processed him]

theorem drainCycle_keydown (env : Platform) (v : RenderWidgetHostViewEfl) (im : IMContextEfl)
    (processed : Bool) (him : v.im_context_ = some im) :
    (v.drainCycle env processed).keydownev_queue_ = v.keydownev_queue_.tail := by
  rw [drainCycle_eq env v im processed him]

theorem drainCycle_calls (env : Platform) (v : RenderWidgetHostViewEfl) (im : IMContextEfl)
    (processed : Bool) (him : v.im_context_ = some im) :
    (v.drainCycle env processed).host_calls =
      v.host_calls ++ drainCalls env processed im.commit_queue_ im.preedit_queue_
        v.keyupev_queue_ v.keydownev_queue_ := by
  rw [drainCycle_eq env v im processed him]

theorem drainCycle_flag (env : Platform) (v : RenderWidgetHostViewEfl) (processed : Bool) :
    (v.drainCycle env processed).is_modifier_key_ = v.is_modifier_key_ := by
  cases him : v.im_context_ with
  | none =>
    simp [RenderWidgetHostViewEfl.drainCycle, RenderWidgetHostViewEfl.HandleCommitQueue,
      RenderWidgetHostViewEfl.HandlePreeditQueue, RenderWidgetHostViewEfl.HandleKeyUpQueue,
      RenderWidgetHostViewEfl.HandleKeyDownQueue, him]
  | some im => rw [drainCycle_eq env v im processed him]

theorem drainCycle_host (env : Platform) (v : RenderWidgetHostViewEfl) (processed : Bool) :
    (v.drainCycle env processed).host_ = v.host_ := by
  cases him : v.im_context_ with
  | none =>
    simp [RenderWidgetHostViewEfl.drainCycle, RenderWidgetHostViewEfl.HandleCommitQueue,
      RenderWidgetHostViewEfl.HandlePreeditQueue, RenderWidgetHostViewEfl.HandleKeyUpQueue,
      RenderWidgetHostViewEfl.HandleKeyDownQueue, him]
  | some im => rw [drainCycle_eq env v im processed him]

/-- With a session, a key-down acknowledgement received while the modifier flag
is set runs a drain cycle, clears the flag and runs a second drain cycle. -/
theorem ack_flagged (env : Platform) (v : RenderWidgetHostViewEfl) (im : IMContextEfl)
    (e : WebInputEvent) (processed : Bool) (him : v.im_context_ = some im)
    (htype : e.type = .KeyDown) (hflag : v.is_modifier_key_ = true) :
    v.OnDidInputEventHandled env e processed =
      { (v.drainCycle env processed).drainCycle env processed with is_modifier_key_ := false } := by
  rw [← drainCycle_setFlag]
  simp [RenderWidgetHostViewEfl.OnDidInputEventHandled, RenderWidgetHostViewEfl.drainCycle,
    isKeyboardEventType, him, htype, hflag]

/-- With a session, a key-down acknowledgement carrying modifier bits, received
while the modifier flag is unset, only sets the flag. -/
theorem ack_modifier (env : Platform) (v : RenderWidgetHostViewEfl) (im : IMContextEfl)
    (e : WebInputEvent) (processed : Bool) (him : v.im_context_ = some im)
    (htype : e.type = .KeyDown) (hmod : e.modifiers ≠ 0) (hflag : v.is_modifier_key_ = false) :
    v.OnDidInputEventHandled env e processed = { v with is_modifier_key_ := true } := by
  simp [RenderWidgetHostViewEfl.OnDidInputEventHandled, isKeyboardEventType, him, htype, hmod,
    hflag]

/-! ## C2: the preedit step of a drain -/

/-- C2: when the preedit queue is `p :: rest`, `HandlePreeditQueue(false)` makes
exactly one `ImeSetComposition` call carrying the text, underlines and selection
bounds of `p` and pops `p`; `HandlePreeditQueue(true)` pops `p` and makes no
call; in both cases the queue left is `rest` and nothing else changes. -/
theorem C2_preedit_step (v : RenderWidgetHostViewEfl) (im : IMContextEfl)
    (p : CompositionText) (rest : List CompositionText)
    (him : v.im_context_ = some im) (hq : im.preedit_queue_ = p :: rest) :
    v.HandlePreeditQueue false =
      { v with
        host_calls := v.host_calls ++
          [.ImeSetComposition p.text p.underlines p.selection.start p.selection.finish]
        im_context_ := some { im with preedit_queue_ := rest } } ∧
    v.HandlePreeditQueue true =
      { v with im_context_ := some { im with preedit_queue_ := rest } } := by
  simp [RenderWidgetHostViewEfl.HandlePreeditQueue, RenderWidgetHostViewEfl.call,
    IMContextEfl.GetPreeditQueue, IMContextEfl.PreeditQueuePop, him, hq]

/-! ## C1 and C2 at concrete inputs -/

theorem freshView_Idle : freshView.Idle :=
  ⟨IMContextEfl.init, rfl, rfl, rfl, rfl, rfl, rfl⟩

/-- C1 at a concrete input: key `a` whose filter call commits the text `a`, not consumed. -/
theorem C1_commit_confirmed_iff_not_consumed_witness :
    freshView.Idle ∧
    (samplePlatform.toWebKeyboardEvent keyA).type = .KeyDown ∧
    (samplePlatform.toWebKeyboardEvent keyA).modifiers = 0 ∧
    confirmedTexts
      ((freshView.HandleEvasEvent_KeyDown samplePlatform keyA
          { callbacks := [.commit [97]], filtered := true }).OnDidInputEventHandled samplePlatform
        (hardwareEvent samplePlatform keyA true).toWebInputEvent false).host_calls = [[97]] :=
  ⟨freshView_Idle, rfl, rfl,
    (C1_commit_confirmed_iff_not_consumed samplePlatform freshView keyA [97] true false
      freshView_Idle rfl rfl).2.2.2.2.1⟩

/-- C2 at a concrete input: a preedit queue holding two snapshots. -/
theorem C2_preedit_step_witness :
    (({ freshView with im_context_ := some { IMContextEfl.init with
          preedit_queue_ := [⟨[104], [], ⟨1, 1⟩⟩, ⟨[104, 105], [], ⟨2, 2⟩⟩] } } :
        RenderWidgetHostViewEfl).HandlePreeditQueue false).host_calls =
      [.ImeSetComposition [104] [] 1 1] :=
  congrArg RenderWidgetHostViewEfl.host_calls
    (C2_preedit_step
      { freshView with im_context_ := some { IMContextEfl.init with
          preedit_queue_ := [⟨[104], [], ⟨1, 1⟩⟩, ⟨[104, 105], [], ⟨2, 2⟩⟩] } }
      { IMContextEfl.init with preedit_queue_ := [⟨[104], [], ⟨1, 1⟩⟩, ⟨[104, 105], [], ⟨2, 2⟩⟩] }
      ⟨[104], [], ⟨1, 1⟩⟩ [⟨[104, 105], [], ⟨2, 2⟩⟩] rfl rfl).1

/-! ## What a filter call leaves behind -/

/-- While the guard flag is set, delivering callbacks only enqueues: the view is
left alone. -/
theorem deliverAll_handling (env : Platform) (im : IMContextEfl) (v : RenderWidgetHostViewEfl)
    (cbs : List ImfCallback) (h : im.is_handling_keydown_ = true) :
    im.deliverAll env v cbs =
      ({ im with
          composition_ := compositionAfter env im.composition_ cbs
          commit_queue_ := im.commit_queue_ ++ commitsOf env cbs
          preedit_queue_ := im.preedit_queue_ ++ preeditsOf env cbs }, v) := by
  induction cbs generalizing im with
  | nil => simp [IMContextEfl.deliverAll, compositionAfter, commitsOf, preeditsOf]
  | cons cb rest ih =>
    rw [IMContextEfl.deliverAll]
    cases cb with
    | commit text =>
      simp only [IMContextEfl.deliver, IMContextEfl.OnCommit,
        IMContextEfl.SendFakeCompositionKeyEvent, h, if_true]
      rw [ih]
      · simp [compositionAfter, commitsOf, preeditsOf]
      · rfl
    | preeditChanged buffer =>
      cases buffer with
      | none =>
        simp only [IMContextEfl.deliver, IMContextEfl.OnPreeditChanged]
        rw [ih]
        · simp [compositionAfter, commitsOf, preeditsOf]
        · exact h
      | some buf =>
        simp only [IMContextEfl.deliver, IMContextEfl.OnPreeditChanged,
          IMContextEfl.SendFakeCompositionKeyEvent, h, if_true]
        rw [ih]
        · simp [compositionAfter, commitsOf, preeditsOf, snapshot, CompositionText.Clear]
        · rfl

/-- The hardware key-down handler with a session, in closed form: the filter call
enqueues what it delivers, then the event is forwarded when the preedit queue or
the key-up queue is empty and queued otherwise, then its key code is pushed. -/
theorem HandleEvasEvent_KeyDown_eq (env : Platform) (v : RenderWidgetHostViewEfl)
    (im : IMContextEfl) (event : EvasKeyEvent) (filter : FilterOutcome)
    (him : v.im_context_ = some im) :
    v.HandleEvasEvent_KeyDown env event filter =
      { v with
        host_calls :=
          if (im.preedit_queue_ ++ preeditsOf env filter.callbacks).isEmpty ||
              v.keyupev_queue_.isEmpty then
            v.host_calls ++ [.ForwardKeyboardEvent (hardwareEvent env event filter.filtered)]
          else v.host_calls
        keydownev_queue_ :=
          if (im.preedit_queue_ ++ preeditsOf env filter.callbacks).isEmpty ||
              v.keyupev_queue_.isEmpty then
            v.keydownev_queue_
          else v.keydownev_queue_ ++ [queuedCopy env (hardwareEvent env event filter.filtered)]
        keyupev_queue_ := v.keyupev_queue_ ++ [(env.toWebKeyboardEvent event).windowsKeyCode]
        im_context_ := some { im with
          is_handling_keydown_ := false
          composition_ := compositionAfter env im.composition_ filter.callbacks
          commit_queue_ := im.commit_queue_ ++ commitsOf env filter.callbacks
          preedit_queue_ := im.preedit_queue_ ++ preeditsOf env filter.callbacks } } := by
  obtain ⟨host, calls, imo, ku, kd, flag⟩ := v
  obtain ⟨cbs, filtered⟩ := filter
  simp only at him
  subst him
  simp only [RenderWidgetHostViewEfl.HandleEvasEvent_KeyDown, IMContextEfl.HandleKeyDownEvent]
  rw [deliverAll_handling env _ _ _ rfl]
  by_cases hq : ((im.preedit_queue_ ++ preeditsOf env cbs).isEmpty || ku.isEmpty) = true
  · cases filtered <;>
      simp [hq, hardwareEvent, IMContextEfl.GetPreeditQueue, RenderWidgetHostViewEfl.call]
  · cases filtered <;>
      simp [hq, hardwareEvent, IMContextEfl.GetPreeditQueue, RenderWidgetHostViewEfl.call]

/-- Field by field: the hardware key-down handler on a view with a session. -/
theorem keyDown_im (env : Platform) (v : RenderWidgetHostViewEfl) (im : IMContextEfl)
    (event : EvasKeyEvent) (filter : FilterOutcome) (him : v.im_context_ = some im) :
    (v.HandleEvasEvent_KeyDown env event filter).im_context_ =
      some { im with
        is_handling_keydown_ := false
        composition_ := compositionAfter env im.composition_ filter.callbacks
        commit_queue_ := im.commit_queue_ ++ commitsOf env filter.callbacks
        preedit_queue_ := im.preedit_queue_ ++ preeditsOf env filter.callbacks } := by
  rw [HandleEvasEvent_KeyDown_eq env v im event filter him]

theorem keyDown_keyup (env : Platform) (v : RenderWidgetHostViewEfl) (im : IMContextEfl)
    (event : EvasKeyEvent) (filter : FilterOutcome) (him : v.im_context_ = some im) :
    (v.HandleEvasEvent_KeyDown env event filter).keyupev_queue_ =
      v.keyupev_queue_ ++ [(env.toWebKeyboardEvent event).windowsKeyCode] := by
  rw [HandleEvasEvent_KeyDown_eq env v im event filter him]

theorem keyDown_keydown (env : Platform) (v : RenderWidgetHostViewEfl) (im : IMContextEfl)
    (event : EvasKeyEvent) (filter : FilterOutcome) (him : v.im_context_ = some im) :
    (v.HandleEvasEvent_KeyDown env event filter).keydownev_queue_ =
      if (im.preedit_queue_ ++ preeditsOf env filter.callbacks).isEmpty ||
          v.keyupev_queue_.isEmpty then
        v.keydownev_queue_
      else v.keydownev_queue_ ++ [queuedCopy env (hardwareEvent env event filter.filtered)] := by
  rw [HandleEvasEvent_KeyDown_eq env v im event filter him]

theorem keyDown_calls (env : Platform) (v : RenderWidgetHostViewEfl) (im : IMContextEfl)
    (event : EvasKeyEvent) (filter : FilterOutcome) (him : v.im_context_ = some im) :
    (v.HandleEvasEvent_KeyDown env event filter).host_calls =
      if (im.preedit_queue_ ++ preeditsOf env filter.callbacks).isEmpty ||
          v.keyupev_queue_.isEmpty then
        v.host_calls ++ [.ForwardKeyboardEvent (hardwareEvent env event filter.filtered)]
      else v.host_calls := by
  rw [HandleEvasEvent_KeyDown_eq env v im event filter him]

theorem keyDown_flag (env : Platform) (v : RenderWidgetHostViewEfl)
    (event : EvasKeyEvent) (filter : FilterOutcome) :
    (v.HandleEvasEvent_KeyDown env event filter).is_modifier_key_ = v.is_modifier_key_ := by
  cases him : v.im_context_ with
  | none => simp [RenderWidgetHostViewEfl.HandleEvasEvent_KeyDown, RenderWidgetHostViewEfl.call, him]
  | some im => rw [HandleEvasEvent_KeyDown_eq env v im event filter him]

/-! ## C3: what one acknowledgement pops -/

/-- C3, failing as stated: acknowledged while the modifier flag is set, one
key-down acknowledgement pops two commits (both confirmed) and two key-ups, not
one of each. -/
theorem C3_counterexample :
    (flaggedView.OnDidInputEventHandled samplePlatform plainKeyDown false).im_context_ =
      some { IMContextEfl.init with commit_queue_ := [[99]] } ∧
    (flaggedView.OnDidInputEventHandled samplePlatform plainKeyDown false).keyupev_queue_ = [3] ∧
    confirmedTexts
      (flaggedView.OnDidInputEventHandled samplePlatform plainKeyDown false).host_calls =
      [[97], [98]] := by
  decide

/-- C3 (amended): a key-down acknowledgement that drains while the modifier flag
is unset pops exactly the front entry of each non-empty queue, and its calls come
in the order commit, preedit, synthetic key-up, queued key-down; the entries
behind the fronts stay queued and nothing else changes. -/
theorem C3_plain_ack_pops_one_of_each (env : Platform) (v : RenderWidgetHostViewEfl)
    (im : IMContextEfl) (e : WebInputEvent) (processed : Bool)
    (him : v.im_context_ = some im) (htype : e.type = .KeyDown) (hmod : e.modifiers = 0)
    (hflag : v.is_modifier_key_ = false) :
    v.OnDidInputEventHandled env e processed =
      { v with
        host_calls := v.host_calls ++ drainCalls env processed im.commit_queue_
          im.preedit_queue_ v.keyupev_queue_ v.keydownev_queue_
        im_context_ := some { im with commit_queue_ := im.commit_queue_.tail
                                      preedit_queue_ := im.preedit_queue_.tail }
        keyupev_queue_ := v.keyupev_queue_.tail
        keydownev_queue_ := v.keydownev_queue_.tail } := by
  rw [ack_plain env v e processed htype hmod hflag, drainCycle_eq env v im processed him]

/-- C3 (amended) at a concrete input: one of each is popped, in the fixed order. -/
theorem C3_plain_ack_pops_one_of_each_witness :
    (loadedView.OnDidInputEventHandled samplePlatform plainKeyDown false).host_calls =
      [.ImeConfirmComposition [97], .ImeSetComposition [104] [] 1 1,
       .ForwardKeyboardEvent (keyUpEventFor samplePlatform 1),
       .ForwardKeyboardEvent (samplePlatform.toWebKeyboardEvent keyB)] :=
  congrArg RenderWidgetHostViewEfl.host_calls
    (C3_plain_ack_pops_one_of_each samplePlatform loadedView
      { IMContextEfl.init with
        commit_queue_ := [[97], [98]]
        preedit_queue_ := [⟨[104], [], ⟨1, 1⟩⟩, ⟨[104, 105], [], ⟨2, 2⟩⟩] }
      plainKeyDown false rfl rfl rfl rfl)

/-! ## C4 and C5: the modifier flag -/

theorem tail_tail_eq_drop {α : Type} (l : List α) : l.tail.tail = l.drop 2 := by
  cases l with
  | nil => rfl
  | cons a t => cases t <;> rfl

/-- C4: with a session, a key-down acknowledgement carrying modifier bits that
arrives while the modifier flag is unset sets the flag and changes nothing else:
no queue entry is popped and no call is made.  Hence, from an idle sequencer, in
`[key-down Shift, key-down A, ack Shift, ack A]` the first acknowledgement leaves
all queues as they were and the second one flushes them: it empties the key-up
and key-down queues and drops up to two entries of the commit and preedit
queues. -/
theorem C4_modifier_ack_defers_drain (env : Platform) :
    (∀ (v : RenderWidgetHostViewEfl) (im : IMContextEfl) (e : WebInputEvent) (processed : Bool),
      v.im_context_ = some im → e.type = .KeyDown → e.modifiers ≠ 0 →
      v.is_modifier_key_ = false →
      v.OnDidInputEventHandled env e processed = { v with is_modifier_key_ := true }) ∧
    (∀ (v : RenderWidgetHostViewEfl) (shift a : EvasKeyEvent) (o₁ o₂ : FilterOutcome)
        (c₁ c₂ : Bool),
      v.Idle →
      (env.toWebKeyboardEvent shift).type = .KeyDown →
      (env.toWebKeyboardEvent shift).modifiers ≠ 0 →
      (env.toWebKeyboardEvent a).type = .KeyDown →
      let v₂ := (v.HandleEvasEvent_KeyDown env shift o₁).HandleEvasEvent_KeyDown env a o₂
      let v₃ := v₂.OnDidInputEventHandled env
        (hardwareEvent env shift o₁.filtered).toWebInputEvent c₁
      let v₄ := v₃.OnDidInputEventHandled env
        (hardwareEvent env a o₂.filtered).toWebInputEvent c₂
      v₃ = { v₂ with is_modifier_key_ := true } ∧
      v₂.keyupev_queue_ = [(env.toWebKeyboardEvent shift).windowsKeyCode,
                           (env.toWebKeyboardEvent a).windowsKeyCode] ∧
      v₄.keyupev_queue_ = [] ∧ v₄.keydownev_queue_ = [] ∧ v₄.is_modifier_key_ = false ∧
      ∃ im₂ im₄, v₂.im_context_ = some im₂ ∧ v₄.im_context_ = some im₄ ∧
        im₄.commit_queue_ = im₂.commit_queue_.drop 2 ∧
        im₄.preedit_queue_ = im₂.preedit_queue_.drop 2) := by
  refine ⟨fun v im e processed him htype hmod hflag =>
    ack_modifier env v im e processed him htype hmod hflag, ?_⟩
  intro v shift a o₁ o₂ c₁ c₂ hidle hts hms hta
  obtain ⟨im, him, hc, hp, hku, hkd, hflag⟩ := hidle
  intro v₂ v₃ v₄
  obtain ⟨im₁, him₁⟩ : ∃ x, (v.HandleEvasEvent_KeyDown env shift o₁).im_context_ = some x :=
    ⟨_, keyDown_im env v im shift o₁ him⟩
  have hku₁ := keyDown_keyup env v im shift o₁ him
  have hkd₁ := keyDown_keydown env v im shift o₁ him
  have hfl₁ := keyDown_flag env v shift o₁
  rw [hku] at hku₁ hkd₁
  rw [hkd] at hkd₁
  simp only [List.isEmpty_nil, Bool.or_true, if_true, List.nil_append] at hku₁ hkd₁
  obtain ⟨im₂, him₂⟩ : ∃ x, v₂.im_context_ = some x := ⟨_, keyDown_im env _ im₁ a o₂ him₁⟩
  have hku₂ : v₂.keyupev_queue_ = _ := keyDown_keyup env _ im₁ a o₂ him₁
  have hkd₂ : v₂.keydownev_queue_ = _ := keyDown_keydown env _ im₁ a o₂ him₁
  have hfl₂ : v₂.is_modifier_key_ = false := by
    rw [← hflag, ← hfl₁]; exact keyDown_flag env _ a o₂
  rw [hku₁] at hku₂
  rw [hkd₁] at hkd₂
  have h₃ : v₃ = { v₂ with is_modifier_key_ := true } :=
    ack_modifier env v₂ im₂ _ c₁ him₂
      (by simpa [NativeWebKeyboardEvent.toWebInputEvent] using hts)
      (by simpa [NativeWebKeyboardEvent.toWebInputEvent] using hms) hfl₂
  have him₃ : v₃.im_context_ = some im₂ := by rw [h₃]; exact him₂
  have h₄ : v₄ = { (v₃.drainCycle env c₂).drainCycle env c₂ with is_modifier_key_ := false } :=
    ack_flagged env v₃ im₂ _ c₂ him₃
      (by simpa [NativeWebKeyboardEvent.toWebInputEvent] using hta) (by rw [h₃])
  have himd := drainCycle_im env v₃ im₂ c₂ him₃
  refine ⟨h₃, hku₂, ?_, ?_, ?_, ?_⟩
  · rw [h₄]
    show ((v₃.drainCycle env c₂).drainCycle env c₂).keyupev_queue_ = []
    rw [drainCycle_keyup env _ _ c₂ himd, drainCycle_keyup env _ _ c₂ him₃, h₃]
    show v₂.keyupev_queue_.tail.tail = []
    rw [hku₂]; rfl
  · rw [h₄]
    show ((v₃.drainCycle env c₂).drainCycle env c₂).keydownev_queue_ = []
    rw [drainCycle_keydown env _ _ c₂ himd, drainCycle_keydown env _ _ c₂ him₃, h₃]
    show v₂.keydownev_queue_.tail.tail = []
    rw [hkd₂]
    split <;> rfl
  · rw [h₄]
  · have e := drainCycle_im env (v₃.drainCycle env c₂) _ c₂ himd
    have him₄ : v₄.im_context_ = ((v₃.drainCycle env c₂).drainCycle env c₂).im_context_ := by
      rw [h₄]
    exact ⟨im₂, _, him₂, him₄.trans e, by simp [tail_tail_eq_drop], by simp [tail_tail_eq_drop]⟩

/-- C4 at concrete inputs: a loaded view acknowledged for a modifier key-down,
and the Shift-then-`A` scenario in which the filter call of `A` delivers a
preedit. -/
theorem C4_modifier_ack_defers_drain_witness :
    loadedView.OnDidInputEventHandled samplePlatform modifierKeyDown false =
      { loadedView with is_modifier_key_ := true } ∧
    ((((freshView.HandleEvasEvent_KeyDown samplePlatform keyShift
          { callbacks := [], filtered := false }).HandleEvasEvent_KeyDown samplePlatform keyShiftA
          { callbacks := [.preeditChanged (some [65])], filtered := true }).OnDidInputEventHandled
        samplePlatform (hardwareEvent samplePlatform keyShift false).toWebInputEvent
        false).OnDidInputEventHandled
      samplePlatform (hardwareEvent samplePlatform keyShiftA true).toWebInputEvent
      false).keyupev_queue_ = [] :=
  ⟨(C4_modifier_ack_defers_drain samplePlatform).1 loadedView _ modifierKeyDown false rfl rfl
      (by decide) rfl,
    ((C4_modifier_ack_defers_drain samplePlatform).2 freshView keyShift keyShiftA
      { callbacks := [], filtered := false }
      { callbacks := [.preeditChanged (some [65])], filtered := true } false false
      freshView_Idle rfl (by decide) rfl).2.2.1⟩

/-- C5: with a session, a key-down acknowledgement received while the modifier
flag is set leaves the flag cleared, and its calls and the queues it leaves are
those of two successive ordinary drain cycles with this acknowledgement's
consumed value; equivalently, it does what two ordinary key-down
acknowledgements do to the same view with the flag unset. -/
theorem C5_flagged_ack_is_two_drain_cycles (env : Platform) (v : RenderWidgetHostViewEfl)
    (im : IMContextEfl) (e : WebInputEvent) (consumed : Bool)
    (him : v.im_context_ = some im) (htype : e.type = .KeyDown)
    (hflag : v.is_modifier_key_ = true) :
    v.OnDidInputEventHandled env e consumed = twoDrainCycles env v consumed ∧
    (v.OnDidInputEventHandled env e consumed).is_modifier_key_ = false ∧
    v.OnDidInputEventHandled env e consumed =
      (({ v with is_modifier_key_ := false } : RenderWidgetHostViewEfl).OnDidInputEventHandled env
        { type := .KeyDown, modifiers := 0 } consumed).OnDidInputEventHandled env
        { type := .KeyDown, modifiers := 0 } consumed := by
  have h := ack_flagged env v im e consumed him htype hflag
  refine ⟨h, by rw [h], ?_⟩
  rw [ack_plain env { v with is_modifier_key_ := false } { type := .KeyDown, modifiers := 0 }
      consumed rfl rfl rfl, drainCycle_setFlag,
    ack_plain env { v.drainCycle env consumed with is_modifier_key_ := false }
      { type := .KeyDown, modifiers := 0 } consumed rfl rfl rfl, drainCycle_setFlag, h]

/-- C5 at a concrete input: the flagged view confirms two commits and sends two key-ups. -/
theorem C5_flagged_ack_is_two_drain_cycles_witness :
    (flaggedView.OnDidInputEventHandled samplePlatform plainKeyDown false).host_calls =
      [.ImeConfirmComposition [97], .ForwardKeyboardEvent (keyUpEventFor samplePlatform 1),
       .ImeConfirmComposition [98], .ForwardKeyboardEvent (keyUpEventFor samplePlatform 2)] :=
  (congrArg RenderWidgetHostViewEfl.host_calls
    (C5_flagged_ack_is_two_drain_cycles samplePlatform flaggedView
      { IMContextEfl.init with commit_queue_ := [[97], [98], [99]] } plainKeyDown false
      rfl rfl rfl).1).trans (by decide)

/-! ## C6: the order of a preedit and a commit that are pending together -/

/-- C6, failing as stated, in both directions.  First run: the input method
produces the preedit `hi` and then the commit `hi` (both outside a filter call,
each forwarding a synthetic key-down); the first acknowledgement, not consumed,
confirms the commit before it sets the preedit.  Second run: two commits are
produced, then a preedit; the preedit is set by the first acknowledgement, before
the second commit, produced earlier, is confirmed by the second one. -/
theorem C6_counterexample :
    (freshView.run samplePlatform
      [.imf (.preeditChanged (some textHi)), .imf (.commit textHi),
       .ack plainKeyDown false]).host_calls =
      [.ForwardKeyboardEvent (fakeKeyEvent samplePlatform textHi),
       .ForwardKeyboardEvent (fakeKeyEvent samplePlatform textHi),
       .ImeConfirmComposition [104, 105],
       .ImeSetComposition [104, 105] [⟨0, 2, SK_ColorBLACK, false⟩] 2 2,
       .ForwardKeyboardEvent (keyUpEventFor samplePlatform 105)] ∧
    (freshView.run samplePlatform
      [.imf (.commit [97]), .imf (.commit [98]), .imf (.preeditChanged (some textHi)),
       .ack plainKeyDown false, .ack plainKeyDown false]).host_calls =
      [.ForwardKeyboardEvent (fakeKeyEvent samplePlatform [97]),
       .ForwardKeyboardEvent (fakeKeyEvent samplePlatform [98]),
       .ForwardKeyboardEvent (fakeKeyEvent samplePlatform textHi),
       .ImeConfirmComposition [97],
       .ImeSetComposition [104, 105] [⟨0, 2, SK_ColorBLACK, false⟩] 2 2,
       .ForwardKeyboardEvent (keyUpEventFor samplePlatform 97),
       .ImeConfirmComposition [98],
       .ForwardKeyboardEvent (keyUpEventFor samplePlatform 98)] := by
  decide

/-- C6 (amended): whenever a commit `c` and a preedit `p` are at the fronts of
their queues, a draining acknowledgement that was not consumed first confirms `c`
and then sets `p`, whichever of the two the input method produced first. -/
theorem C6_drain_confirms_before_it_sets (env : Platform) (v : RenderWidgetHostViewEfl)
    (im : IMContextEfl) (e : WebInputEvent) (c : String16) (cs : List String16)
    (p : CompositionText) (ps : List CompositionText)
    (him : v.im_context_ = some im) (hc : im.commit_queue_ = c :: cs)
    (hp : im.preedit_queue_ = p :: ps) (hd : drains v e) :
    ∃ later, (v.OnDidInputEventHandled env e false).host_calls =
      v.host_calls ++
        [.ImeConfirmComposition c,
         .ImeSetComposition p.text p.underlines p.selection.start p.selection.finish] ++ later := by
  obtain ⟨htype, hmf⟩ := hd
  cases hflag : v.is_modifier_key_ with
  | false =>
    have hmod : e.modifiers = 0 := by
      rcases hmf with h | h
      · exact h
      · rw [hflag] at h; cases h
    rw [ack_plain env v e false htype hmod hflag, drainCycle_calls env v im false him, hc, hp]
    exact ⟨_, by simp [drainCalls, List.append_assoc]; rfl⟩
  | true =>
    rw [ack_flagged env v im e false him htype hflag]
    show ∃ later, ((v.drainCycle env false).drainCycle env false).host_calls = _
    rw [drainCycle_calls env _ _ false (drainCycle_im env v im false him),
      drainCycle_calls env v im false him, hc, hp]
    exact ⟨_, by simp [drainCalls, List.append_assoc]; rfl⟩

/-- C6 (amended) at a concrete input: the loaded view, acknowledged without modifier bits. -/
theorem C6_drain_confirms_before_it_sets_witness :
    drains loadedView plainKeyDown ∧
    ∃ later, (loadedView.OnDidInputEventHandled samplePlatform plainKeyDown false).host_calls =
      loadedView.host_calls ++
        [.ImeConfirmComposition [97], .ImeSetComposition [104] [] 1 1] ++ later :=
  ⟨⟨rfl, Or.inl rfl⟩,
    C6_drain_confirms_before_it_sets samplePlatform loadedView
      { IMContextEfl.init with
        commit_queue_ := [[97], [98]]
        preedit_queue_ := [⟨[104], [], ⟨1, 1⟩⟩, ⟨[104, 105], [], ⟨2, 2⟩⟩] }
      plainKeyDown [97] [[98]] ⟨[104], [], ⟨1, 1⟩⟩ [⟨[104, 105], [], ⟨2, 2⟩⟩] rfl rfl rfl
      ⟨rfl, Or.inl rfl⟩⟩

/-! ## C7: the queues over a whole run -/

theorem SendFake_confirmed (env : Platform) (im : IMContextEfl) (v : RenderWidgetHostViewEfl)
    (buf : Option CString) :
    confirmedTexts (im.SendFakeCompositionKeyEvent env v buf).host_calls =
      confirmedTexts v.host_calls := by
  unfold IMContextEfl.SendFakeCompositionKeyEvent
  split
  · rfl
  · split
    · rfl
    · dsimp only
      split <;> simp [RenderWidgetHostViewEfl.call, RenderWidgetHostViewEfl.KeyUpEventQueuePush,
        confirmedTexts]

theorem SendFake_set (env : Platform) (im : IMContextEfl) (v : RenderWidgetHostViewEfl)
    (buf : Option CString) :
    setCompositions (im.SendFakeCompositionKeyEvent env v buf).host_calls =
      setCompositions v.host_calls := by
  unfold IMContextEfl.SendFakeCompositionKeyEvent
  split
  · rfl
  · split
    · rfl
    · dsimp only
      split <;> simp [RenderWidgetHostViewEfl.call, RenderWidgetHostViewEfl.KeyUpEventQueuePush,
        setCompositions]

theorem deliver_commit_queue (env : Platform) (im : IMContextEfl) (v : RenderWidgetHostViewEfl)
    (cb : ImfCallback) :
    (im.deliver env v cb).1.commit_queue_ = im.commit_queue_ ++ commitsOf env [cb] := by
  cases cb with
  | commit text => simp [IMContextEfl.deliver, IMContextEfl.OnCommit, commitsOf]
  | preeditChanged buffer =>
    cases buffer <;> simp [IMContextEfl.deliver, IMContextEfl.OnPreeditChanged, commitsOf]

theorem deliver_preedit_queue (env : Platform) (im : IMContextEfl) (v : RenderWidgetHostViewEfl)
    (cb : ImfCallback) :
    (im.deliver env v cb).1.preedit_queue_ = im.preedit_queue_ ++ preeditsOf env [cb] := by
  cases cb with
  | commit text => simp [IMContextEfl.deliver, IMContextEfl.OnCommit, preeditsOf]
  | preeditChanged buffer =>
    cases buffer <;>
      simp [IMContextEfl.deliver, IMContextEfl.OnPreeditChanged, preeditsOf, snapshot,
        CompositionText.Clear]

theorem deliver_confirmed (env : Platform) (im : IMContextEfl) (v : RenderWidgetHostViewEfl)
    (cb : ImfCallback) :
    confirmedTexts (im.deliver env v cb).2.host_calls = confirmedTexts v.host_calls := by
  cases cb with
  | commit text => simp [IMContextEfl.deliver, IMContextEfl.OnCommit, SendFake_confirmed]
  | preeditChanged buffer =>
    cases buffer <;> simp [IMContextEfl.deliver, IMContextEfl.OnPreeditChanged, SendFake_confirmed]

theorem deliver_set (env : Platform) (im : IMContextEfl) (v : RenderWidgetHostViewEfl)
    (cb : ImfCallback) :
    setCompositions (im.deliver env v cb).2.host_calls = setCompositions v.host_calls := by
  cases cb with
  | commit text => simp [IMContextEfl.deliver, IMContextEfl.OnCommit, SendFake_set]
  | preeditChanged buffer =>
    cases buffer <;> simp [IMContextEfl.deliver, IMContextEfl.OnPreeditChanged, SendFake_set]

theorem commitsOf_cons (env : Platform) (cb : ImfCallback) (rest : List ImfCallback) :
    commitsOf env (cb :: rest) = commitsOf env [cb] ++ commitsOf env rest := by
  cases cb <;> simp [commitsOf]

theorem preeditsOf_cons (env : Platform) (cb : ImfCallback) (rest : List ImfCallback) :
    preeditsOf env (cb :: rest) = preeditsOf env [cb] ++ preeditsOf env rest := by
  cases cb with
  | commit text => simp [preeditsOf]
  | preeditChanged buffer => cases buffer <;> simp [preeditsOf]

/-- Delivering callbacks, inside or outside a filter call, appends the committed
texts and the snapshots to the two queues and makes no composition call. -/
theorem deliverAll_spec (env : Platform) (im : IMContextEfl) (v : RenderWidgetHostViewEfl)
    (cbs : List ImfCallback) :
    (im.deliverAll env v cbs).1.commit_queue_ = im.commit_queue_ ++ commitsOf env cbs ∧
    (im.deliverAll env v cbs).1.preedit_queue_ = im.preedit_queue_ ++ preeditsOf env cbs ∧
    confirmedTexts (im.deliverAll env v cbs).2.host_calls = confirmedTexts v.host_calls ∧
    setCompositions (im.deliverAll env v cbs).2.host_calls = setCompositions v.host_calls := by
  induction cbs generalizing im v with
  | nil => simp [IMContextEfl.deliverAll, commitsOf, preeditsOf]
  | cons cb rest ih =>
    rw [IMContextEfl.deliverAll]
    obtain ⟨h₁, h₂, h₃, h₄⟩ := ih (im.deliver env v cb).1 (im.deliver env v cb).2
    refine ⟨?_, ?_, ?_, ?_⟩
    · rw [h₁, deliver_commit_queue, commitsOf_cons env cb rest, List.append_assoc]
    · rw [h₂, deliver_preedit_queue, preeditsOf_cons env cb rest, List.append_assoc]
    · rw [h₃, deliver_confirmed]
    · rw [h₄, deliver_set]

theorem drainCycle_none (env : Platform) (v : RenderWidgetHostViewEfl) (processed : Bool)
    (him : v.im_context_ = none) : v.drainCycle env processed = v := by
  simp [RenderWidgetHostViewEfl.drainCycle, RenderWidgetHostViewEfl.HandleCommitQueue,
    RenderWidgetHostViewEfl.HandlePreeditQueue, RenderWidgetHostViewEfl.HandleKeyUpQueue,
    RenderWidgetHostViewEfl.HandleKeyDownQueue, him]

/-- The four ways an acknowledgement can go: nothing happens, only the modifier
flag is set, one drain cycle runs, or two drain cycles run and the flag is
cleared. -/
theorem ack_cases (env : Platform) (v : RenderWidgetHostViewEfl) (e : WebInputEvent)
    (processed : Bool) :
    v.OnDidInputEventHandled env e processed = v ∨
    v.OnDidInputEventHandled env e processed = { v with is_modifier_key_ := true } ∨
    v.OnDidInputEventHandled env e processed = v.drainCycle env processed ∨
    v.OnDidInputEventHandled env e processed =
      { (v.drainCycle env processed).drainCycle env processed with is_modifier_key_ := false } := by
  rcases Option.eq_none_or_eq_some v.im_context_ with him | ⟨im, him⟩
  · exact Or.inl (OnDidInputEventHandled_none env v e processed him)
  · by_cases htype : e.type = .KeyDown
    · by_cases hflag : v.is_modifier_key_ = true
      · exact Or.inr (Or.inr (Or.inr (ack_flagged env v im e processed him htype hflag)))
      · have hflag' : v.is_modifier_key_ = false := by simpa using hflag
        by_cases hmod : e.modifiers = 0
        · exact Or.inr (Or.inr (Or.inl (ack_plain env v e processed htype hmod hflag')))
        · exact Or.inr (Or.inl (ack_modifier env v im e processed him htype hmod hflag'))
    · left
      simp [RenderWidgetHostViewEfl.OnDidInputEventHandled, him, htype]

theorem confirmedTexts_drainCalls (env : Platform) (processed : Bool) (cq : List String16)
    (pq : List CompositionText) (ku : List Int) (kd : List NativeWebKeyboardEvent) :
    confirmedTexts (drainCalls env processed cq pq ku kd) =
      if processed then [] else cq.head?.toList := by
  cases processed <;> cases cq <;> cases pq <;> cases ku <;> cases kd <;>
    simp [drainCalls, confirmedTexts, forwardedKeyDowns]

theorem setCompositions_drainCalls (env : Platform) (processed : Bool) (cq : List String16)
    (pq : List CompositionText) (ku : List Int) (kd : List NativeWebKeyboardEvent) :
    setCompositions (drainCalls env processed cq pq ku kd) =
      if processed then [] else pq.head?.toList := by
  cases processed <;> cases cq <;> cases pq <;> cases ku <;> cases kd <;>
    simp [drainCalls, setCompositions]

/-- A drain cycle moves at most the front commit from the queue to the confirmed texts. -/
theorem drainCycle_commit_sublist (env : Platform) (v : RenderWidgetHostViewEfl)
    (processed : Bool) :
    (confirmedTexts (v.drainCycle env processed).host_calls ++
      commitQ (v.drainCycle env processed)).Sublist
      (confirmedTexts v.host_calls ++ commitQ v) := by
  cases him : v.im_context_ with
  | none => rw [drainCycle_none env v processed him]
  | some im =>
    rw [drainCycle_calls env v im processed him]
    simp only [commitQ, drainCycle_im env v im processed him, him, confirmedTexts_append,
      confirmedTexts_drainCalls, List.append_assoc]
    apply List.Sublist.append_left
    cases processed <;> cases im.commit_queue_ <;> simp

/-- A drain cycle moves at most the front snapshot from the queue to the set compositions. -/
theorem drainCycle_preedit_sublist (env : Platform) (v : RenderWidgetHostViewEfl)
    (processed : Bool) :
    (setCompositions (v.drainCycle env processed).host_calls ++
      preeditQ (v.drainCycle env processed)).Sublist
      (setCompositions v.host_calls ++ preeditQ v) := by
  cases him : v.im_context_ with
  | none => rw [drainCycle_none env v processed him]
  | some im =>
    rw [drainCycle_calls env v im processed him]
    simp only [preeditQ, drainCycle_im env v im processed him, him, setCompositions_append,
      setCompositions_drainCalls, List.append_assoc]
    apply List.Sublist.append_left
    cases processed <;> cases im.preedit_queue_ <;> simp

theorem ack_commit_sublist (env : Platform) (v : RenderWidgetHostViewEfl) (e : WebInputEvent)
    (processed : Bool) :
    (confirmedTexts (v.OnDidInputEventHandled env e processed).host_calls ++
      commitQ (v.OnDidInputEventHandled env e processed)).Sublist
      (confirmedTexts v.host_calls ++ commitQ v) := by
  rcases ack_cases env v e processed with h | h | h | h <;> rw [h]
  · exact List.Sublist.refl _
  · exact drainCycle_commit_sublist env v processed
  · exact (drainCycle_commit_sublist env _ processed).trans
      (drainCycle_commit_sublist env v processed)

theorem ack_preedit_sublist (env : Platform) (v : RenderWidgetHostViewEfl) (e : WebInputEvent)
    (processed : Bool) :
    (setCompositions (v.OnDidInputEventHandled env e processed).host_calls ++
      preeditQ (v.OnDidInputEventHandled env e processed)).Sublist
      (setCompositions v.host_calls ++ preeditQ v) := by
  rcases ack_cases env v e processed with h | h | h | h <;> rw [h]
  · exact List.Sublist.refl _
  · exact drainCycle_preedit_sublist env v processed
  · exact (drainCycle_preedit_sublist env _ processed).trans
      (drainCycle_preedit_sublist env v processed)

/-- One event: what is confirmed or still queued afterwards was confirmed or
queued before, or was handed over by the event. -/
theorem step_commit_sublist (env : Platform) (v : RenderWidgetHostViewEfl) (e : Event) :
    (confirmedTexts (v.step env e).host_calls ++ commitQ (v.step env e)).Sublist
      (confirmedTexts v.host_calls ++ commitQ v ++
        (committedTexts env e ++ directlyConfirmed v e)) := by
  rcases Option.eq_none_or_eq_some v.im_context_ with him | ⟨im, him⟩
  · cases e <;>
      simp [RenderWidgetHostViewEfl.step, RenderWidgetHostViewEfl.withSession,
        RenderWidgetHostViewEfl.HandleEvasEvent_KeyDown, RenderWidgetHostViewEfl.HandleEvasEvent_KeyUp,
        RenderWidgetHostViewEfl.OnDidInputEventHandled, RenderWidgetHostViewEfl.call, commitQ,
        confirmedTexts, him]
  · cases e with
    | keyDown event filter =>
      have hc := keyDown_calls env v im event filter him
      have hi := keyDown_im env v im event filter him
      have hcc : confirmedTexts (v.HandleEvasEvent_KeyDown env event filter).host_calls =
          confirmedTexts v.host_calls := by
        rw [hc]; split <;> simp [confirmedTexts]
      simp [RenderWidgetHostViewEfl.step, commitQ, hi, hcc, him, committedTexts, directlyConfirmed]
    | keyUp event filter =>
      obtain ⟨h₁, _, h₃, _⟩ := deliverAll_spec env im v filter.callbacks
      simp [RenderWidgetHostViewEfl.step, RenderWidgetHostViewEfl.HandleEvasEvent_KeyUp,
        IMContextEfl.HandleKeyUpEvent, commitQ, him, h₁, h₃, committedTexts, directlyConfirmed]
    | imf cb =>
      simp [RenderWidgetHostViewEfl.step, RenderWidgetHostViewEfl.withSession,
        RenderWidgetHostViewEfl.store, commitQ, him, deliver_commit_queue, deliver_confirmed,
        committedTexts, directlyConfirmed]
    | ack input_event processed =>
      simpa [RenderWidgetHostViewEfl.step, committedTexts, directlyConfirmed] using
        ack_commit_sublist env v input_event processed
    | focusIn =>
      cases hf : im.focused_ <;> cases he : im.enabled_ <;> cases hh : v.host_ <;>
        simp [RenderWidgetHostViewEfl.step, RenderWidgetHostViewEfl.withSession,
          RenderWidgetHostViewEfl.store, IMContextEfl.OnFocusIn, IMContextEfl.CancelComposition,
          IMContextEfl.ClearQueues, IMContextEfl.imf, RenderWidgetHostViewEfl.ClearQueues,
          RenderWidgetHostViewEfl.call, commitQ, confirmedTexts, him, hf, he, hh, committedTexts,
          directlyConfirmed]
    | focusOut =>
      cases hf : im.focused_ <;> cases hh : v.host_ <;>
        simp [RenderWidgetHostViewEfl.step, RenderWidgetHostViewEfl.withSession,
          RenderWidgetHostViewEfl.store, IMContextEfl.OnFocusOut, IMContextEfl.ClearQueues,
          IMContextEfl.imf, RenderWidgetHostViewEfl.ClearQueues, RenderWidgetHostViewEfl.call,
          commitQ, confirmedTexts, him, hf, hh, committedTexts, directlyConfirmed]
    | reset =>
      simp [RenderWidgetHostViewEfl.step, RenderWidgetHostViewEfl.withSession,
        RenderWidgetHostViewEfl.store, IMContextEfl.Reset, IMContextEfl.ClearQueues,
        IMContextEfl.imf, RenderWidgetHostViewEfl.ClearQueues, commitQ, him, committedTexts,
        directlyConfirmed]
    | cancelComposition =>
      simp [RenderWidgetHostViewEfl.step, RenderWidgetHostViewEfl.withSession,
        RenderWidgetHostViewEfl.store, IMContextEfl.CancelComposition, IMContextEfl.ClearQueues,
        IMContextEfl.imf, RenderWidgetHostViewEfl.ClearQueues, commitQ, him, committedTexts,
        directlyConfirmed]
    | languageChanged =>
      by_cases hg : (!v.host_ || im.composition_.text.length == 0) = true
      · simp [RenderWidgetHostViewEfl.step, RenderWidgetHostViewEfl.withSession,
          RenderWidgetHostViewEfl.store, IMContextEfl.OnCandidateInputPanelLanguageChanged,
          commitQ, him, hg, committedTexts, directlyConfirmed]
      · simp [RenderWidgetHostViewEfl.step, RenderWidgetHostViewEfl.withSession,
          RenderWidgetHostViewEfl.store, IMContextEfl.OnCandidateInputPanelLanguageChanged,
          IMContextEfl.Reset, IMContextEfl.ClearQueues, IMContextEfl.imf,
          RenderWidgetHostViewEfl.ClearQueues, RenderWidgetHostViewEfl.call, commitQ,
          confirmedTexts, him, hg, committedTexts, directlyConfirmed]
    | textInputStateChanged type is_showing =>
      cases is_showing <;> by_cases ht : type = .NONE <;>
        simp [RenderWidgetHostViewEfl.step, RenderWidgetHostViewEfl.withSession,
          RenderWidgetHostViewEfl.store, IMContextEfl.UpdateInputMethodState1,
          IMContextEfl.HidePanel, IMContextEfl.ClearQueues, IMContextEfl.imf,
          RenderWidgetHostViewEfl.ClearQueues, commitQ, him, ht, committedTexts,
          directlyConfirmed]

/-- One event: what is set or still queued afterwards was set or queued before,
or was enqueued by the event. -/
theorem step_preedit_sublist (env : Platform) (v : RenderWidgetHostViewEfl) (e : Event) :
    (setCompositions (v.step env e).host_calls ++ preeditQ (v.step env e)).Sublist
      (setCompositions v.host_calls ++ preeditQ v ++ enqueuedSnapshots env e) := by
  rcases Option.eq_none_or_eq_some v.im_context_ with him | ⟨im, him⟩
  · cases e <;>
      simp [RenderWidgetHostViewEfl.step, RenderWidgetHostViewEfl.withSession,
        RenderWidgetHostViewEfl.HandleEvasEvent_KeyDown, RenderWidgetHostViewEfl.HandleEvasEvent_KeyUp,
        RenderWidgetHostViewEfl.OnDidInputEventHandled, RenderWidgetHostViewEfl.call, preeditQ,
        setCompositions, him]
  · cases e with
    | keyDown event filter =>
      have hc := keyDown_calls env v im event filter him
      have hi := keyDown_im env v im event filter him
      have hcc : setCompositions (v.HandleEvasEvent_KeyDown env event filter).host_calls =
          setCompositions v.host_calls := by
        rw [hc]; split <;> simp [setCompositions]
      simp [RenderWidgetHostViewEfl.step, preeditQ, hi, hcc, him, enqueuedSnapshots]
    | keyUp event filter =>
      obtain ⟨_, h₂, _, h₄⟩ := deliverAll_spec env im v filter.callbacks
      simp [RenderWidgetHostViewEfl.step, RenderWidgetHostViewEfl.HandleEvasEvent_KeyUp,
        IMContextEfl.HandleKeyUpEvent, preeditQ, him, h₂, h₄, enqueuedSnapshots]
    | imf cb =>
      simp [RenderWidgetHostViewEfl.step, RenderWidgetHostViewEfl.withSession,
        RenderWidgetHostViewEfl.store, preeditQ, him, deliver_preedit_queue, deliver_set,
        enqueuedSnapshots]
    | ack input_event processed =>
      simpa [RenderWidgetHostViewEfl.step, enqueuedSnapshots] using
        ack_preedit_sublist env v input_event processed
    | focusIn =>
      cases hf : im.focused_ <;> cases he : im.enabled_ <;> cases hh : v.host_ <;>
        simp [RenderWidgetHostViewEfl.step, RenderWidgetHostViewEfl.withSession,
          RenderWidgetHostViewEfl.store, IMContextEfl.OnFocusIn, IMContextEfl.CancelComposition,
          IMContextEfl.ClearQueues, IMContextEfl.imf, RenderWidgetHostViewEfl.ClearQueues,
          RenderWidgetHostViewEfl.call, preeditQ, setCompositions, him, hf, he, hh,
          enqueuedSnapshots]
    | focusOut =>
      cases hf : im.focused_ <;> cases hh : v.host_ <;>
        simp [RenderWidgetHostViewEfl.step, RenderWidgetHostViewEfl.withSession,
          RenderWidgetHostViewEfl.store, IMContextEfl.OnFocusOut, IMContextEfl.ClearQueues,
          IMContextEfl.imf, RenderWidgetHostViewEfl.ClearQueues, RenderWidgetHostViewEfl.call,
          preeditQ, setCompositions, him, hf, hh, enqueuedSnapshots]
    | reset =>
      simp [RenderWidgetHostViewEfl.step, RenderWidgetHostViewEfl.withSession,
        RenderWidgetHostViewEfl.store, IMContextEfl.Reset, IMContextEfl.ClearQueues,
        IMContextEfl.imf, RenderWidgetHostViewEfl.ClearQueues, preeditQ, him, enqueuedSnapshots]
    | cancelComposition =>
      simp [RenderWidgetHostViewEfl.step, RenderWidgetHostViewEfl.withSession,
        RenderWidgetHostViewEfl.store, IMContextEfl.CancelComposition, IMContextEfl.ClearQueues,
        IMContextEfl.imf, RenderWidgetHostViewEfl.ClearQueues, preeditQ, him, enqueuedSnapshots]
    | languageChanged =>
      by_cases hg : (!v.host_ || im.composition_.text.length == 0) = true
      · simp [RenderWidgetHostViewEfl.step, RenderWidgetHostViewEfl.withSession,
          RenderWidgetHostViewEfl.store, IMContextEfl.OnCandidateInputPanelLanguageChanged,
          preeditQ, him, hg, enqueuedSnapshots]
      · simp [RenderWidgetHostViewEfl.step, RenderWidgetHostViewEfl.withSession,
          RenderWidgetHostViewEfl.store, IMContextEfl.OnCandidateInputPanelLanguageChanged,
          IMContextEfl.Reset, IMContextEfl.ClearQueues, IMContextEfl.imf,
          RenderWidgetHostViewEfl.ClearQueues, RenderWidgetHostViewEfl.call, preeditQ,
          setCompositions, him, hg, enqueuedSnapshots]
    | textInputStateChanged type is_showing =>
      cases is_showing <;> by_cases ht : type = .NONE <;>
        simp [RenderWidgetHostViewEfl.step, RenderWidgetHostViewEfl.withSession,
          RenderWidgetHostViewEfl.store, IMContextEfl.UpdateInputMethodState1,
          IMContextEfl.HidePanel, IMContextEfl.ClearQueues, IMContextEfl.imf,
          RenderWidgetHostViewEfl.ClearQueues, preeditQ, him, ht, enqueuedSnapshots]

theorem run_commit_sublist (env : Platform) (v : RenderWidgetHostViewEfl) (evs : List Event) :
    (confirmedTexts (v.run env evs).host_calls ++ commitQ (v.run env evs)).Sublist
      (confirmedTexts v.host_calls ++ commitQ v ++ offeredAlong env v evs) := by
  induction evs generalizing v with
  | nil => simp [RenderWidgetHostViewEfl.run, offeredAlong]
  | cons e rest ih =>
    rw [RenderWidgetHostViewEfl.run, offeredAlong]
    refine (ih (v.step env e)).trans ?_
    have h := (step_commit_sublist env v e).append_right (offeredAlong env (v.step env e) rest)
    simpa [List.append_assoc] using h

theorem run_preedit_sublist (env : Platform) (v : RenderWidgetHostViewEfl) (evs : List Event) :
    (setCompositions (v.run env evs).host_calls ++ preeditQ (v.run env evs)).Sublist
      (setCompositions v.host_calls ++ preeditQ v ++ enqueuedAlong env evs) := by
  induction evs generalizing v with
  | nil => simp [RenderWidgetHostViewEfl.run, enqueuedAlong]
  | cons e rest ih =>
    rw [RenderWidgetHostViewEfl.run, enqueuedAlong]
    refine (ih (v.step env e)).trans ?_
    have h := (step_preedit_sublist env v e).append_right (enqueuedAlong env rest)
    simpa [List.append_assoc] using h

/-- C7, failing as stated: the input method produces the preedit `hi` and the
candidate panel then changes language; `hi` is passed to `ImeConfirmComposition`
although no text was ever committed. -/
theorem C7_counterexample :
    confirmedTexts (freshView.run samplePlatform
      [.imf (.preeditChanged (some textHi)), .languageChanged]).host_calls = [[104, 105]] ∧
    committedAlong samplePlatform [.imf (.preeditChanged (some textHi)), .languageChanged] = [] ∧
    ¬ (confirmedTexts (freshView.run samplePlatform
        [.imf (.preeditChanged (some textHi)), .languageChanged]).host_calls).Sublist
      (committedAlong samplePlatform
        [.imf (.preeditChanged (some textHi)), .languageChanged]) := by
  decide

/-- C7 (amended): over any run, from any state, the texts passed to
`ImeConfirmComposition` followed by the commits still queued form an in-order
subsequence of what was confirmed or queued at the start followed by the texts
handed over during the run (the committed texts and the composition texts that
language changes confirm directly); and the arguments of the `ImeSetComposition`
calls followed by the snapshots still queued form an in-order subsequence of
what was set or queued at the start followed by the snapshots enqueued during
the run.  In particular, for a run from a freshly created view, the confirmed
texts are an in-order subsequence of the texts handed over, and the set
compositions are an in-order subsequence of the snapshots enqueued. -/
theorem C7_queues_fifo_at_most_once (env : Platform) (v : RenderWidgetHostViewEfl)
    (evs : List Event) :
    (confirmedTexts (v.run env evs).host_calls ++ commitQ (v.run env evs)).Sublist
      (confirmedTexts v.host_calls ++ commitQ v ++ offeredAlong env v evs) ∧
    (setCompositions (v.run env evs).host_calls ++ preeditQ (v.run env evs)).Sublist
      (setCompositions v.host_calls ++ preeditQ v ++ enqueuedAlong env evs) ∧
    (∀ host session : Bool,
      let fresh := RenderWidgetHostViewEfl.init host
        (if session then some IMContextEfl.init else none)
      (confirmedTexts (fresh.run env evs).host_calls).Sublist (offeredAlong env fresh evs) ∧
      (setCompositions (fresh.run env evs).host_calls).Sublist (enqueuedAlong env evs)) := by
  refine ⟨run_commit_sublist env v evs, run_preedit_sublist env v evs, ?_⟩
  intro host session fresh
  have h₁ := run_commit_sublist env fresh evs
  have h₂ := run_preedit_sublist env fresh evs
  have hc : confirmedTexts fresh.host_calls ++ commitQ fresh = [] := by
    cases session <;> rfl
  have hp : setCompositions fresh.host_calls ++ preeditQ fresh = [] := by
    cases session <;> rfl
  rw [hc, List.nil_append] at h₁
  rw [hp, List.nil_append] at h₂
  exact ⟨(List.sublist_append_left _ _).trans h₁, (List.sublist_append_left _ _).trans h₂⟩

/-! ## C8: focus-out -/

/-- C8, failing as stated: after `OnFocusOut` on a focused session the
composition state still holds the text `h`; and on a session that is not focused
`OnFocusOut` returns at once, leaving a queued commit in place. -/
theorem C8_counterexample :
    ((composingSession.OnFocusOut freshView).1.composition_.text = [104] ∧
      (composingSession.OnFocusOut freshView).1.composition_ ≠
        composingSession.composition_.Clear) ∧
    (({ composingSession with focused_ := false } : IMContextEfl).OnFocusOut
      freshView).1.commit_queue_ = [[97]] := by
  decide

/-- C8 (amended): on a session whose focused flag is set, `OnFocusOut` empties
the commit queue and the preedit queue (and the view's key-up and key-down
queues) and clears the flag, whatever was queued; it leaves the composition state
as it was.  On a session whose focused flag is unset it changes nothing. -/
theorem C8_focus_out_clears_queues_when_focused (im : IMContextEfl)
    (view_ : RenderWidgetHostViewEfl) :
    (im.focused_ = true →
      (im.OnFocusOut view_).1.commit_queue_ = [] ∧
      (im.OnFocusOut view_).1.preedit_queue_ = [] ∧
      (im.OnFocusOut view_).2.keyupev_queue_ = [] ∧
      (im.OnFocusOut view_).2.keydownev_queue_ = [] ∧
      (im.OnFocusOut view_).1.focused_ = false ∧
      (im.OnFocusOut view_).1.composition_ = im.composition_) ∧
    (im.focused_ = false → im.OnFocusOut view_ = (im, view_)) := by
  constructor
  · intro hf
    cases hh : view_.host_ <;>
      simp [IMContextEfl.OnFocusOut, IMContextEfl.ClearQueues, IMContextEfl.imf,
        RenderWidgetHostViewEfl.ClearQueues, RenderWidgetHostViewEfl.call, hf, hh]
  · intro hf
    simp [IMContextEfl.OnFocusOut, hf]

/-- C8 (amended) at a concrete input: the composing session loses focus. -/
theorem C8_focus_out_clears_queues_when_focused_witness :
    composingSession.focused_ = true ∧
    (composingSession.OnFocusOut loadedView).1.commit_queue_ = [] ∧
    (composingSession.OnFocusOut loadedView).1.preedit_queue_ = [] ∧
    (composingSession.OnFocusOut loadedView).2.keyupev_queue_ = [] :=
  ⟨rfl,
    ((C8_focus_out_clears_queues_when_focused composingSession loadedView).1 rfl).1,
    ((C8_focus_out_clears_queues_when_focused composingSession loadedView).1 rfl).2.1,
    ((C8_focus_out_clears_queues_when_focused composingSession loadedView).1 rfl).2.2.1⟩

/-! ## C9: hardware key-downs and their acknowledgements -/

theorem keySignature_queuedCopy (env : Platform) (e : NativeWebKeyboardEvent) :
    keySignature (queuedCopy env e) = keySignature e := rfl

theorem newlyForwarded_append (before after : RenderWidgetHostViewEfl) (new : List HostCall)
    (h : after.host_calls = before.host_calls ++ new) :
    newlyForwarded before after = forwardedKeyDowns new := by
  simp [newlyForwarded, h]

theorem newlyForwarded_same (before after : RenderWidgetHostViewEfl)
    (h : after.host_calls = before.host_calls) : newlyForwarded before after = [] := by
  simp [newlyForwarded, h]

theorem forwardedKeyDowns_drainCalls (env : Platform) (processed : Bool) (cq : List String16)
    (pq : List CompositionText) (ku : List Int) (kd : List NativeWebKeyboardEvent)
    (hkd : ∀ e ∈ kd, e.type = .KeyDown ∧ e.modifiers = 0) :
    forwardedKeyDowns (drainCalls env processed cq pq ku kd) = kd.head?.toList := by
  have hk : ∀ k, (keyUpEventFor env k).type = .KeyUp := fun _ => rfl
  cases kd with
  | nil =>
    cases processed <;> cases cq <;> cases pq <;> cases ku <;>
      simp [drainCalls, forwardedKeyDowns, hk]
  | cons e rest =>
    have he : e.type = .KeyDown := (hkd e (List.mem_cons_self _ _)).1
    cases processed <;> cases cq <;> cases pq <;> cases ku <;>
      simp [drainCalls, forwardedKeyDowns, hk, he]

theorem head_toList_append_tail {α : Type} (l : List α) : l.head?.toList ++ l.tail = l := by
  cases l <;> rfl

/-- A hardware key-down without modifier bits keeps the invariant. -/
theorem down_inv (env : Platform) (v : RenderWidgetHostViewEfl)
    (forwarded : List NativeWebKeyboardEvent) (acked : Nat)
    (arrived : List NativeWebKeyboardEvent) (event : EvasKeyEvent) (filter : FilterOutcome)
    (hinv : KeysInv v forwarded acked arrived)
    (ht : (env.toWebKeyboardEvent event).type = .KeyDown)
    (hm : (env.toWebKeyboardEvent event).modifiers = 0) :
    KeysInv (v.HandleEvasEvent_KeyDown env event filter)
      (forwarded ++ newlyForwarded v (v.HandleEvasEvent_KeyDown env event filter)) acked
      (arrived ++ [hardwareEvent env event filter.filtered]) := by
  obtain ⟨⟨im, him⟩, hfl, hku, hperm, hF, hkd, hle, hprog⟩ := hinv
  have hnt : (hardwareEvent env event filter.filtered).type = .KeyDown := by simp [ht]
  have hnm : (hardwareEvent env event filter.filtered).modifiers = 0 := by simp [hm]
  have hi := keyDown_im env v im event filter him
  have hu := keyDown_keyup env v im event filter him
  have hd := keyDown_keydown env v im event filter him
  have hc := keyDown_calls env v im event filter him
  have hf := keyDown_flag env v event filter
  by_cases hq : ((im.preedit_queue_ ++ preeditsOf env filter.callbacks).isEmpty ||
      v.keyupev_queue_.isEmpty) = true
  · rw [if_pos hq] at hd hc
    have hn : newlyForwarded v (v.HandleEvasEvent_KeyDown env event filter) =
        [hardwareEvent env event filter.filtered] := by
      rw [newlyForwarded_append _ _ _ hc]
      simp [forwardedKeyDowns, ht]
    rw [hn]
    refine ⟨⟨_, hi⟩, by rw [hf, hfl], ?_, ?_, ?_, ?_, ?_, ?_⟩
    · rw [hu]; simp; omega
    · rw [hd]
      have h₁ : (forwarded ++ [hardwareEvent env event filter.filtered] ++
          v.keydownev_queue_).Perm
          ((forwarded ++ v.keydownev_queue_) ++ [hardwareEvent env event filter.filtered]) := by
        rw [List.append_assoc, List.append_assoc]
        exact List.Perm.append_left _ List.perm_append_comm
      have hperm' := hperm
      simp only [List.map_append] at hperm'
      refine (h₁.map keySignature).trans ?_
      simp only [List.map_append]
      exact hperm'.append_right _
    · intro e he
      rcases List.mem_append.mp he with h | h
      · exact hF e h
      · rw [List.mem_singleton.mp h]; exact ⟨hnt, hnm⟩
    · rw [hd]; exact hkd
    · simp; omega
    · intro _; simp; omega
  · rw [if_neg hq] at hd hc
    have hn : newlyForwarded v (v.HandleEvasEvent_KeyDown env event filter) = [] :=
      newlyForwarded_same _ _ hc
    have hne : v.keyupev_queue_ ≠ [] := by
      intro h
      apply hq
      simp [h]
    have hpos : 0 < v.keyupev_queue_.length := List.length_pos.mpr hne
    rw [hn, List.append_nil]
    refine ⟨⟨_, hi⟩, by rw [hf, hfl], ?_, ?_, hF, ?_, hle, ?_⟩
    · rw [hu]; simp; omega
    · rw [hd, ← List.append_assoc]
      have hperm' := hperm
      simp only [List.map_append] at hperm'
      simp only [List.map_append, List.map_cons, List.map_nil, keySignature_queuedCopy]
      exact hperm'.append_right _
    · rw [hd]
      intro e he
      rcases List.mem_append.mp he with h | h
      · exact hkd e h
      · rw [List.mem_singleton.mp h]
        exact ⟨hnt, hnm⟩
    · intro _
      exact hprog (by omega)

/-- The acknowledgement of the oldest unacknowledged key-down keeps the invariant. -/
theorem ack_inv (env : Platform) (v : RenderWidgetHostViewEfl)
    (forwarded : List NativeWebKeyboardEvent) (acked : Nat)
    (arrived : List NativeWebKeyboardEvent) (e : NativeWebKeyboardEvent) (processed : Bool)
    (hinv : KeysInv v forwarded acked arrived) (hget : forwarded[acked]? = some e) :
    KeysInv (v.OnDidInputEventHandled env e.toWebInputEvent processed)
      (forwarded ++ newlyForwarded v (v.OnDidInputEventHandled env e.toWebInputEvent processed))
      (acked + 1) arrived := by
  obtain ⟨⟨im, him⟩, hfl, hku, hperm, hF, hkd, hle, hprog⟩ := hinv
  obtain ⟨het, hem⟩ := hF e (List.getElem?_mem hget)
  have hlt : acked < forwarded.length := by
    by_contra h
    rw [List.getElem?_eq_none (by omega)] at hget
    cases hget
  have hlen : forwarded.length + v.keydownev_queue_.length = arrived.length := by
    have := hperm.length_eq
    simpa using this
  rw [ack_plain env v e.toWebInputEvent processed het hem hfl]
  have hc := drainCycle_calls env v im processed him
  have hn : newlyForwarded v (v.drainCycle env processed) = v.keydownev_queue_.head?.toList := by
    rw [newlyForwarded_append _ _ _ hc, forwardedKeyDowns_drainCalls env _ _ _ _ _ hkd]
  rw [hn]
  refine ⟨⟨_, drainCycle_im env v im processed him⟩, by rw [drainCycle_flag, hfl], ?_, ?_, ?_, ?_,
    ?_, ?_⟩
  · rw [drainCycle_keyup env v im processed him, List.length_tail]; omega
  · rw [drainCycle_keydown env v im processed him, List.append_assoc, head_toList_append_tail]
    exact hperm
  · intro x hx
    rcases List.mem_append.mp hx with h | h
    · exact hF x h
    · cases hq : v.keydownev_queue_ with
      | nil => rw [hq] at h; cases h
      | cons y ys =>
        rw [hq] at h
        have hxy : x = y := by simpa using h
        exact hkd x (by rw [hq, hxy]; exact List.mem_cons_self _ _)
  · rw [drainCycle_keydown env v im processed him]
    intro x hx
    exact hkd x (List.mem_of_mem_tail hx)
  · simp; omega
  · intro h
    cases hq : v.keydownev_queue_ with
    | nil => rw [hq] at hlen; simp at hlen ⊢; omega
    | cons y ys => simp; omega

theorem keyDown_forwarded (env : Platform) (v : RenderWidgetHostViewEfl) (im : IMContextEfl)
    (event : EvasKeyEvent) (filter : FilterOutcome) (him : v.im_context_ = some im) :
    forwardedKeyDowns (v.HandleEvasEvent_KeyDown env event filter).host_calls =
      forwardedKeyDowns v.host_calls ++
        newlyForwarded v (v.HandleEvasEvent_KeyDown env event filter) := by
  have hc := keyDown_calls env v im event filter him
  by_cases hq : ((im.preedit_queue_ ++ preeditsOf env filter.callbacks).isEmpty ||
      v.keyupev_queue_.isEmpty) = true
  · rw [if_pos hq] at hc
    rw [newlyForwarded_append _ _ _ hc, hc, forwardedKeyDowns_append]
  · rw [if_neg hq] at hc
    rw [newlyForwarded_same _ _ hc, hc, List.append_nil]

theorem drainCycle_forwarded (env : Platform) (v : RenderWidgetHostViewEfl) (im : IMContextEfl)
    (processed : Bool) (him : v.im_context_ = some im) :
    forwardedKeyDowns (v.drainCycle env processed).host_calls =
      forwardedKeyDowns v.host_calls ++ newlyForwarded v (v.drainCycle env processed) := by
  have hc := drainCycle_calls env v im processed him
  rw [newlyForwarded_append _ _ _ hc, hc, forwardedKeyDowns_append]

/-- The invariant holds along every schedule of key-downs without modifier bits. -/
theorem runKeys_inv (env : Platform) (steps : List KeyStep) :
    ∀ (v : RenderWidgetHostViewEfl) (forwarded : List NativeWebKeyboardEvent) (acked : Nat)
      (arrived : List NativeWebKeyboardEvent) (v' : RenderWidgetHostViewEfl)
      (forwarded' : List NativeWebKeyboardEvent) (acked' : Nat),
      KeysInv v forwarded acked arrived → PlainKeys env steps →
      runKeys env v forwarded acked steps = some (v', forwarded', acked') →
      KeysInv v' forwarded' acked' (arrived ++ arrivals env steps) ∧
      acked' = acked + ackCount steps ∧
      ∃ new, forwarded' = forwarded ++ new ∧
        forwardedKeyDowns v'.host_calls = forwardedKeyDowns v.host_calls ++ new := by
  induction steps with
  | nil =>
    intro v forwarded acked arrived v' forwarded' acked' hinv _ hrun
    simp only [runKeys, Option.some.injEq, Prod.mk.injEq] at hrun
    obtain ⟨rfl, rfl, rfl⟩ := hrun
    exact ⟨by simpa [arrivals] using hinv, by simp [ackCount], [], by simp, by simp⟩
  | cons step rest ih =>
    intro v forwarded acked arrived v' forwarded' acked' hinv hplain hrun
    cases step with
    | down event filter =>
      obtain ⟨⟨ht, hm⟩, hrest⟩ := hplain
      rw [runKeys] at hrun
      obtain ⟨im, him⟩ := hinv.1
      obtain ⟨h₁, h₂, new, h₃, h₄⟩ :=
        ih _ _ _ _ _ _ _ (down_inv env v forwarded acked arrived event filter hinv ht hm) hrest hrun
      refine ⟨by simpa [arrivals, List.append_assoc] using h₁, by simpa [ackCount] using h₂,
        newlyForwarded v (v.HandleEvasEvent_KeyDown env event filter) ++ new, ?_, ?_⟩
      · rw [h₃, List.append_assoc]
      · rw [h₄, keyDown_forwarded env v im event filter him, List.append_assoc]
    | ack processed =>
      rw [runKeys] at hrun
      cases hget : forwarded[acked]? with
      | none => rw [hget] at hrun; cases hrun
      | some e =>
        rw [hget] at hrun
        simp only at hrun
        obtain ⟨im, him⟩ := hinv.1
        obtain ⟨het, hem⟩ := hinv.2.2.2.2.1 e (List.getElem?_mem hget)
        obtain ⟨h₁, h₂, new, h₃, h₄⟩ :=
          ih _ _ _ _ _ _ _ (ack_inv env v forwarded acked arrived e processed hinv hget) hplain hrun
        refine ⟨by simpa [arrivals] using h₁, by rw [h₂]; simp [ackCount]; omega,
          newlyForwarded v (v.OnDidInputEventHandled env e.toWebInputEvent processed) ++ new,
          ?_, ?_⟩
        · rw [h₃, List.append_assoc]
        · rw [h₄, ack_plain env v e.toWebInputEvent processed het hem hinv.2.1,
            drainCycle_forwarded env v im processed him, List.append_assoc]

theorem runKeys_append (env : Platform) (s₁ s₂ : List KeyStep) :
    ∀ (v : RenderWidgetHostViewEfl) (forwarded : List NativeWebKeyboardEvent) (acked : Nat),
      runKeys env v forwarded acked (s₁ ++ s₂) =
        (runKeys env v forwarded acked s₁).bind (fun r => runKeys env r.1 r.2.1 r.2.2 s₂) := by
  induction s₁ with
  | nil => intro v forwarded acked; simp [runKeys]
  | cons step rest ih =>
    intro v forwarded acked
    cases step with
    | down event filter => simp only [List.cons_append, runKeys]; exact ih _ _ _
    | ack processed =>
      simp only [List.cons_append, runKeys]
      cases forwarded[acked]? with
      | none => rfl
      | some e => exact ih _ _ _

theorem arrivals_downSteps_length (env : Platform) (downs : List (EvasKeyEvent × FilterOutcome)) :
    (arrivals env (downSteps downs)).length = downs.length := by
  induction downs with
  | nil => rfl
  | cons d rest ih => simpa [downSteps, arrivals] using ih

theorem arrivals_ackSteps (env : Platform) (acks : List Bool) :
    arrivals env (ackSteps acks) = [] := by
  induction acks with
  | nil => rfl
  | cons p rest ih => simpa [ackSteps, arrivals] using ih

theorem ackCount_ackSteps (acks : List Bool) : ackCount (ackSteps acks) = acks.length := by
  induction acks with
  | nil => rfl
  | cons p rest ih => simpa [ackSteps, ackCount] using ih

theorem PlainKeys_ackSteps (env : Platform) (acks : List Bool) : PlainKeys env (ackSteps acks) := by
  induction acks with
  | nil => trivial
  | cons p rest ih => simpa [ackSteps, PlainKeys] using ih

/-- Key-downs arriving in a row are always handled. -/
theorem runKeys_downSteps (env : Platform) (downs : List (EvasKeyEvent × FilterOutcome)) :
    ∀ (v : RenderWidgetHostViewEfl) (forwarded : List NativeWebKeyboardEvent) (acked : Nat),
      ∃ r, runKeys env v forwarded acked (downSteps downs) = some r := by
  induction downs with
  | nil => intro v forwarded acked; exact ⟨_, rfl⟩
  | cons d rest ih =>
    intro v forwarded acked
    simp only [downSteps, List.map_cons, runKeys]
    exact ih _ _ _

/-- As long as key-downs remain unacknowledged, acknowledgements can be delivered. -/
theorem runKeys_ackSteps (env : Platform) (acks : List Bool) :
    ∀ (v : RenderWidgetHostViewEfl) (forwarded : List NativeWebKeyboardEvent) (acked : Nat)
      (arrived : List NativeWebKeyboardEvent),
      KeysInv v forwarded acked arrived → acked + acks.length ≤ arrived.length →
      ∃ r, runKeys env v forwarded acked (ackSteps acks) = some r := by
  induction acks with
  | nil => intro v forwarded acked arrived _ _; exact ⟨_, rfl⟩
  | cons p rest ih =>
    intro v forwarded acked arrived hinv hlen
    simp only [List.length_cons] at hlen
    have hlt : acked < forwarded.length := hinv.2.2.2.2.2.2.2 (by omega)
    have hget : forwarded[acked]? = some (forwarded[acked]) := List.getElem?_eq_getElem hlt
    simp only [ackSteps, List.map_cons, runKeys, hget]
    exact ih _ _ _ arrived (ack_inv env v forwarded acked arrived _ p hinv hget) (by omega)

/-- C9, failing as stated: keys `a`, `b`, `c` arrive before the first
acknowledgement; `a` is forwarded on arrival, `b` and `c` are queued.  The next
drain cycle forwards `b` only: `c` is still in the key-down queue after it, so
it was forwarded neither on arrival nor by the next drain cycle. -/
theorem C9_counterexample :
    (runKeys samplePlatform freshView [] 0 threeKeysOneAck).map
        (fun r => (r.2.1, r.1.keydownev_queue_)) =
      some ([hardwareEvent samplePlatform keyA true,
             queuedCopy samplePlatform (hardwareEvent samplePlatform keyB true)],
            [queuedCopy samplePlatform (hardwareEvent samplePlatform keyC true)]) := by
  decide

theorem arrivals_append (env : Platform) (s₁ s₂ : List KeyStep) :
    arrivals env (s₁ ++ s₂) = arrivals env s₁ ++ arrivals env s₂ := by
  induction s₁ with
  | nil => rfl
  | cons step rest ih => cases step <;> simp [arrivals, ih]

theorem ackCount_append (s₁ s₂ : List KeyStep) :
    ackCount (s₁ ++ s₂) = ackCount s₁ + ackCount s₂ := by
  induction s₁ with
  | nil => simp [ackCount]
  | cons step rest ih => cases step <;> simp [ackCount, ih]; omega

theorem ackCount_downSteps (downs : List (EvasKeyEvent × FilterOutcome)) :
    ackCount (downSteps downs) = 0 := by
  induction downs with
  | nil => rfl
  | cons d rest ih => simpa [downSteps, ackCount] using ih

theorem PlainKeys_append (env : Platform) (s₁ s₂ : List KeyStep) (h₁ : PlainKeys env s₁)
    (h₂ : PlainKeys env s₂) : PlainKeys env (s₁ ++ s₂) := by
  induction s₁ with
  | nil => exact h₂
  | cons step rest ih =>
    cases step with
    | down event filter => exact ⟨h₁.1, ih h₁.2⟩
    | ack processed => exact ih h₁

/-- From an idle view the invariant holds with nothing arrived yet. -/
theorem KeysInv_of_Idle (v : RenderWidgetHostViewEfl) (hidle : v.Idle) : KeysInv v [] 0 [] := by
  obtain ⟨im, him, _, _, hku, hkd, hflag⟩ := hidle
  refine ⟨⟨im, him⟩, hflag, by simp [hku], by simp [hkd], ?_, ?_, Nat.le_refl _, ?_⟩
  · intro e he; cases he
  · rw [hkd]; intro e he; cases he
  · intro h; cases h

/-- What a schedule of key-downs without modifier bits leaves, from an idle view. -/
theorem keys_summary (env : Platform) (v : RenderWidgetHostViewEfl)
    (steps : List KeyStep) (v' : RenderWidgetHostViewEfl)
    (forwarded : List NativeWebKeyboardEvent) (acked : Nat)
    (hidle : v.Idle) (hplain : PlainKeys env steps)
    (hrun : runKeys env v [] 0 steps = some (v', forwarded, acked)) :
    acked = ackCount steps ∧
    forwardedKeyDowns v'.host_calls = forwardedKeyDowns v.host_calls ++ forwarded ∧
    ((forwarded ++ v'.keydownev_queue_).map keySignature).Perm
      ((arrivals env steps).map keySignature) ∧
    v'.keyupev_queue_.length + acked = (arrivals env steps).length ∧
    (acked < (arrivals env steps).length → acked < forwarded.length) ∧
    (acked = (arrivals env steps).length →
      v'.keyupev_queue_ = [] ∧ v'.keydownev_queue_ = [] ∧
      (forwarded.map keySignature).Perm ((arrivals env steps).map keySignature)) := by
  obtain ⟨⟨_, _, hlen, hperm, _, _, hle, hprog⟩, hack, new, hnew, hfw⟩ :=
    runKeys_inv env steps v [] 0 [] v' forwarded acked (KeysInv_of_Idle v hidle) hplain hrun
  simp only [List.nil_append] at hlen hperm hprog hnew
  subst hnew
  refine ⟨by simpa using hack, hfw, hperm, hlen, hprog, ?_⟩
  intro hall
  have hl := hperm.length_eq
  simp only [List.length_map, List.length_append] at hl
  have hu : v'.keyupev_queue_ = [] := List.length_eq_zero.mp (by omega)
  have hd : v'.keydownev_queue_ = [] := List.length_eq_zero.mp (by omega)
  refine ⟨hu, hd, ?_⟩
  rw [hd, List.append_nil] at hperm
  exact hperm

/-- C9 (amended): from an idle sequencer, along every schedule of hardware
key-downs without modifier bits (each possibly delivering preedits and commits
inside its filter call) whose acknowledgements come in forwarding order: the
key-downs forwarded so far together with those still queued are exactly the
key-downs that arrived, each once (up to the members the queue does not copy);
the key-up queue holds one entry per key-down not yet acknowledged; as long as
fewer acknowledgements than key-downs were delivered, a forwarded key-down is
awaiting its acknowledgement; and once as many acknowledgements as key-downs
were delivered, the key-up queue and the key-down queue are empty and every
key-down has been forwarded exactly once, on arrival or by a later drain cycle.
In particular, N key-downs in a row followed by N acknowledgements always run
to the end and leave both queues empty. -/
theorem C9_every_key_down_forwarded_once (env : Platform) (v : RenderWidgetHostViewEfl)
    (hidle : v.Idle) :
    (∀ (steps : List KeyStep) (v' : RenderWidgetHostViewEfl)
        (forwarded : List NativeWebKeyboardEvent) (acked : Nat),
      PlainKeys env steps → runKeys env v [] 0 steps = some (v', forwarded, acked) →
      acked = ackCount steps ∧
      forwardedKeyDowns v'.host_calls = forwardedKeyDowns v.host_calls ++ forwarded ∧
      ((forwarded ++ v'.keydownev_queue_).map keySignature).Perm
        ((arrivals env steps).map keySignature) ∧
      v'.keyupev_queue_.length + acked = (arrivals env steps).length ∧
      (acked < (arrivals env steps).length → acked < forwarded.length) ∧
      (acked = (arrivals env steps).length →
        v'.keyupev_queue_ = [] ∧ v'.keydownev_queue_ = [] ∧
        (forwarded.map keySignature).Perm ((arrivals env steps).map keySignature))) ∧
    (∀ (downs : List (EvasKeyEvent × FilterOutcome)) (acks : List Bool),
      PlainKeys env (downSteps downs) → acks.length = downs.length →
      ∃ v' forwarded,
        runKeys env v [] 0 (downSteps downs ++ ackSteps acks) =
          some (v', forwarded, downs.length) ∧
        v'.keyupev_queue_ = [] ∧ v'.keydownev_queue_ = [] ∧
        (forwarded.map keySignature).Perm
          ((arrivals env (downSteps downs)).map keySignature)) := by
  refine ⟨fun steps v' forwarded acked hplain hrun =>
    keys_summary env v steps v' forwarded acked hidle hplain hrun, ?_⟩
  intro downs acks hplain hlen
  obtain ⟨⟨v₁, f₁, a₁⟩, h₁⟩ := runKeys_downSteps env downs v [] 0
  obtain ⟨hinv₁, ha₁, _⟩ :=
    runKeys_inv env (downSteps downs) v [] 0 [] v₁ f₁ a₁ (KeysInv_of_Idle v hidle) hplain h₁
  rw [ackCount_downSteps] at ha₁
  simp only [List.nil_append] at hinv₁
  obtain ⟨⟨v₂, f₂, a₂⟩, h₂⟩ := runKeys_ackSteps env acks v₁ f₁ a₁ _ hinv₁
    (by rw [ha₁, arrivals_downSteps_length]; omega)
  have hrun : runKeys env v [] 0 (downSteps downs ++ ackSteps acks) = some (v₂, f₂, a₂) := by
    rw [runKeys_append, h₁]
    exact h₂
  have hsum := keys_summary env v _ v₂ f₂ a₂ hidle
    (PlainKeys_append env _ _ hplain (PlainKeys_ackSteps env acks)) hrun
  rw [arrivals_append, arrivals_ackSteps, List.append_nil, ackCount_append, ackCount_downSteps,
    ackCount_ackSteps, Nat.zero_add] at hsum
  obtain ⟨hacked, _, _, _, _, hfin⟩ := hsum
  have hall : a₂ = (arrivals env (downSteps downs)).length := by
    rw [arrivals_downSteps_length, hacked, hlen]
  obtain ⟨hu, hd, hp⟩ := hfin hall
  refine ⟨v₂, f₂, ?_, hu, hd, hp⟩
  rw [hrun, hacked, hlen]

/-- C9 (amended) at a concrete input: three keys and three acknowledgements. -/
theorem C9_every_key_down_forwarded_once_witness :
    freshView.Idle ∧ PlainKeys samplePlatform threeKeysThreeAcks ∧
    ∃ v' forwarded acked,
      runKeys samplePlatform freshView [] 0 threeKeysThreeAcks = some (v', forwarded, acked) ∧
      acked = 3 ∧ v'.keyupev_queue_ = [] ∧ v'.keydownev_queue_ = [] := by
  have hplain : PlainKeys samplePlatform threeKeysThreeAcks := by
    simp [PlainKeys, threeKeysThreeAcks, samplePlatform, keyA, keyB, keyC]
  have hsome : (runKeys samplePlatform freshView [] 0 threeKeysThreeAcks).isSome = true := by
    decide
  obtain ⟨⟨v', forwarded, acked⟩, hrun⟩ := Option.isSome_iff_exists.mp hsome
  have h := (C9_every_key_down_forwarded_once samplePlatform freshView freshView_Idle).1
    threeKeysThreeAcks v' forwarded acked hplain hrun
  have hacked : acked = 3 := h.1
  exact ⟨freshView_Idle, hplain, v', forwarded, acked, hrun, hacked,
    (h.2.2.2.2.2 (by rw [hacked]; rfl)).1, (h.2.2.2.2.2 (by rw [hacked]; rfl)).2.1⟩

/-! ## C10: when a hardware key-down is queued -/

/-- C10, failing as stated, in both directions.  Key `b` arrives while the
forwarded key `a` is still unacknowledged, yet it is forwarded at once and the
key-down queue stays empty.  And key `a`, whose filter call delivers a preedit,
arrives after the only forwarded key-down (Shift) has been acknowledged, yet it
is queued and not forwarded. -/
theorem C10_counterexample :
    ((freshView.run samplePlatform
        [.keyDown keyA { callbacks := [], filtered := false },
         .keyDown keyB { callbacks := [], filtered := false }]).keydownev_queue_ = [] ∧
      (freshView.run samplePlatform
        [.keyDown keyA { callbacks := [], filtered := false },
         .keyDown keyB { callbacks := [], filtered := false }]).host_calls =
        [.ForwardKeyboardEvent (samplePlatform.toWebKeyboardEvent keyA),
         .ForwardKeyboardEvent (samplePlatform.toWebKeyboardEvent keyB)]) ∧
    ((freshView.run samplePlatform
        [.keyDown keyShift { callbacks := [], filtered := false },
         .ack (samplePlatform.toWebKeyboardEvent keyShift).toWebInputEvent false,
         .keyDown keyA { callbacks := [.preeditChanged (some [97])], filtered := true }]
        ).keydownev_queue_ =
        [queuedCopy samplePlatform (hardwareEvent samplePlatform keyA true)] ∧
      (freshView.run samplePlatform
        [.keyDown keyShift { callbacks := [], filtered := false },
         .ack (samplePlatform.toWebKeyboardEvent keyShift).toWebInputEvent false,
         .keyDown keyA { callbacks := [.preeditChanged (some [97])], filtered := true }]
        ).host_calls =
        [.ForwardKeyboardEvent (samplePlatform.toWebKeyboardEvent keyShift)]) := by
  decide

/-- C10 (amended): with a session, a hardware key-down is appended to the
key-down queue and not forwarded exactly when, once its filter call has run, the
preedit queue and the key-up queue are both non-empty; otherwise it is forwarded
at once and the key-down queue is left alone.  Without a session it is always
forwarded at once. -/
theorem C10_queued_iff_preedit_and_keyup_pending (env : Platform) (v : RenderWidgetHostViewEfl)
    (event : EvasKeyEvent) (filter : FilterOutcome) :
    (∀ im, v.im_context_ = some im →
      ∃ im', (v.HandleEvasEvent_KeyDown env event filter).im_context_ = some im' ∧
        im'.preedit_queue_ = im.preedit_queue_ ++ preeditsOf env filter.callbacks ∧
        ((im'.preedit_queue_ ≠ [] ∧ v.keyupev_queue_ ≠ [] →
            (v.HandleEvasEvent_KeyDown env event filter).keydownev_queue_ =
              v.keydownev_queue_ ++ [queuedCopy env (hardwareEvent env event filter.filtered)] ∧
            (v.HandleEvasEvent_KeyDown env event filter).host_calls = v.host_calls) ∧
         (¬ (im'.preedit_queue_ ≠ [] ∧ v.keyupev_queue_ ≠ []) →
            (v.HandleEvasEvent_KeyDown env event filter).keydownev_queue_ = v.keydownev_queue_ ∧
            (v.HandleEvasEvent_KeyDown env event filter).host_calls =
              v.host_calls ++
                [.ForwardKeyboardEvent (hardwareEvent env event filter.filtered)]))) ∧
    (v.im_context_ = none →
      v.HandleEvasEvent_KeyDown env event filter =
        { v with host_calls := v.host_calls ++
            [.ForwardKeyboardEvent (env.toWebKeyboardEvent event)] }) := by
  constructor
  · intro im him
    refine ⟨_, keyDown_im env v im event filter him, rfl, ?_, ?_⟩
    · rintro ⟨hp, hk⟩
      have hp' : (im.preedit_queue_ ++ preeditsOf env filter.callbacks).isEmpty = false := by
        simpa [List.isEmpty_iff] using hp
      have hk' : v.keyupev_queue_.isEmpty = false := by
        simpa [List.isEmpty_iff] using hk
      rw [keyDown_keydown env v im event filter him, keyDown_calls env v im event filter him]
      simp [hp', hk']
    · intro hn
      have hq : ((im.preedit_queue_ ++ preeditsOf env filter.callbacks).isEmpty ||
          v.keyupev_queue_.isEmpty) = true := by
        by_cases hp : im.preedit_queue_ ++ preeditsOf env filter.callbacks = []
        · simp [hp]
        · by_cases hk : v.keyupev_queue_ = []
          · simp [hk]
          · exact absurd ⟨hp, hk⟩ hn
      rw [keyDown_keydown env v im event filter him, keyDown_calls env v im event filter him]
      simp [hq]
  · intro him
    simp [RenderWidgetHostViewEfl.HandleEvasEvent_KeyDown, RenderWidgetHostViewEfl.call, him]

/-- C10 (amended) at a concrete input: key `c` arrives at the loaded view, whose
preedit and key-up queues are non-empty, and is queued. -/
theorem C10_queued_iff_preedit_and_keyup_pending_witness :
    (loadedView.HandleEvasEvent_KeyDown samplePlatform keyC
        { callbacks := [], filtered := false }).keydownev_queue_ =
      loadedView.keydownev_queue_ ++
        [queuedCopy samplePlatform (hardwareEvent samplePlatform keyC false)] :=
  match (C10_queued_iff_preedit_and_keyup_pending samplePlatform loadedView keyC
      { callbacks := [], filtered := false }).1 _ rfl with
  | ⟨_, him', hq, hqueued, _⟩ =>
    (hqueued ⟨by rw [hq]; decide, by decide⟩).1

/-! ## C11: the synthetic key-down of a commit -/

/-- The committed text is appended to the commit queue, whatever the guard flag. -/
theorem OnCommit_session (env : Platform) (im : IMContextEfl) (v : RenderWidgetHostViewEfl)
    (text : CString) :
    (im.OnCommit env v text).1 =
      { im with composition_ := im.composition_.Clear
                commit_queue_ := im.commit_queue_ ++ [env.UTF8ToUTF16 text] } := rfl

/-- Outside a key-down filter call, with a host, a commit forwards its synthetic
key-down and pushes its key code. -/
theorem OnCommit_view_outside (env : Platform) (im : IMContextEfl) (v : RenderWidgetHostViewEfl)
    (text : CString) (hhost : v.host_ = true) (hg : im.is_handling_keydown_ = false) :
    (im.OnCommit env v text).2 =
      { v with
        keyupev_queue_ := v.keyupev_queue_ ++ [(fakeKeyEvent env text).windowsKeyCode]
        host_calls := v.host_calls ++ [.ForwardKeyboardEvent (fakeKeyEvent env text)] } := by
  simp [IMContextEfl.OnCommit, IMContextEfl.SendFakeCompositionKeyEvent, hhost, hg,
    RenderWidgetHostViewEfl.call, RenderWidgetHostViewEfl.KeyUpEventQueuePush]

/-- While the guard flag is set, a commit leaves the view alone. -/
theorem OnCommit_view_inside (env : Platform) (im : IMContextEfl) (v : RenderWidgetHostViewEfl)
    (text : CString) (hg : im.is_handling_keydown_ = true) :
    (im.OnCommit env v text).2 = v := by
  simp [IMContextEfl.OnCommit, IMContextEfl.SendFakeCompositionKeyEvent, hg]

/-- C11: with a render widget host present, `OnCommit` outside a key-down filter
call (guard flag unset) forwards exactly one synthetic key-down, of type
`KeyDown` and marked as a system key, and appends its key code to the key-up
queue; inside a key-down filter call (guard flag set, as `HandleKeyDownEvent`
sets it around the filter call) it forwards nothing and leaves the key-up queue
alone.  In both cases the committed text goes to the back of the commit queue and
no confirm call is made. -/
theorem C11_commit_synthetic_key_iff_outside_filter (env : Platform) (im : IMContextEfl)
    (v : RenderWidgetHostViewEfl) (text : CString) (hhost : v.host_ = true) :
    (im.is_handling_keydown_ = false →
      (im.OnCommit env v text).2 =
        { v with
          keyupev_queue_ := v.keyupev_queue_ ++ [(fakeKeyEvent env text).windowsKeyCode]
          host_calls := v.host_calls ++ [.ForwardKeyboardEvent (fakeKeyEvent env text)] }) ∧
    (fakeKeyEvent env text).type = .KeyDown ∧
    (fakeKeyEvent env text).isSystemKey = true ∧
    (im.is_handling_keydown_ = true → (im.OnCommit env v text).2 = v) ∧
    (∀ filtered : Bool,
      (im.HandleKeyDownEvent env v { callbacks := [.commit text], filtered := filtered }).2.1 = v ∧
      (im.HandleKeyDownEvent env v { callbacks := [.commit text], filtered := filtered }
        ).1.commit_queue_ = im.commit_queue_ ++ [env.UTF8ToUTF16 text] ∧
      (im.HandleKeyDownEvent env v { callbacks := [.commit text], filtered := filtered }
        ).1.is_handling_keydown_ = false) ∧
    (im.OnCommit env v text).1.commit_queue_ = im.commit_queue_ ++ [env.UTF8ToUTF16 text] ∧
    confirmedTexts (im.OnCommit env v text).2.host_calls = confirmedTexts v.host_calls := by
  refine ⟨OnCommit_view_outside env im v text hhost, rfl, rfl,
    OnCommit_view_inside env im v text, ?_, rfl, ?_⟩
  · intro filtered
    simp only [IMContextEfl.HandleKeyDownEvent]
    rw [deliverAll_handling env _ v _ rfl]
    simp [commitsOf]
  · have h := deliver_confirmed env im v (.commit text)
    simpa [IMContextEfl.deliver] using h

/-- C11 at a concrete input: the commit `hi` arrives at a fresh view outside a filter call. -/
theorem C11_commit_synthetic_key_iff_outside_filter_witness :
    freshView.host_ = true ∧
    (IMContextEfl.init.OnCommit samplePlatform freshView textHi).2.host_calls =
      [.ForwardKeyboardEvent (fakeKeyEvent samplePlatform textHi)] ∧
    (IMContextEfl.init.OnCommit samplePlatform freshView textHi).2.keyupev_queue_ = [105] :=
  ⟨rfl,
    congrArg RenderWidgetHostViewEfl.host_calls
      ((C11_commit_synthetic_key_iff_outside_filter samplePlatform IMContextEfl.init freshView
        textHi rfl).1 rfl),
    congrArg RenderWidgetHostViewEfl.keyupev_queue_
      ((C11_commit_synthetic_key_iff_outside_filter samplePlatform IMContextEfl.init freshView
        textHi rfl).1 rfl)⟩

/-! ## C12: the key symbol of the synthetic key-down -/

theorem charToInt_mod (env : Platform) (b : Nat) (hb : b < 256) :
    (env.charToInt b % 256).toNat = b := by
  unfold Platform.charToInt
  split <;> omega

theorem c_str_singleton (b : Nat) (hb : 0 < b) : c_str [b] = [b] := by
  have : (b != 0) = true := by simpa using (Nat.pos_iff_ne_zero.mp hb)
  simp [c_str, List.takeWhile, this]

/-- C12, failing as stated: the empty committed text has no last character; the
code takes the character NUL for it, which is not whitespace, and the key symbol
handed to the key-event factory is the empty string: neither `"space"` nor a
one-character string. -/
theorem C12_counterexample :
    c_str (fakeKeySymbol samplePlatform []) = [] ∧
    fakeKeyEvent samplePlatform [] =
      { samplePlatform.toWebKeyboardEvent { key := [], string := some [], other := 0 } with
        type := .KeyDown, isSystemKey := true } := by
  decide

/-- C12 (amended): for every non-empty committed text whose last character is a
one-byte (ASCII) character, the key symbol of the synthetic key-down is derived
from that last character: it is the literal `"space"` when the character is
whitespace, and otherwise the one-character string consisting of exactly that
character; the synthetic key-down is what the key-event factory makes of a zeroed
key-down event with this symbol as its `key` and `string`. -/
theorem C12_key_symbol_from_last_char (env : Platform) (text : CString) (b : Nat)
    (hlast : text.getLast? = some b) (hpos : 0 < b) (hascii : b < 128) :
    fakeKeySymbol env text = (if env.u_isspace (b : Int) then spaceLiteral else [b]) ∧
    fakeKeyEvent env text =
      { env.toWebKeyboardEvent
          { key := if env.u_isspace (b : Int) then spaceLiteral else [b]
            string := some (if env.u_isspace (b : Int) then spaceLiteral else [b])
            other := 0 } with
        type := .KeyDown, isSystemKey := true } := by
  have hch : env.charToInt b = (b : Int) := by
    unfold Platform.charToInt
    have h₁ : ¬ 128 ≤ b % 256 := by omega
    have h₂ : ((b % 256 : Nat) : Int) = (b : Int) := by
      have : b % 256 = b := Nat.mod_eq_of_lt (by omega)
      rw [this]
    simp only [h₁, decide_False, Bool.and_false, Bool.false_eq_true, if_false]
    exact_mod_cast h₂
  have hsym : fakeKeySymbol env text =
      (if env.u_isspace (b : Int) then spaceLiteral else [b]) := by
    have hmod := charToInt_mod env b (by omega)
    rw [hch] at hmod
    simp only [fakeKeySymbol, hlast, hch, hmod]
  have hc : c_str (if env.u_isspace (b : Int) then spaceLiteral else [b]) =
      (if env.u_isspace (b : Int) then spaceLiteral else [b]) := by
    split
    · decide
    · exact c_str_singleton b hpos
  refine ⟨hsym, ?_⟩
  simp only [fakeKeyEvent, hsym, hc]

/-- C12 (amended) at concrete inputs: a text ending in a blank gives `"space"`,
the text `hi` gives the symbol `i`. -/
theorem C12_key_symbol_from_last_char_witness :
    fakeKeySymbol samplePlatform [104, 32] = spaceLiteral ∧
    fakeKeySymbol samplePlatform textHi = [105] :=
  ⟨(C12_key_symbol_from_last_char samplePlatform [104, 32] 32 rfl (by decide) (by decide)).1,
    (C12_key_symbol_from_last_char samplePlatform textHi 105 rfl (by decide) (by decide)).1⟩

/-! ## C19: `Reset` and `CancelComposition` -/

/-- C19: after `Reset()` and after `CancelComposition()` the commit queue, the
preedit queue, the key-up queue and the key-down queue are empty, at once; the
two operations have the same effect; neither changes the focused flag, the
enabled flag or the recorded input type. -/
theorem C19_reset_and_cancel_clear_queues (im : IMContextEfl) (view_ : RenderWidgetHostViewEfl) :
    im.Reset view_ = im.CancelComposition view_ ∧
    (im.Reset view_).1.commit_queue_ = [] ∧
    (im.Reset view_).1.preedit_queue_ = [] ∧
    (im.Reset view_).2.keyupev_queue_ = [] ∧
    (im.Reset view_).2.keydownev_queue_ = [] ∧
    (im.Reset view_).1.focused_ = im.focused_ ∧
    (im.Reset view_).1.enabled_ = im.enabled_ ∧
    (im.Reset view_).1.input_type_ = im.input_type_ ∧
    (im.Reset view_).1.context_ = im.context_ ++ [.reset] := by
  simp [IMContextEfl.Reset, IMContextEfl.CancelComposition, IMContextEfl.ClearQueues,
    IMContextEfl.imf, RenderWidgetHostViewEfl.ClearQueues]

/-! ## The input panel -/

theorem panelSettings_eq (input_type : TextInputType) (is_in_form_tag : Bool)
    (h : input_type ≠ .NONE) :
    panelSettings input_type is_in_form_tag =
      some (layoutTable input_type, returnKeyLabel input_type is_in_form_tag,
        (if input_type = .TEXT_AREA then .SENTENCE else .NONE),
        decide (input_type ≠ .PASSWORD)) := by
  cases input_type <;> cases is_in_form_tag <;>
    first
    | exact absurd rfl h
    | simp [panelSettings, layoutTable, returnKeyLabel]

theorem panelInputMode_eq (input_mode : TextInputMode) : panelInputMode input_mode = .ALPHA := by
  cases input_mode <;> rfl

/-- When `ShowPanel` does not return early and the input type is not `NONE`, it
recreates the context if the panel was shown before, then makes the calls of
`showCalls`. -/
theorem ShowPanel_shown (env : Platform) (penv : PanelEnv) (im : IMContextEfl)
    (input_type : TextInputType) (input_mode : TextInputMode) (is_user_action : Bool)
    (hgate : (is_user_action || penv.useKeyPadWithoutUserAction) = true)
    (htype : input_type ≠ .NONE) :
    im.ShowPanel env penv input_type input_mode is_user_action =
      .ok { showBase penv im with
        panel_was_ever_shown_ := true
        context_ := (showBase penv im).context_ ++ showCalls input_type im.is_in_form_tag_ } := by
  have hg : (!is_user_action && !penv.useKeyPadWithoutUserAction) = false := by
    cases is_user_action <;> cases h : penv.useKeyPadWithoutUserAction <;> simp_all
  have hform : (showBase penv im).is_in_form_tag_ = im.is_in_form_tag_ := by
    unfold showBase; split <;> rfl
  simp only [IMContextEfl.ShowPanel, hg, panelSettings_eq input_type _ htype, panelInputMode_eq]
  simp [showBase, showCalls, IMContextEfl.imf]

/-- When `ShowPanel` returns early it changes nothing. -/
theorem ShowPanel_gated (env : Platform) (penv : PanelEnv) (im : IMContextEfl)
    (input_type : TextInputType) (input_mode : TextInputMode) (is_user_action : Bool)
    (hgate : (is_user_action || penv.useKeyPadWithoutUserAction) = false) :
    im.ShowPanel env penv input_type input_mode is_user_action = .ok im := by
  have hg : (!is_user_action && !penv.useKeyPadWithoutUserAction) = true := by
    cases is_user_action <;> cases h : penv.useKeyPadWithoutUserAction <;> simp_all
  simp [IMContextEfl.ShowPanel, hg]

theorem layoutInEffect_append (log more : List ImfCall) :
    layoutInEffect (log ++ more) =
      more.foldl (fun current c =>
        match c with
        | .add _ => none
        | .input_panel_layout_set layout => some layout
        | _ => current) (layoutInEffect log) := by
  simp [layoutInEffect, List.foldl_append]

theorem returnKeyInEffect_append (log more : List ImfCall) :
    returnKeyInEffect (log ++ more) =
      more.foldl (fun current c =>
        match c with
        | .add _ => none
        | .input_panel_return_key_type_set return_key_type => some return_key_type
        | _ => current) (returnKeyInEffect log) := by
  simp [returnKeyInEffect, List.foldl_append]

theorem layoutInEffect_showCalls (log : List ImfCall) (input_type : TextInputType)
    (is_in_form_tag : Bool) (more : List ImfCall)
    (hmore : ∀ c ∈ more, (∀ b, c ≠ .add b) ∧ ∀ l, c ≠ .input_panel_layout_set l) :
    layoutInEffect (log ++ showCalls input_type is_in_form_tag ++ more) =
      some (layoutTable input_type) := by
  rw [layoutInEffect_append, layoutInEffect_append]
  simp only [showCalls, List.foldl_cons, List.foldl_nil]
  induction more with
  | nil => rfl
  | cons c rest ih =>
    have hc := hmore c (List.mem_cons_self _ _)
    have hrest := ih (fun x hx => hmore x (List.mem_cons_of_mem _ hx))
    cases c with
    | add b => exact absurd rfl (hc.1 b)
    | input_panel_layout_set l => exact absurd rfl (hc.2 l)
    | _ => simpa [List.foldl_cons] using hrest

theorem returnKeyInEffect_showCalls (log : List ImfCall) (input_type : TextInputType)
    (is_in_form_tag : Bool) (more : List ImfCall)
    (hmore : ∀ c ∈ more, (∀ b, c ≠ .add b) ∧ ∀ t, c ≠ .input_panel_return_key_type_set t) :
    returnKeyInEffect (log ++ showCalls input_type is_in_form_tag ++ more) =
      some (returnKeyLabel input_type is_in_form_tag) := by
  rw [returnKeyInEffect_append, returnKeyInEffect_append]
  simp only [showCalls, List.foldl_cons, List.foldl_nil]
  induction more with
  | nil => rfl
  | cons c rest ih =>
    have hc := hmore c (List.mem_cons_self _ _)
    have hrest := ih (fun x hx => hmore x (List.mem_cons_of_mem _ hx))
    cases c with
    | add b => exact absurd rfl (hc.1 b)
    | input_panel_return_key_type_set t => exact absurd rfl (hc.2 t)
    | _ => simpa [List.foldl_cons] using hrest

/-- On a focused session, for an input type other than `NONE`, with the panel
allowed to show: the four-argument `UpdateInputMethodState` returns and shows
the panel. -/
theorem UpdateInputMethodState_shown (env : Platform) (penv : PanelEnv) (im : IMContextEfl)
    (view_ : RenderWidgetHostViewEfl) (input_type : TextInputType) (can_compose_inline : Bool)
    (input_mode : TextInputMode) (is_user_action : Bool)
    (hf : im.focused_ = true) (htype : input_type ≠ .NONE)
    (hgate : (is_user_action || penv.useKeyPadWithoutUserAction) = true) :
    im.UpdateInputMethodState env penv view_ input_type can_compose_inline input_mode
        is_user_action =
      .ok ({ showBase penv (updateBase im input_type) with
              panel_was_ever_shown_ := true
              context_ := (showBase penv (updateBase im input_type)).context_ ++
                showCalls input_type im.is_in_form_tag_ ++
                [.use_preedit_set can_compose_inline] },
           view_.ClearQueues) := by
  have hs := ShowPanel_shown env penv (updateBase im input_type) input_type input_mode
    is_user_action hgate htype
  have hf' : (updateBase im input_type).focused_ = true := hf
  have he : decide (input_type ≠ .NONE) = true := by simpa using htype
  simp only [IMContextEfl.UpdateInputMethodState]
  change (if (env.dcheck_is_on && !(updateBase im input_type).focused_) = true then _ else _) = _
  rw [hf']
  simp only [Bool.not_true, Bool.and_false, Bool.false_eq_true, if_false, he, if_true]
  have hb : (({ im with input_type_ := input_type, enabled_ := true } :
      IMContextEfl).ClearQueues).imf .reset = updateBase im input_type := by
    simp [updateBase, he]
  rw [hb, hs]
  simp [IMContextEfl.imf, updateBase, IMContextEfl.ClearQueues]

/-- On a focused session, for an input type other than `NONE`, with the panel
not allowed to show: the four-argument `UpdateInputMethodState` returns without
any panel call. -/
theorem UpdateInputMethodState_gated (env : Platform) (penv : PanelEnv) (im : IMContextEfl)
    (view_ : RenderWidgetHostViewEfl) (input_type : TextInputType) (can_compose_inline : Bool)
    (input_mode : TextInputMode) (is_user_action : Bool)
    (hf : im.focused_ = true) (htype : input_type ≠ .NONE)
    (hgate : (is_user_action || penv.useKeyPadWithoutUserAction) = false) :
    im.UpdateInputMethodState env penv view_ input_type can_compose_inline input_mode
        is_user_action =
      .ok ((updateBase im input_type).imf (.use_preedit_set can_compose_inline),
           view_.ClearQueues) := by
  have hs := ShowPanel_gated env penv (updateBase im input_type) input_type input_mode
    is_user_action hgate
  have hf' : (updateBase im input_type).focused_ = true := hf
  have he : decide (input_type ≠ .NONE) = true := by simpa using htype
  simp only [IMContextEfl.UpdateInputMethodState]
  change (if (env.dcheck_is_on && !(updateBase im input_type).focused_) = true then _ else _) = _
  rw [hf']
  simp only [Bool.not_true, Bool.and_false, Bool.false_eq_true, if_false, he, if_true]
  have hb : (({ im with input_type_ := input_type, enabled_ := true } :
      IMContextEfl).ClearQueues).imf .reset = updateBase im input_type := by
    simp [updateBase, he]
  rw [hb, hs]

/-- On a focused session, for the input type `NONE`: the four-argument
`UpdateInputMethodState` returns and hides the panel. -/
theorem UpdateInputMethodState_none (env : Platform) (penv : PanelEnv) (im : IMContextEfl)
    (view_ : RenderWidgetHostViewEfl) (can_compose_inline : Bool)
    (input_mode : TextInputMode) (is_user_action : Bool) (hf : im.focused_ = true) :
    im.UpdateInputMethodState env penv view_ .NONE can_compose_inline input_mode
        is_user_action =
      .ok ((updateBase im .NONE).HidePanel, view_.ClearQueues) := by
  have hf' : (updateBase im .NONE).focused_ = true := hf
  simp only [IMContextEfl.UpdateInputMethodState]
  change (if (env.dcheck_is_on && !(updateBase im .NONE).focused_) = true then _ else _) = _
  rw [hf']
  simp
  rfl

theorem showBase_fields (penv : PanelEnv) (im : IMContextEfl) :
    (showBase penv im).focused_ = im.focused_ ∧
    (showBase penv im).enabled_ = im.enabled_ ∧
    (showBase penv im).input_type_ = im.input_type_ ∧
    (showBase penv im).commit_queue_ = im.commit_queue_ ∧
    (showBase penv im).preedit_queue_ = im.preedit_queue_ ∧
    (showBase penv im).composition_ = im.composition_ ∧
    (showBase penv im).is_in_form_tag_ = im.is_in_form_tag_ := by
  unfold showBase
  split <;> simp [IMContextEfl.ResetIMFContext, IMContextEfl.InitializeIMFContext, IMContextEfl.imf]

/-! ## C13: what `UpdateInputMethodState` records -/

/-- C13: on a focused session, for every input type, the four-argument
`UpdateInputMethodState` returns (no fatal assertion), and it and the
one-argument overload both set the enabled flag to "the input type is not
`NONE`", record the input type, leave the commit queue, the preedit queue, the
key-up queue and the key-down queue empty, and do not change the focused flag. -/
theorem C13_update_records_type_and_clears_queues (env : Platform) (penv : PanelEnv)
    (im : IMContextEfl) (view_ : RenderWidgetHostViewEfl) (input_type : TextInputType)
    (can_compose_inline : Bool) (input_mode : TextInputMode) (is_user_action is_showing : Bool)
    (hf : im.focused_ = true) :
    (∃ im' view',
      im.UpdateInputMethodState env penv view_ input_type can_compose_inline input_mode
        is_user_action = .ok (im', view') ∧
      im'.enabled_ = decide (input_type ≠ .NONE) ∧ im'.input_type_ = input_type ∧
      im'.commit_queue_ = [] ∧ im'.preedit_queue_ = [] ∧
      view'.keyupev_queue_ = [] ∧ view'.keydownev_queue_ = [] ∧
      im'.focused_ = im.focused_) ∧
    ((im.UpdateInputMethodState1 view_ input_type is_showing).1.enabled_ =
        decide (input_type ≠ .NONE) ∧
      (im.UpdateInputMethodState1 view_ input_type is_showing).1.input_type_ = input_type ∧
      (im.UpdateInputMethodState1 view_ input_type is_showing).1.commit_queue_ = [] ∧
      (im.UpdateInputMethodState1 view_ input_type is_showing).1.preedit_queue_ = [] ∧
      (im.UpdateInputMethodState1 view_ input_type is_showing).2.keyupev_queue_ = [] ∧
      (im.UpdateInputMethodState1 view_ input_type is_showing).2.keydownev_queue_ = [] ∧
      (im.UpdateInputMethodState1 view_ input_type is_showing).1.focused_ = im.focused_) := by
  constructor
  · by_cases htype : input_type = .NONE
    · subst htype
      exact ⟨_, _, UpdateInputMethodState_none env penv im view_ can_compose_inline input_mode
        is_user_action hf, by
          simp [updateBase, IMContextEfl.HidePanel, IMContextEfl.imf, IMContextEfl.ClearQueues,
            RenderWidgetHostViewEfl.ClearQueues]⟩
    · have he : decide (input_type ≠ .NONE) = true := by simpa using htype
      obtain ⟨h₁, h₂, h₃, h₄, h₅, _, _⟩ := showBase_fields penv (updateBase im input_type)
      cases hgate : (is_user_action || penv.useKeyPadWithoutUserAction) with
      | true =>
        refine ⟨_, _, UpdateInputMethodState_shown env penv im view_ input_type
          can_compose_inline input_mode is_user_action hf htype hgate, ?_⟩
        simp only [h₁, h₂, h₃, h₄, h₅]
        simp [updateBase, IMContextEfl.imf, IMContextEfl.ClearQueues,
          RenderWidgetHostViewEfl.ClearQueues, htype]
      | false =>
        refine ⟨_, _, UpdateInputMethodState_gated env penv im view_ input_type
          can_compose_inline input_mode is_user_action hf htype hgate, ?_⟩
        simp [updateBase, IMContextEfl.imf, IMContextEfl.ClearQueues,
          RenderWidgetHostViewEfl.ClearQueues, htype]
  · cases is_showing <;> by_cases htype : input_type = .NONE <;>
      simp [IMContextEfl.UpdateInputMethodState1, IMContextEfl.HidePanel, IMContextEfl.imf,
        IMContextEfl.ClearQueues, RenderWidgetHostViewEfl.ClearQueues, htype]

/-- C13 at a concrete input: a focused session with queued entries is told that
an e-mail field has the focus. -/
theorem C13_update_records_type_and_clears_queues_witness :
    composingSession.focused_ = true ∧
    ∃ im' view',
      composingSession.UpdateInputMethodState samplePlatform samplePanelEnv loadedView .EMAIL
        true .DEFAULT true = .ok (im', view') ∧
      im'.enabled_ = true ∧ im'.input_type_ = .EMAIL ∧ im'.commit_queue_ = [] ∧
      view'.keyupev_queue_ = [] :=
  match (C13_update_records_type_and_clears_queues samplePlatform samplePanelEnv composingSession
      loadedView .EMAIL true .DEFAULT true false rfl).1 with
  | ⟨im', view', h, he, ht, hc, _, hu, _, _⟩ => ⟨rfl, im', view', h, he, ht, hc, hu⟩

/-! ## C14: the layout table and text prediction -/

/-- C14: `ShowPanel` shows the panel exactly when it does not return early
(user action, or the keypad allowed without one) and the input type is not
`NONE`.  Whenever it does, the layout it sets is the one of the fixed table,
with the normal layout for every type without an entry, and the prediction flag
it sets is off if and only if the type is `PASSWORD`.  Otherwise it makes no call
on the native context. -/
theorem C14_layout_from_table_prediction_off_for_password (env : Platform) (penv : PanelEnv)
    (im : IMContextEfl) (input_type : TextInputType) (input_mode : TextInputMode)
    (is_user_action : Bool) :
    ((is_user_action || penv.useKeyPadWithoutUserAction) = true → input_type ≠ .NONE →
      ∃ mode return_key_type cap_type allow_prediction,
        im.ShowPanel env penv input_type input_mode is_user_action =
          .ok { showBase penv im with
            panel_was_ever_shown_ := true
            context_ := (showBase penv im).context_ ++
              [.input_panel_layout_set (layoutTable input_type), .input_mode_set mode,
               .input_panel_return_key_type_set return_key_type,
               .autocapital_type_set cap_type, .prediction_allow_set allow_prediction,
               .focus_in, .input_panel_show] } ∧
        (allow_prediction = false ↔ input_type = .PASSWORD) ∧
        layoutInEffect ((showBase penv im).context_ ++
              [.input_panel_layout_set (layoutTable input_type), .input_mode_set mode,
               .input_panel_return_key_type_set return_key_type,
               .autocapital_type_set cap_type, .prediction_allow_set allow_prediction,
               .focus_in, .input_panel_show]) = some (layoutTable input_type)) ∧
    ((is_user_action || penv.useKeyPadWithoutUserAction) = false ∨ input_type = .NONE →
      im.ShowPanel env penv input_type input_mode is_user_action = .ok im ∨
      im.ShowPanel env penv input_type input_mode is_user_action = .error im) := by
  constructor
  · intro hgate htype
    refine ⟨.ALPHA, returnKeyLabel input_type im.is_in_form_tag_,
      (if input_type = .TEXT_AREA then .SENTENCE else .NONE), decide (input_type ≠ .PASSWORD),
      ShowPanel_shown env penv im input_type input_mode is_user_action hgate htype, by simp, ?_⟩
    have h := layoutInEffect_showCalls (showBase penv im).context_ input_type
      im.is_in_form_tag_ [] (by intro c hc; cases hc)
    simpa [showCalls] using h
  · intro h
    cases hgate : (is_user_action || penv.useKeyPadWithoutUserAction) with
    | false => exact Or.inl (ShowPanel_gated env penv im input_type input_mode is_user_action hgate)
    | true =>
      have htype : input_type = .NONE := by
        rcases h with h | h
        · rw [hgate] at h; cases h
        · exact h
      subst htype
      have hg : (!is_user_action && !penv.useKeyPadWithoutUserAction) = false := by
        cases is_user_action <;> cases h' : penv.useKeyPadWithoutUserAction <;> simp_all
      cases hd : env.dcheck_is_on <;> simp [IMContextEfl.ShowPanel, hg, panelSettings, hd]

/-- C14 at a concrete input: the panel is shown for a password field. -/
theorem C14_layout_from_table_prediction_off_for_password_witness :
    ∃ im', focusedSession.ShowPanel samplePlatform samplePanelEnv .PASSWORD .DEFAULT true =
        .ok im' ∧
      layoutInEffect im'.context_ = some .PASSWORD ∧
      ImfCall.prediction_allow_set false ∈ im'.context_ :=
  match (C14_layout_from_table_prediction_off_for_password samplePlatform samplePanelEnv
      focusedSession .PASSWORD .DEFAULT true).1 rfl (by decide) with
  | ⟨_, _, _, allow, h, ha, hl⟩ =>
    ⟨_, h, hl, by have hz : allow = false := ha.2 rfl; subst hz; simp⟩

theorem UpdateInputMethodState_in_effect (env : Platform) (penv : PanelEnv) (im : IMContextEfl)
    (view_ : RenderWidgetHostViewEfl) (input_type : TextInputType) (can_compose_inline : Bool)
    (input_mode : TextInputMode) (is_user_action : Bool)
    (hf : im.focused_ = true) (htype : input_type ≠ .NONE)
    (hgate : (is_user_action || penv.useKeyPadWithoutUserAction) = true) :
    layoutInEffect (sessionAfter (im.UpdateInputMethodState env penv view_ input_type
        can_compose_inline input_mode is_user_action)).context_ =
      some (layoutTable input_type) ∧
    returnKeyInEffect (sessionAfter (im.UpdateInputMethodState env penv view_ input_type
        can_compose_inline input_mode is_user_action)).context_ =
      some (returnKeyLabel input_type im.is_in_form_tag_) := by
  rw [UpdateInputMethodState_shown env penv im view_ input_type can_compose_inline input_mode
    is_user_action hf htype hgate]
  simp only [sessionAfter]
  constructor
  · apply layoutInEffect_showCalls
    intro c hc
    simp only [List.mem_singleton] at hc
    subst hc
    constructor <;> intro _ h <;> cases h
  · apply returnKeyInEffect_showCalls
    intro c hc
    simp only [List.mem_singleton] at hc
    subst hc
    constructor <;> intro _ h <;> cases h

/-! ## C15: the return-key label -/

/-- C15: the return-key label is the fixed function `returnKeyLabel` of the input
type and the in-form flag (Search for the search type; otherwise Go inside a
form; otherwise Done for text and number fields, Default for the rest).  Whenever
`ShowPanel` shows the panel, the label it sets is that of the requested type and
the session's in-form flag; and `SetIsInFormTag b`, when the native context
exists, the panel is not hidden, the label is not already Search and the
session's input type is not the search type, records `b` and sets the label of
the session's input type and `b`. -/
theorem C15_return_key_label (env : Platform) (penv : PanelEnv) (im : IMContextEfl)
    (input_type : TextInputType) (input_mode : TextInputMode) (is_user_action b : Bool)
    (panel_state : InputPanelState) (return_key_type : ReturnKeyType) :
    ((is_user_action || penv.useKeyPadWithoutUserAction) = true → input_type ≠ .NONE →
      ∃ layout mode cap_type allow_prediction,
        im.ShowPanel env penv input_type input_mode is_user_action =
          .ok { showBase penv im with
            panel_was_ever_shown_ := true
            context_ := (showBase penv im).context_ ++
              [.input_panel_layout_set layout, .input_mode_set mode,
               .input_panel_return_key_type_set (returnKeyLabel input_type im.is_in_form_tag_),
               .autocapital_type_set cap_type, .prediction_allow_set allow_prediction,
               .focus_in, .input_panel_show] } ∧
        returnKeyInEffect ((showBase penv im).context_ ++
              [.input_panel_layout_set layout, .input_mode_set mode,
               .input_panel_return_key_type_set (returnKeyLabel input_type im.is_in_form_tag_),
               .autocapital_type_set cap_type, .prediction_allow_set allow_prediction,
               .focus_in, .input_panel_show]) =
          some (returnKeyLabel input_type im.is_in_form_tag_)) ∧
    (contextPresent im.context_ = true → panel_state ≠ .HIDE → return_key_type ≠ .SEARCH →
      im.input_type_ ≠ .SEARCH →
      im.SetIsInFormTag b panel_state return_key_type =
        { im with
          is_in_form_tag_ := b
          context_ := im.context_ ++
            [.input_panel_return_key_type_set (returnKeyLabel im.input_type_ b)] } ∧
      returnKeyInEffect (im.SetIsInFormTag b panel_state return_key_type).context_ =
        some (returnKeyLabel im.input_type_ b)) := by
  constructor
  · intro hgate htype
    refine ⟨layoutTable input_type, .ALPHA,
      (if input_type = .TEXT_AREA then .SENTENCE else .NONE), decide (input_type ≠ .PASSWORD),
      ShowPanel_shown env penv im input_type input_mode is_user_action hgate htype, ?_⟩
    have h := returnKeyInEffect_showCalls (showBase penv im).context_ input_type
      im.is_in_form_tag_ [] (by intro c hc; cases hc)
    simpa [showCalls] using h
  · intro hctx hpanel hkey hsearch
    have h : im.SetIsInFormTag b panel_state return_key_type =
        { im with
          is_in_form_tag_ := b
          context_ := im.context_ ++
            [.input_panel_return_key_type_set (returnKeyLabel im.input_type_ b)] } := by
      simp only [IMContextEfl.SetIsInFormTag, hctx, hpanel, hkey, returnKeyLabel, hsearch,
        IMContextEfl.imf]
      cases b <;> simp
      split <;> rfl
    refine ⟨h, ?_⟩
    rw [h]
    simp [returnKeyInEffect, List.foldl_append]

/-- C15 at a concrete input: a text field outside a form, shown on user action,
gets the Done label. -/
theorem C15_return_key_label_witness :
    ∃ im', focusedSession.ShowPanel samplePlatform samplePanelEnv .TEXT .DEFAULT true = .ok im' ∧
      returnKeyInEffect im'.context_ = some .DONE :=
  match (C15_return_key_label samplePlatform samplePanelEnv focusedSession .TEXT .DEFAULT true
      false .SHOW .DEFAULT).1 rfl (by decide) with
  | ⟨_, _, _, _, h, hk⟩ => ⟨_, h, hk⟩

/-! ## C16: the layout in effect after `UpdateInputMethodState` -/

/-- C16, refuted as stated: the same focused session, told twice that an e-mail
field has the focus, has the e-mail layout and the Default label in effect
when the call comes from a user action, and still the password layout set
earlier when it does not (the keypad needing a user action): `ShowPanel` returns
before it sets anything. -/
theorem C16_counterexample :
    passwordShownSession.focused_ = true ∧
    layoutInEffect (sessionAfter (passwordShownSession.UpdateInputMethodState samplePlatform
        samplePanelEnv freshView .EMAIL true .DEFAULT true)).context_ = some .EMAIL ∧
    layoutInEffect (sessionAfter (passwordShownSession.UpdateInputMethodState samplePlatform
        samplePanelEnv freshView .EMAIL true .DEFAULT false)).context_ = some .PASSWORD := by
  decide

/-- C16, amended: for any two focused sessions that agree on the in-form flag
and any two calls of `UpdateInputMethodState` with the same input type other
than `NONE`, each allowed to show the panel (a user action, or the keypad
allowed without one), the layout and the return-key type in effect afterwards
are the same in both runs, whatever the other arguments and the earlier
history: the layout of the table and the label of the type and the flag. -/
theorem C16_layout_deterministic_when_shown (env₁ env₂ : Platform) (penv₁ penv₂ : PanelEnv)
    (im₁ im₂ : IMContextEfl) (view₁ view₂ : RenderWidgetHostViewEfl)
    (input_type : TextInputType) (inline₁ inline₂ : Bool) (mode₁ mode₂ : TextInputMode)
    (action₁ action₂ : Bool)
    (hf₁ : im₁.focused_ = true) (hf₂ : im₂.focused_ = true)
    (hflag : im₁.is_in_form_tag_ = im₂.is_in_form_tag_) (htype : input_type ≠ .NONE)
    (hgate₁ : (action₁ || penv₁.useKeyPadWithoutUserAction) = true)
    (hgate₂ : (action₂ || penv₂.useKeyPadWithoutUserAction) = true) :
    layoutInEffect (sessionAfter (im₁.UpdateInputMethodState env₁ penv₁ view₁ input_type
        inline₁ mode₁ action₁)).context_ =
      layoutInEffect (sessionAfter (im₂.UpdateInputMethodState env₂ penv₂ view₂ input_type
        inline₂ mode₂ action₂)).context_ ∧
    returnKeyInEffect (sessionAfter (im₁.UpdateInputMethodState env₁ penv₁ view₁ input_type
        inline₁ mode₁ action₁)).context_ =
      returnKeyInEffect (sessionAfter (im₂.UpdateInputMethodState env₂ penv₂ view₂ input_type
        inline₂ mode₂ action₂)).context_ ∧
    layoutInEffect (sessionAfter (im₁.UpdateInputMethodState env₁ penv₁ view₁ input_type
        inline₁ mode₁ action₁)).context_ = some (layoutTable input_type) ∧
    returnKeyInEffect (sessionAfter (im₁.UpdateInputMethodState env₁ penv₁ view₁ input_type
        inline₁ mode₁ action₁)).context_ = some (returnKeyLabel input_type im₁.is_in_form_tag_) := by
  obtain ⟨h₁, k₁⟩ := UpdateInputMethodState_in_effect env₁ penv₁ im₁ view₁ input_type inline₁
    mode₁ action₁ hf₁ htype hgate₁
  obtain ⟨h₂, k₂⟩ := UpdateInputMethodState_in_effect env₂ penv₂ im₂ view₂ input_type inline₂
    mode₂ action₂ hf₂ htype hgate₂
  exact ⟨h₁.trans h₂.symm, k₁.trans (hflag ▸ k₂.symm), h₁, k₁⟩

/-- C16 at a concrete input: a fresh session and one with a password panel in
its history, both told on user action that an e-mail field has the focus. -/
theorem C16_layout_deterministic_when_shown_witness :
    layoutInEffect (sessionAfter (focusedSession.UpdateInputMethodState samplePlatform
        samplePanelEnv freshView .EMAIL true .DEFAULT true)).context_ =
      layoutInEffect (sessionAfter (passwordShownSession.UpdateInputMethodState samplePlatform
        samplePanelEnv loadedView .EMAIL false .NUMERIC true)).context_ :=
  (C16_layout_deterministic_when_shown samplePlatform samplePlatform samplePanelEnv
    samplePanelEnv focusedSession passwordShownSession freshView loadedView .EMAIL true false
    .DEFAULT .NUMERIC true true rfl rfl rfl (by decide) rfl rfl).1

/-! ## C17: `SetIsInFormTag` while the panel is hidden -/

/-- C17, refuted as stated: `SetIsInFormTag true` on a session outside a form,
called while the panel is hidden, records the flag before it looks at the panel;
the session state has changed, and the next `ShowPanel` for a text field sets the
Go label where it would have set Done. -/
theorem C17_counterexample :
    focusedSession.is_in_form_tag_ = false ∧
    (focusedSession.SetIsInFormTag true .HIDE .DEFAULT).is_in_form_tag_ = true ∧
    (focusedSession.ShowPanel samplePlatform samplePanelEnv .TEXT .DEFAULT true).toOption.map
        (fun im => returnKeyInEffect im.context_) = some (some .DONE) ∧
    ((focusedSession.SetIsInFormTag true .HIDE .DEFAULT).ShowPanel samplePlatform samplePanelEnv
        .TEXT .DEFAULT true).toOption.map
        (fun im => returnKeyInEffect im.context_) = some (some .GO) := by
  decide

/-- C17, amended: `SetIsInFormTag b` called while the input panel is hidden, or
while the return-key label is already Search, makes no call on the native
context (so it does not change the label) and changes nothing of the session
state but the in-form flag, which it sets to `b`; and for every `b` and every
state it leaves the commit queue, the preedit queue, the composition state, the
focused and enabled flags and the input type untouched, and sets the in-form
flag to `b`. -/
theorem C17_hidden_or_search_only_records_flag (im : IMContextEfl) (b : Bool)
    (panel_state : InputPanelState) (return_key_type : ReturnKeyType) :
    (panel_state = .HIDE ∨ return_key_type = .SEARCH →
      im.SetIsInFormTag b panel_state return_key_type = { im with is_in_form_tag_ := b }) ∧
    (im.SetIsInFormTag b panel_state return_key_type).commit_queue_ = im.commit_queue_ ∧
    (im.SetIsInFormTag b panel_state return_key_type).preedit_queue_ = im.preedit_queue_ ∧
    (im.SetIsInFormTag b panel_state return_key_type).composition_ = im.composition_ ∧
    (im.SetIsInFormTag b panel_state return_key_type).focused_ = im.focused_ ∧
    (im.SetIsInFormTag b panel_state return_key_type).enabled_ = im.enabled_ ∧
    (im.SetIsInFormTag b panel_state return_key_type).input_type_ = im.input_type_ ∧
    (im.SetIsInFormTag b panel_state return_key_type).is_in_form_tag_ = b := by
  refine ⟨?_, ?_, ?_, ?_, ?_, ?_, ?_, ?_⟩
  · intro h
    unfold IMContextEfl.SetIsInFormTag
    rcases h with h | h
    · subst h; simp
    · subst h; simp
  all_goals
    unfold IMContextEfl.SetIsInFormTag
    simp only [IMContextEfl.imf]
    repeat' split
    all_goals rfl

/-- C17 at a concrete input: the flag is set on a composing session while the
panel is hidden. -/
theorem C17_hidden_or_search_only_records_flag_witness :
    composingSession.SetIsInFormTag true .HIDE .DEFAULT =
      { composingSession with is_in_form_tag_ := true } :=
  (C17_hidden_or_search_only_records_flag composingSession true .HIDE .DEFAULT).1 (Or.inl rfl)

/-! ## C18: focus changes in the target focus state -/

/-- C18, refuted as stated: `OnFocusIn` on a session that is already focused
cancels the composition before it looks at the focused flag; the queued commit
and preedit of the session and the key queues of the view are gone. -/
theorem C18_counterexample :
    composingSession.focused_ = true ∧
    composingSession.commit_queue_ = [[97]] ∧
    loadedView.keyupev_queue_ = [1, 2] ∧
    (composingSession.OnFocusIn loadedView).1.commit_queue_ = [] ∧
    (composingSession.OnFocusIn loadedView).1.preedit_queue_ = [] ∧
    (composingSession.OnFocusIn loadedView).2.keyupev_queue_ = [] ∧
    (composingSession.OnFocusIn loadedView).2.keydownev_queue_ = [] := by
  decide

/-- C18, amended: `OnFocusOut` on a session whose focused flag is false leaves
the session and the view unchanged.  `OnFocusIn` on a session whose focused flag
is true is exactly `CancelComposition`: the flags, the input type and the
composition state are unchanged and nothing is sent to the host, but the commit
queue, the preedit queue and the view's key-up and key-down queues are emptied
and the native context is reset. -/
theorem C18_focus_calls_in_target_state (im : IMContextEfl) (view_ : RenderWidgetHostViewEfl) :
    (im.focused_ = false → im.OnFocusOut view_ = (im, view_)) ∧
    (im.focused_ = true →
      im.OnFocusIn view_ = im.CancelComposition view_ ∧
      im.OnFocusIn view_ =
        ({ im with commit_queue_ := [], preedit_queue_ := [],
                   context_ := im.context_ ++ [.reset] },
         { view_ with keyupev_queue_ := [], keydownev_queue_ := [] })) := by
  constructor
  · intro h
    simp [IMContextEfl.OnFocusOut, h]
  · intro h
    have hc : (im.CancelComposition view_).1.focused_ = true := h
    constructor
    · unfold IMContextEfl.OnFocusIn
      simp only [hc, if_true]
    · unfold IMContextEfl.OnFocusIn
      simp only [hc, if_true]
      simp [IMContextEfl.CancelComposition, IMContextEfl.ClearQueues, IMContextEfl.imf,
        RenderWidgetHostViewEfl.ClearQueues]

/-- C18 at a concrete input: a focus-out on the unfocused initial session, with
entries in the view's queues. -/
theorem C18_focus_calls_in_target_state_witness :
    IMContextEfl.init.OnFocusOut loadedView = (IMContextEfl.init, loadedView) :=
  (C18_focus_calls_in_target_state IMContextEfl.init loadedView).1 rfl

/-! ## C20: the composition `h`, `hi`, commit `hi`, end to end -/

theorem fakeKeyEvent_type (env : Platform) (buf : CString) :
    (fakeKeyEvent env buf).type = .KeyDown := rfl

/-- C20: from a focused, idle session in a view with a host, no key-down filter
call running, the input method reports the preedit strings `h` and `hi` and then
commits `hi`, and each of the three synthetic key-downs forwarded for them (which
carry no modifier bits) is acknowledged as not consumed, the acknowledgements
arriving in any order compatible with the forwarding.  At the end exactly one
`ImeConfirmComposition` call has been added, with the text `hi`; the session's
composition state is empty; and the commit queue, the preedit queue, the key-up
queue and the key-down queue are all empty. -/
theorem C20_hi_end_to_end (env : Platform) (v : RenderWidgetHostViewEfl) (im : IMContextEfl)
    (hhost : v.host_ = true) (him : v.im_context_ = some im) (hfocus : im.focused_ = true)
    (hguard : im.is_handling_keydown_ = false) (hidle : v.Idle)
    (hmod : ∀ buf, (fakeKeyEvent env buf).modifiers = 0)
    (schedule : List Event) (hs : schedule ∈ hiSchedules env) :
    confirmedTexts (v.run env schedule).host_calls =
      confirmedTexts v.host_calls ++ [env.UTF8ToUTF16 textHi] ∧
    (v.run env schedule).keyupev_queue_ = [] ∧
    (v.run env schedule).keydownev_queue_ = [] ∧
    ∃ im', (v.run env schedule).im_context_ = some im' ∧
      im'.composition_ = { text := [], underlines := [], selection := { start := 0, finish := 0 } } ∧
      im'.commit_queue_ = [] ∧ im'.preedit_queue_ = [] ∧ im'.focused_ = true := by
  obtain ⟨host, calls, imo, ku, kd, flag⟩ := v
  obtain ⟨ctx, foc, en, shown, form, handling, ty, comp, cq, pq⟩ := im
  obtain ⟨im₀, him₀, hcq, hpq, hku, hkd, hflag⟩ := hidle
  simp only at hhost him hfocus hguard him₀ hku hkd hflag
  subst hhost hfocus hguard hku hkd hflag him
  simp only [Option.some.injEq] at him₀
  subst him₀
  simp only at hcq hpq
  subst hcq hpq
  simp only [hiSchedules, List.mem_cons, List.mem_singleton, List.not_mem_nil, or_false] at hs
  rcases hs with rfl | rfl | rfl | rfl | rfl <;>
    simp [RenderWidgetHostViewEfl.run, RenderWidgetHostViewEfl.step, preeditH, preeditHi, commitHi,
      ackNotConsumed, RenderWidgetHostViewEfl.withSession, RenderWidgetHostViewEfl.store,
      IMContextEfl.deliver, IMContextEfl.OnPreeditChanged, IMContextEfl.OnCommit,
      IMContextEfl.SendFakeCompositionKeyEvent, RenderWidgetHostViewEfl.call,
      RenderWidgetHostViewEfl.KeyUpEventQueuePush, RenderWidgetHostViewEfl.OnDidInputEventHandled,
      isKeyboardEventType, NativeWebKeyboardEvent.toWebInputEvent, fakeKeyEvent_type, hmod,
      RenderWidgetHostViewEfl.HandleCommitQueue, RenderWidgetHostViewEfl.HandlePreeditQueue,
      RenderWidgetHostViewEfl.HandleKeyUpQueue, RenderWidgetHostViewEfl.HandleKeyDownQueue,
      RenderWidgetHostViewEfl.SendCompositionKeyUpEvent, IMContextEfl.GetCommitQueue,
      IMContextEfl.GetPreeditQueue, IMContextEfl.CommitQueuePop, IMContextEfl.PreeditQueuePop,
      CompositionText.Clear, confirmedTexts_append, confirmedTexts]

/-- C20 at a concrete input: the focused initial session; the first preedit is
acknowledged before the second arrives. -/
theorem C20_hi_end_to_end_witness :
    focusedView.Idle ∧
    confirmedTexts (focusedView.run samplePlatform
      [preeditH, ackNotConsumed samplePlatform [104], preeditHi, commitHi,
        ackNotConsumed samplePlatform textHi, ackNotConsumed samplePlatform textHi]).host_calls =
      [[104, 105]] ∧
    (focusedView.run samplePlatform
      [preeditH, ackNotConsumed samplePlatform [104], preeditHi, commitHi,
        ackNotConsumed samplePlatform textHi, ackNotConsumed samplePlatform textHi]).keyupev_queue_ =
      [] :=
  have h := C20_hi_end_to_end samplePlatform focusedView focusedSession rfl rfl rfl rfl
    ⟨focusedSession, rfl, rfl, rfl, rfl, rfl, rfl⟩ (fun _ => rfl)
    [preeditH, ackNotConsumed samplePlatform [104], preeditHi, commitHi,
      ackNotConsumed samplePlatform textHi, ackNotConsumed samplePlatform textHi]
    (by simp [hiSchedules])
  ⟨⟨focusedSession, rfl, rfl, rfl, rfl, rfl, rfl⟩, h.1, h.2.1⟩

/-! ## C21: no input method -/

/-- C21: `Create` returns the null session when there is no default context id
or the native context cannot be added.  On a view with a null session a hardware
key-down and a hardware key-up each make exactly one call, forwarding the event
as the key-event factory built it (the sequencer neither queues it nor marks it
as a system key), and change nothing else; and an acknowledgement of any input
event leaves the view as it was, no call made. -/
theorem C21_null_session_forwards_at_once (env : Platform)
    (default_context_id : Option CString) (context_add : CString → Bool)
    (v : RenderWidgetHostViewEfl) (event : EvasKeyEvent) (filter : FilterOutcome)
    (e : WebInputEvent) (processed : Bool) :
    ((default_context_id = none ∨ ∃ id, default_context_id = some id ∧ context_add id = false) →
      IMContextEfl.Create default_context_id context_add = none) ∧
    (v.im_context_ = none →
      v.HandleEvasEvent_KeyDown env event filter =
        { v with host_calls := v.host_calls ++
            [.ForwardKeyboardEvent (env.toWebKeyboardEvent event)] } ∧
      v.HandleEvasEvent_KeyUp env event filter =
        { v with host_calls := v.host_calls ++
            [.ForwardKeyboardEvent (env.toWebKeyboardEventUp event)] } ∧
      v.OnDidInputEventHandled env e processed = v) := by
  constructor
  · rintro (h | ⟨id, h, hadd⟩)
    · simp [IMContextEfl.Create, CreateIMFContext, h]
    · simp [IMContextEfl.Create, CreateIMFContext, h, hadd]
  · intro h
    refine ⟨?_, ?_, OnDidInputEventHandled_none env v e processed h⟩
    · simp [RenderWidgetHostViewEfl.HandleEvasEvent_KeyDown, h, RenderWidgetHostViewEfl.call]
    · simp [RenderWidgetHostViewEfl.HandleEvasEvent_KeyUp, h, RenderWidgetHostViewEfl.call]

/-- C21 at a concrete input: no default context id; the key `a` on a view
without a session, whatever the filter outcome passed. -/
theorem C21_null_session_forwards_at_once_witness :
    IMContextEfl.Create none (fun _ => true) = none ∧
    sessionlessView.im_context_ = none ∧
    (sessionlessView.HandleEvasEvent_KeyDown samplePlatform keyA
        { callbacks := [.commit [97]], filtered := true }).host_calls =
      [.ForwardKeyboardEvent (samplePlatform.toWebKeyboardEvent keyA)] ∧
    sessionlessView.OnDidInputEventHandled samplePlatform plainKeyDown false = sessionlessView :=
  have h := C21_null_session_forwards_at_once samplePlatform none (fun _ => true)
    sessionlessView keyA { callbacks := [.commit [97]], filtered := true } plainKeyDown false
  ⟨h.1 (Or.inl rfl), rfl, congrArg RenderWidgetHostViewEfl.host_calls (h.2 rfl).1, (h.2 rfl).2.2⟩

/-! ## C22: `UpdateInputMethodState` and the focus assertion -/

/-- Where `DCHECK(focused_)` is compiled in and the session is not focused, the
four-argument `UpdateInputMethodState` stops at the assertion. -/
theorem UpdateInputMethodState_unfocused (env : Platform) (penv : PanelEnv)
    (im : IMContextEfl) (view_ : RenderWidgetHostViewEfl) (input_type : TextInputType)
    (can_compose_inline : Bool) (input_mode : TextInputMode) (is_user_action : Bool)
    (hd : env.dcheck_is_on = true) (hf : im.focused_ = false) :
    im.UpdateInputMethodState env penv view_ input_type can_compose_inline input_mode
        is_user_action =
      .error (updateBase im input_type, view_.ClearQueues) := by
  have hf' : (env.dcheck_is_on && !(updateBase im input_type).focused_) = true := by
    have : (updateBase im input_type).focused_ = false := hf
    simp [hd, this]
  simp only [IMContextEfl.UpdateInputMethodState]
  change (if (env.dcheck_is_on && !(updateBase im input_type).focused_) = true then _ else _) = _
  rw [hf']
  simp [updateBase]

/-- C22: in a build where the assertion is compiled in (a debug build), for
every input type, the four-argument `UpdateInputMethodState` on a session whose
focused flag is false fails the fatal assertion `DCHECK(focused_)`, and does not
change panel visibility: the only call made on the native context by then is the
reset, no focus-in, focus-out, show or hide.  A call on a focused session never
fails the assertion: it returns. -/
theorem C22_focus_assertion (env : Platform) (penv : PanelEnv) (im : IMContextEfl)
    (view_ : RenderWidgetHostViewEfl) (input_type : TextInputType) (can_compose_inline : Bool)
    (input_mode : TextInputMode) (is_user_action : Bool) (hd : env.dcheck_is_on = true) :
    (im.focused_ = false →
      im.UpdateInputMethodState env penv view_ input_type can_compose_inline input_mode
          is_user_action =
        .error ({ im with
                  input_type_ := input_type, enabled_ := decide (input_type ≠ .NONE),
                  commit_queue_ := [], preedit_queue_ := [],
                  context_ := im.context_ ++ [.reset] },
                { view_ with keyupev_queue_ := [], keydownev_queue_ := [] })) ∧
    (im.focused_ = true →
      ∃ r, im.UpdateInputMethodState env penv view_ input_type can_compose_inline input_mode
          is_user_action = .ok r) := by
  refine ⟨?_, ?_⟩
  · intro hf
    rw [UpdateInputMethodState_unfocused env penv im view_ input_type can_compose_inline
      input_mode is_user_action hd hf]
    simp [updateBase, IMContextEfl.ClearQueues, IMContextEfl.imf,
      RenderWidgetHostViewEfl.ClearQueues]
  · intro hf
    by_cases htype : input_type = .NONE
    · subst htype
      exact ⟨_, UpdateInputMethodState_none env penv im view_ can_compose_inline input_mode
        is_user_action hf⟩
    · cases hgate : (is_user_action || penv.useKeyPadWithoutUserAction) with
      | true =>
        exact ⟨_, UpdateInputMethodState_shown env penv im view_ input_type can_compose_inline
          input_mode is_user_action hf htype hgate⟩
      | false =>
        exact ⟨_, UpdateInputMethodState_gated env penv im view_ input_type can_compose_inline
          input_mode is_user_action hf htype hgate⟩

/-- C22 at a concrete input: a debug build, the session as constructed (not
focused), a text field. -/
theorem C22_focus_assertion_witness :
    samplePlatform.dcheck_is_on = true ∧ IMContextEfl.init.focused_ = false ∧
    IMContextEfl.init.UpdateInputMethodState samplePlatform samplePanelEnv loadedView .TEXT true
        .DEFAULT true =
      .error ({ IMContextEfl.init with
                input_type_ := .TEXT, enabled_ := true, context_ := [.reset] },
              { loadedView with keyupev_queue_ := [], keydownev_queue_ := [] }) :=
  ⟨rfl, rfl,
    (C22_focus_assertion samplePlatform samplePanelEnv IMContextEfl.init loadedView .TEXT true
      .DEFAULT true rfl).1 rfl⟩

/-! ## C23: a preedit event replaces the composition state -/

/-- C23: for every previous composition state and every non-null preedit string,
after `OnPreeditChanged` the composition text is the converted string, there is
exactly one underline, from 0 to the length of the text, black and not thick, the
selection is the collapsed range at that length, and this state has been appended
to the back of the preedit queue; nothing of the previous composition state is
kept.  When the preedit string is null the composition state is empty, nothing is
enqueued and the view is left alone. -/
theorem C23_preedit_replaces_composition (env : Platform) (im : IMContextEfl)
    (v : RenderWidgetHostViewEfl) (buf : CString) :
    (im.OnPreeditChanged env v (some buf)).1.composition_ =
      { text := env.UTF8ToUTF16 buf
        underlines := [{ start_offset := 0, end_offset := (env.UTF8ToUTF16 buf).length,
                         color := SK_ColorBLACK, thick := false }]
        selection := { start := (env.UTF8ToUTF16 buf).length,
                       finish := (env.UTF8ToUTF16 buf).length } } ∧
    (im.OnPreeditChanged env v (some buf)).1.preedit_queue_ =
      im.preedit_queue_ ++ [(im.OnPreeditChanged env v (some buf)).1.composition_] ∧
    (im.OnPreeditChanged env v (some buf)).1.commit_queue_ = im.commit_queue_ ∧
    im.OnPreeditChanged env v none =
      ({ im with composition_ :=
          { text := [], underlines := [], selection := { start := 0, finish := 0 } } }, v) := by
  simp [IMContextEfl.OnPreeditChanged, CompositionText.Clear]

/-! ## C24: draining empty queues -/

theorem HandleCommitQueueTraced_fst (v : RenderWidgetHostViewEfl) (processed : Bool) :
    (v.HandleCommitQueueTraced processed).map Prod.fst = some (v.HandleCommitQueue processed) := by
  obtain ⟨host, calls, imo, ku, kd, flag⟩ := v
  cases imo with
  | none =>
    simp [RenderWidgetHostViewEfl.HandleCommitQueueTraced,
      RenderWidgetHostViewEfl.HandleCommitQueue]
  | some im =>
    obtain ⟨ctx, foc, en, shown, form, handling, ty, comp, cq, pq⟩ := im
    cases processed <;> cases cq <;>
      simp [RenderWidgetHostViewEfl.HandleCommitQueueTraced,
        RenderWidgetHostViewEfl.HandleCommitQueue, IMContextEfl.GetCommitQueue]

theorem HandlePreeditQueueTraced_fst (v : RenderWidgetHostViewEfl) (processed : Bool) :
    (v.HandlePreeditQueueTraced processed).map Prod.fst =
      some (v.HandlePreeditQueue processed) := by
  obtain ⟨host, calls, imo, ku, kd, flag⟩ := v
  cases imo with
  | none =>
    simp [RenderWidgetHostViewEfl.HandlePreeditQueueTraced,
      RenderWidgetHostViewEfl.HandlePreeditQueue]
  | some im =>
    obtain ⟨ctx, foc, en, shown, form, handling, ty, comp, cq, pq⟩ := im
    cases processed <;> cases pq <;>
      simp [RenderWidgetHostViewEfl.HandlePreeditQueueTraced,
        RenderWidgetHostViewEfl.HandlePreeditQueue, IMContextEfl.GetPreeditQueue]

theorem HandleKeyUpQueueTraced_fst (env : Platform) (v : RenderWidgetHostViewEfl) :
    (v.HandleKeyUpQueueTraced env).map Prod.fst = some (v.HandleKeyUpQueue env) := by
  obtain ⟨host, calls, imo, ku, kd, flag⟩ := v
  cases imo <;> cases ku <;>
    simp [RenderWidgetHostViewEfl.HandleKeyUpQueueTraced, RenderWidgetHostViewEfl.HandleKeyUpQueue]

theorem HandleKeyDownQueueTraced_fst (v : RenderWidgetHostViewEfl) :
    v.HandleKeyDownQueueTraced.map Prod.fst = some v.HandleKeyDownQueue := by
  obtain ⟨host, calls, imo, ku, kd, flag⟩ := v
  cases imo <;> cases kd <;>
    simp [RenderWidgetHostViewEfl.HandleKeyDownQueueTraced,
      RenderWidgetHostViewEfl.HandleKeyDownQueue]

theorem thenTraced_fst (r : Option (RenderWidgetHostViewEfl × List QueueOp))
    (f : RenderWidgetHostViewEfl → Option (RenderWidgetHostViewEfl × List QueueOp))
    (a : RenderWidgetHostViewEfl) (g : RenderWidgetHostViewEfl → RenderWidgetHostViewEfl)
    (hr : r.map Prod.fst = some a) (hf : ∀ v, (f v).map Prod.fst = some (g v)) :
    (thenTraced r f).map Prod.fst = some (g a) := by
  rcases r with _ | ⟨v, ops⟩
  · simp at hr
  · simp only [Option.map_some', Option.some.injEq] at hr
    subst hr
    have h := hf v
    rcases hfv : f v with _ | ⟨v', ops'⟩
    · rw [hfv] at h; simp at h
    · rw [hfv] at h
      simp only [Option.map_some', Option.some.injEq] at h
      simp [thenTraced, hfv, h]

theorem drainCycleTraced_fst (env : Platform) (v : RenderWidgetHostViewEfl) (processed : Bool) :
    (v.drainCycleTraced env processed).map Prod.fst = some (v.drainCycle env processed) := by
  unfold RenderWidgetHostViewEfl.drainCycleTraced RenderWidgetHostViewEfl.drainCycle
  exact thenTraced_fst _ _ _ (fun v => v.HandleKeyDownQueue)
    (thenTraced_fst _ _ _ (fun v => v.HandleKeyUpQueue env)
      (thenTraced_fst _ _ _ (fun v => v.HandlePreeditQueue processed)
        (HandleCommitQueueTraced_fst v processed)
        (fun v => HandlePreeditQueueTraced_fst v processed))
      (fun v => HandleKeyUpQueueTraced_fst env v))
    (fun v => HandleKeyDownQueueTraced_fst v)

/-- The handler with its queue operations listed is the handler: it never calls
`front()` on an empty queue, and it leaves the view as `OnDidInputEventHandled`
does. -/
theorem OnDidInputEventHandledTraced_fst (env : Platform) (v : RenderWidgetHostViewEfl)
    (e : WebInputEvent) (processed : Bool) :
    (v.OnDidInputEventHandledTraced env e processed).map Prod.fst =
      some (v.OnDidInputEventHandled env e processed) := by
  unfold RenderWidgetHostViewEfl.OnDidInputEventHandledTraced
    RenderWidgetHostViewEfl.OnDidInputEventHandled
  split
  · rfl
  · split
    · split
      · split
        · rfl
        · cases hflag : v.is_modifier_key_ with
          | false =>
            simp only [Bool.false_eq_true, if_false]
            exact thenTraced_fst _ _ v (fun v => v.drainCycle env processed) rfl
              (fun v => drainCycleTraced_fst env v processed)
          | true =>
            simp only [if_true]
            exact thenTraced_fst _ _ _ (fun v => v.drainCycle env processed)
              (thenTraced_fst _ _ _ (fun v => { v with is_modifier_key_ := false })
                (drainCycleTraced_fst env v processed) (fun _ => rfl))
              (fun v => drainCycleTraced_fst env v processed)
      · rfl
    · rfl

/-- A drain cycle on a view whose four queues are empty changes nothing. -/
theorem drainCycle_empty (env : Platform) (v : RenderWidgetHostViewEfl) (processed : Bool)
    (hc : commitQ v = []) (hp : preeditQ v = []) (hku : v.keyupev_queue_ = [])
    (hkd : v.keydownev_queue_ = []) :
    v.drainCycle env processed = v := by
  obtain ⟨host, calls, imo, ku, kd, flag⟩ := v
  simp only at hku hkd
  subst hku hkd
  cases imo with
  | none =>
    simp [RenderWidgetHostViewEfl.drainCycle, RenderWidgetHostViewEfl.HandleCommitQueue,
      RenderWidgetHostViewEfl.HandlePreeditQueue, RenderWidgetHostViewEfl.HandleKeyUpQueue,
      RenderWidgetHostViewEfl.HandleKeyDownQueue]
  | some im =>
    obtain ⟨ctx, foc, en, shown, form, handling, ty, comp, cq, pq⟩ := im
    simp only [commitQ, preeditQ] at hc hp
    subst hc hp
    cases processed <;>
      simp [RenderWidgetHostViewEfl.drainCycle, RenderWidgetHostViewEfl.HandleCommitQueue,
        RenderWidgetHostViewEfl.HandlePreeditQueue, RenderWidgetHostViewEfl.HandleKeyUpQueue,
        RenderWidgetHostViewEfl.HandleKeyDownQueue, IMContextEfl.GetCommitQueue,
        IMContextEfl.GetPreeditQueue]

/-- On a view whose four queues are empty, the queue operations of a drain cycle
are `empty()` tests only, and the view is left as it is. -/
theorem drainCycleTraced_empty (env : Platform) (v : RenderWidgetHostViewEfl) (processed : Bool)
    (hc : commitQ v = []) (hp : preeditQ v = []) (hku : v.keyupev_queue_ = [])
    (hkd : v.keydownev_queue_ = []) :
    ∃ ops, v.drainCycleTraced env processed = some (v, ops) ∧ ∀ op ∈ ops, ∃ q, op = .empty q := by
  obtain ⟨host, calls, imo, ku, kd, flag⟩ := v
  simp only at hku hkd
  subst hku hkd
  cases imo with
  | none =>
    exact ⟨[], by
      simp [RenderWidgetHostViewEfl.drainCycleTraced, thenTraced,
        RenderWidgetHostViewEfl.HandleCommitQueueTraced,
        RenderWidgetHostViewEfl.HandlePreeditQueueTraced,
        RenderWidgetHostViewEfl.HandleKeyUpQueueTraced,
        RenderWidgetHostViewEfl.HandleKeyDownQueueTraced], by simp⟩
  | some im =>
    obtain ⟨ctx, foc, en, shown, form, handling, ty, comp, cq, pq⟩ := im
    simp only [commitQ, preeditQ] at hc hp
    subst hc hp
    refine ⟨[.empty .commit_queue, .empty .preedit_queue, .empty .keyupev_queue,
      .empty .keydownev_queue], ?_, ?_⟩
    · cases processed <;>
        simp [RenderWidgetHostViewEfl.drainCycleTraced, thenTraced,
          RenderWidgetHostViewEfl.HandleCommitQueueTraced,
          RenderWidgetHostViewEfl.HandlePreeditQueueTraced,
          RenderWidgetHostViewEfl.HandleKeyUpQueueTraced,
          RenderWidgetHostViewEfl.HandleKeyDownQueueTraced, IMContextEfl.GetCommitQueue,
          IMContextEfl.GetPreeditQueue]
    · intro op hop
      simp only [List.mem_cons, List.mem_singleton, List.not_mem_nil, or_false] at hop
      rcases hop with h | h | h | h <;> exact ⟨_, h⟩

/-- On a view whose four queues are empty, the queue operations of an
acknowledgement are `empty()` tests only. -/
theorem OnDidInputEventHandledTraced_empty (env : Platform) (v : RenderWidgetHostViewEfl)
    (e : WebInputEvent) (processed : Bool)
    (hc : commitQ v = []) (hp : preeditQ v = []) (hku : v.keyupev_queue_ = [])
    (hkd : v.keydownev_queue_ = []) :
    ∃ ops, v.OnDidInputEventHandledTraced env e processed =
        some (v.OnDidInputEventHandled env e processed, ops) ∧
      ∀ op ∈ ops, ∃ q, op = .empty q := by
  have hfst := OnDidInputEventHandledTraced_fst env v e processed
  suffices h : ∃ v' ops, v.OnDidInputEventHandledTraced env e processed = some (v', ops) ∧
      ∀ op ∈ ops, ∃ q, op = .empty q by
    obtain ⟨v', ops, hv, hops⟩ := h
    rw [hv] at hfst
    simp only [Option.map_some', Option.some.injEq] at hfst
    exact ⟨ops, by rw [hv, hfst], hops⟩
  obtain ⟨ops, hd, hops⟩ := drainCycleTraced_empty env v processed hc hp hku hkd
  have hflagged : ∀ b, commitQ ({ v with is_modifier_key_ := b } : RenderWidgetHostViewEfl) = [] ∧
      preeditQ ({ v with is_modifier_key_ := b } : RenderWidgetHostViewEfl) = [] := fun _ => ⟨hc, hp⟩
  obtain ⟨ops', hd', hops'⟩ := drainCycleTraced_empty env
    ({ v with is_modifier_key_ := false }) processed (hflagged false).1 (hflagged false).2 hku hkd
  unfold RenderWidgetHostViewEfl.OnDidInputEventHandledTraced
  split
  · exact ⟨_, [], rfl, by simp⟩
  · split
    · split
      · split
        · exact ⟨_, [], rfl, by simp⟩
        · cases hflag : v.is_modifier_key_ with
          | false =>
            refine ⟨v, [] ++ ops, ?_, ?_⟩
            · simp [thenTraced, hd]
            · simpa using hops
          | true =>
            refine ⟨{ v with is_modifier_key_ := false }, (ops ++ []) ++ ops', ?_, ?_⟩
            · simp [thenTraced, hd, hd']
            · intro op hop
              simp only [List.append_nil, List.mem_append] at hop
              rcases hop with h | h
              · exact hops op h
              · exact hops' op h
      · exact ⟨_, [], rfl, by simp⟩
    · exact ⟨_, [], rfl, by simp⟩

/-- C24: an acknowledgement that arrives when the commit queue, the preedit
queue, the key-up queue and the key-down queue are all empty makes no call on the
host (no confirm-composition, set-composition or forward-keyboard-event call),
reads no queue front (the only queue operations it makes are `empty()` tests, no
`front()` and no `pop()`), leaves the session as it is and the four queues empty,
for either value of `processed`; at most the modifier flag changes. -/
theorem C24_ack_on_empty_queues (env : Platform) (v : RenderWidgetHostViewEfl)
    (e : WebInputEvent) (processed : Bool)
    (hc : commitQ v = []) (hp : preeditQ v = []) (hku : v.keyupev_queue_ = [])
    (hkd : v.keydownev_queue_ = []) :
    (v.OnDidInputEventHandled env e processed).host_calls = v.host_calls ∧
    (v.OnDidInputEventHandled env e processed).im_context_ = v.im_context_ ∧
    commitQ (v.OnDidInputEventHandled env e processed) = [] ∧
    preeditQ (v.OnDidInputEventHandled env e processed) = [] ∧
    (v.OnDidInputEventHandled env e processed).keyupev_queue_ = [] ∧
    (v.OnDidInputEventHandled env e processed).keydownev_queue_ = [] ∧
    (v.OnDidInputEventHandled env e processed = v ∨
      v.OnDidInputEventHandled env e processed = { v with is_modifier_key_ := true } ∨
      v.OnDidInputEventHandled env e processed = { v with is_modifier_key_ := false }) ∧
    (∃ ops, v.OnDidInputEventHandledTraced env e processed =
        some (v.OnDidInputEventHandled env e processed, ops) ∧
      (∀ op ∈ ops, ∃ q, op = .empty q) ∧
      ∀ q, QueueOp.front q ∉ ops ∧ QueueOp.pop q ∉ ops) := by
  have hd := drainCycle_empty env v processed hc hp hku hkd
  have htrace : ∃ ops, v.OnDidInputEventHandledTraced env e processed =
        some (v.OnDidInputEventHandled env e processed, ops) ∧
      (∀ op ∈ ops, ∃ q, op = .empty q) ∧
      ∀ q, QueueOp.front q ∉ ops ∧ QueueOp.pop q ∉ ops := by
    obtain ⟨ops, h, hops⟩ := OnDidInputEventHandledTraced_empty env v e processed hc hp hku hkd
    refine ⟨ops, h, hops, fun q => ⟨fun hm => ?_, fun hm => ?_⟩⟩
    · obtain ⟨q', hq'⟩ := hops _ hm
      cases hq'
    · obtain ⟨q', hq'⟩ := hops _ hm
      cases hq'
  have key : v.OnDidInputEventHandled env e processed = v ∨
      v.OnDidInputEventHandled env e processed = { v with is_modifier_key_ := true } ∨
      v.OnDidInputEventHandled env e processed = { v with is_modifier_key_ := false } := by
    rcases ack_cases env v e processed with h | h | h | h
    · exact Or.inl h
    · exact Or.inr (Or.inl h)
    · exact Or.inl (h.trans hd)
    · right; right
      rw [h, hd, hd]
  refine ⟨?_, ?_, ?_, ?_, ?_, ?_, key, htrace⟩ <;>
    rcases key with h | h | h <;> rw [h] <;> first | rfl | assumption

/-- C24 at a concrete input: a late acknowledgement, not consumed, on a view
whose queues `Reset` has just emptied: no call, and four `empty()` tests. -/
theorem C24_ack_on_empty_queues_witness :
    ((loadedView.step samplePlatform .reset).OnDidInputEventHandled samplePlatform
        plainKeyDown false).host_calls = loadedView.host_calls ∧
    ((loadedView.step samplePlatform .reset).OnDidInputEventHandled samplePlatform
        plainKeyDown false).keyupev_queue_ = [] ∧
    ((loadedView.step samplePlatform .reset).OnDidInputEventHandledTraced samplePlatform
        plainKeyDown false).map Prod.snd =
      some [.empty .commit_queue, .empty .preedit_queue, .empty .keyupev_queue,
        .empty .keydownev_queue] ∧
    (loadedView.OnDidInputEventHandledTraced samplePlatform plainKeyDown false).map Prod.snd =
      some [.empty .commit_queue, .front .commit_queue, .pop .commit_queue,
        .empty .preedit_queue, .front .preedit_queue, .pop .preedit_queue,
        .empty .keyupev_queue, .front .keyupev_queue, .pop .keyupev_queue,
        .empty .keydownev_queue, .front .keydownev_queue, .pop .keydownev_queue] :=
  have h := C24_ack_on_empty_queues samplePlatform (loadedView.step samplePlatform .reset)
    plainKeyDown false (by decide) (by decide) (by decide) (by decide)
  ⟨h.1, h.2.2.2.2.1, by decide, by decide⟩

/-! ## Synthetic key events and the key queues -/

theorem afterFakeKeys_nil (env : Platform) (v : RenderWidgetHostViewEfl) :
    afterFakeKeys env v [] = v := by
  simp [afterFakeKeys]

theorem afterFakeKeys_append (env : Platform) (v : RenderWidgetHostViewEfl)
    (bufs more : List CString) :
    afterFakeKeys env (afterFakeKeys env v bufs) more = afterFakeKeys env v (bufs ++ more) := by
  simp [afterFakeKeys]

/-- Sending the synthetic key event either leaves the view alone or forwards one
synthetic key-down and pushes its key code. -/
theorem SendFake_view (env : Platform) (im : IMContextEfl) (v : RenderWidgetHostViewEfl)
    (buf : Option CString) :
    ∃ bufs, im.SendFakeCompositionKeyEvent env v buf = afterFakeKeys env v bufs := by
  unfold IMContextEfl.SendFakeCompositionKeyEvent
  split
  · exact ⟨[], (afterFakeKeys_nil env v).symm⟩
  · split
    · exact ⟨[], (afterFakeKeys_nil env v).symm⟩
    · rename_i b
      dsimp only
      split
      · exact ⟨[], (afterFakeKeys_nil env v).symm⟩
      · exact ⟨[b], by simp [afterFakeKeys, RenderWidgetHostViewEfl.call,
          RenderWidgetHostViewEfl.KeyUpEventQueuePush]⟩

theorem deliver_view (env : Platform) (im : IMContextEfl) (v : RenderWidgetHostViewEfl)
    (cb : ImfCallback) :
    ∃ bufs, (im.deliver env v cb).2 = afterFakeKeys env v bufs := by
  cases cb with
  | commit text =>
    simp only [IMContextEfl.deliver, IMContextEfl.OnCommit]
    exact SendFake_view env _ v _
  | preeditChanged buffer =>
    cases buffer with
    | none => exact ⟨[], by simp [IMContextEfl.deliver, IMContextEfl.OnPreeditChanged, afterFakeKeys]⟩
    | some buf =>
      simp only [IMContextEfl.deliver, IMContextEfl.OnPreeditChanged]
      exact SendFake_view env _ v _

theorem deliverAll_view (env : Platform) (im : IMContextEfl) (v : RenderWidgetHostViewEfl)
    (cbs : List ImfCallback) :
    ∃ bufs, (im.deliverAll env v cbs).2 = afterFakeKeys env v bufs := by
  induction cbs generalizing im v with
  | nil => exact ⟨[], by simp [IMContextEfl.deliverAll, afterFakeKeys]⟩
  | cons cb rest ih =>
    obtain ⟨b₁, h₁⟩ := deliver_view env im v cb
    obtain ⟨b₂, h₂⟩ := ih (im.deliver env v cb).1 (im.deliver env v cb).2
    refine ⟨b₁ ++ b₂, ?_⟩
    rw [IMContextEfl.deliverAll]
    show ((im.deliver env v cb).1.deliverAll env (im.deliver env v cb).2 rest).2 = _
    rw [h₂, h₁, afterFakeKeys_append]

/-! ## C25: the key-down queue is never longer than the key-up queue -/

theorem drainCycle_covered (env : Platform) (v : RenderWidgetHostViewEfl) (processed : Bool)
    (h : v.KeyDownsCovered) : (v.drainCycle env processed).KeyDownsCovered := by
  rcases Option.eq_none_or_eq_some v.im_context_ with him | ⟨im, him⟩
  · rw [drainCycle_none env v processed him]; exact h
  · unfold RenderWidgetHostViewEfl.KeyDownsCovered at *
    rw [drainCycle_keyup env v im processed him, drainCycle_keydown env v im processed him]
    simp only [List.length_tail]
    omega

theorem withSession_covered (v : RenderWidgetHostViewEfl)
    (f : IMContextEfl → RenderWidgetHostViewEfl → IMContextEfl × RenderWidgetHostViewEfl)
    (h : v.KeyDownsCovered) (hf : ∀ im, (f im v).2.KeyDownsCovered) :
    (v.withSession f).KeyDownsCovered := by
  unfold RenderWidgetHostViewEfl.withSession
  split
  · exact h
  · exact hf _

theorem afterFakeKeys_covered (env : Platform) (v : RenderWidgetHostViewEfl)
    (bufs : List CString) (h : v.KeyDownsCovered) : (afterFakeKeys env v bufs).KeyDownsCovered := by
  unfold RenderWidgetHostViewEfl.KeyDownsCovered at *
  simp only [afterFakeKeys, List.length_append, List.length_map]
  omega

theorem ClearQueues_covered (v : RenderWidgetHostViewEfl) : v.ClearQueues.KeyDownsCovered := by
  simp [RenderWidgetHostViewEfl.KeyDownsCovered, RenderWidgetHostViewEfl.ClearQueues]

/-- Every event keeps the key-down queue no longer than the key-up queue. -/
theorem step_covered (env : Platform) (v : RenderWidgetHostViewEfl) (ev : Event)
    (h : v.KeyDownsCovered) : (v.step env ev).KeyDownsCovered := by
  cases ev with
  | keyDown event filter =>
    simp only [RenderWidgetHostViewEfl.step]
    rcases Option.eq_none_or_eq_some v.im_context_ with him | ⟨im, him⟩
    · simpa [RenderWidgetHostViewEfl.HandleEvasEvent_KeyDown, him, RenderWidgetHostViewEfl.call,
        RenderWidgetHostViewEfl.KeyDownsCovered] using h
    · unfold RenderWidgetHostViewEfl.KeyDownsCovered at *
      rw [keyDown_keyup env v im event filter him, keyDown_keydown env v im event filter him]
      split <;> simp only [List.length_append, List.length_singleton] <;> omega
  | keyUp event filter =>
    simp only [RenderWidgetHostViewEfl.step]
    rcases Option.eq_none_or_eq_some v.im_context_ with him | ⟨im, him⟩
    · simpa [RenderWidgetHostViewEfl.HandleEvasEvent_KeyUp, him, RenderWidgetHostViewEfl.call,
        RenderWidgetHostViewEfl.KeyDownsCovered] using h
    · obtain ⟨bufs, hb⟩ := deliverAll_view env im v filter.callbacks
      have := afterFakeKeys_covered env v bufs h
      simp only [RenderWidgetHostViewEfl.HandleEvasEvent_KeyUp, him,
        IMContextEfl.HandleKeyUpEvent, hb]
      exact this
  | imf cb =>
    simp only [RenderWidgetHostViewEfl.step]
    apply withSession_covered v _ h
    intro im
    obtain ⟨bufs, hb⟩ := deliver_view env im v cb
    simp only [RenderWidgetHostViewEfl.store, hb]
    exact afterFakeKeys_covered env v bufs h
  | ack input_event processed =>
    simp only [RenderWidgetHostViewEfl.step]
    rcases ack_cases env v input_event processed with h' | h' | h' | h'
    · rw [h']; exact h
    · rw [h']; exact h
    · rw [h']; exact drainCycle_covered env v processed h
    · rw [h']
      exact drainCycle_covered env _ processed (drainCycle_covered env v processed h)
  | focusIn =>
    simp only [RenderWidgetHostViewEfl.step]
    apply withSession_covered v _ h
    intro im
    simp only [RenderWidgetHostViewEfl.store, IMContextEfl.OnFocusIn,
      IMContextEfl.CancelComposition]
    repeat' split
    all_goals exact ClearQueues_covered v
  | focusOut =>
    simp only [RenderWidgetHostViewEfl.step]
    apply withSession_covered v _ h
    intro im
    simp only [RenderWidgetHostViewEfl.store, IMContextEfl.OnFocusOut]
    repeat' split
    all_goals first | exact h | exact ClearQueues_covered v
  | reset =>
    simp only [RenderWidgetHostViewEfl.step]
    apply withSession_covered v _ h
    intro im
    exact ClearQueues_covered v
  | cancelComposition =>
    simp only [RenderWidgetHostViewEfl.step]
    apply withSession_covered v _ h
    intro im
    exact ClearQueues_covered v
  | languageChanged =>
    simp only [RenderWidgetHostViewEfl.step]
    apply withSession_covered v _ h
    intro im
    simp only [RenderWidgetHostViewEfl.store, IMContextEfl.OnCandidateInputPanelLanguageChanged,
      IMContextEfl.Reset]
    split
    · exact h
    · exact ClearQueues_covered v
  | textInputStateChanged type is_showing =>
    simp only [RenderWidgetHostViewEfl.step]
    apply withSession_covered v _ h
    intro im
    simp only [RenderWidgetHostViewEfl.store, IMContextEfl.UpdateInputMethodState1]
    repeat' split
    all_goals exact ClearQueues_covered v

theorem run_covered (env : Platform) (v : RenderWidgetHostViewEfl) (evs : List Event)
    (h : v.KeyDownsCovered) : (v.run env evs).KeyDownsCovered := by
  induction evs generalizing v with
  | nil => exact h
  | cons ev rest ih => exact ih _ (step_covered env v ev h)

/-- C25: in every state reached from the initial state of a view (with or
without a session) by any sequence of hardware key events, input-method commit
and preedit events, acknowledgements, focus changes and queue-clearing
operations, the key-down queue is not longer than the key-up queue; so a
non-empty key-down queue comes with a non-empty key-up queue, and a drain cycle
that forwards a queued key-down has forwarded the synthetic key-up of the front
key-up entry just before it. -/
theorem C25_key_down_queue_covered (env : Platform) (host : Bool) (im : Option IMContextEfl)
    (evs : List Event) (processed : Bool) :
    let v := (RenderWidgetHostViewEfl.init host im).run env evs
    v.keydownev_queue_.length ≤ v.keyupev_queue_.length ∧
    (v.keydownev_queue_ ≠ [] → v.keyupev_queue_ ≠ []) ∧
    (∀ session d rest, v.im_context_ = some session → v.keydownev_queue_ = d :: rest →
      ∃ k more pre, v.keyupev_queue_ = k :: more ∧
        (v.drainCycle env processed).host_calls =
          v.host_calls ++ pre ++
            [.ForwardKeyboardEvent (keyUpEventFor env k), .ForwardKeyboardEvent d]) := by
  intro v
  have hcov : v.keydownev_queue_.length ≤ v.keyupev_queue_.length :=
    run_covered env (RenderWidgetHostViewEfl.init host im) evs (Nat.le_refl 0)
  refine ⟨hcov, ?_, ?_⟩
  · intro hkd hku
    rw [hku] at hcov
    exact hkd (List.length_eq_zero.mp (Nat.le_zero.mp hcov))
  · intro session d rest him hkd
    rw [hkd] at hcov
    rcases hku : v.keyupev_queue_ with _ | ⟨k, more⟩
    · rw [hku] at hcov
      simp at hcov
    · refine ⟨k, more,
        (if processed then [] else
            session.commit_queue_.head?.toList.map HostCall.ImeConfirmComposition) ++
          (if processed then [] else session.preedit_queue_.head?.toList.map (fun c =>
            HostCall.ImeSetComposition c.text c.underlines c.selection.start
              c.selection.finish)), rfl, ?_⟩
      rw [drainCycle_calls env v session processed him, hku, hkd]
      simp only [drainCalls, List.head?_cons, Option.toList_some, List.map_cons, List.map_nil,
        List.append_assoc]
      rfl

/-- C25 at a concrete input: a run that queues the key-down `c` behind `b`. -/
theorem C25_key_down_queue_covered_witness :
    (freshView.run samplePlatform queueingRun).keydownev_queue_.length = 1 ∧
    (freshView.run samplePlatform queueingRun).keyupev_queue_.length = 2 ∧
    (freshView.run samplePlatform queueingRun).keydownev_queue_.length ≤
      (freshView.run samplePlatform queueingRun).keyupev_queue_.length :=
  ⟨by decide, by decide,
    (C25_key_down_queue_covered samplePlatform true (some IMContextEfl.init) queueingRun false).1⟩

/-! ## C26: key-up events reach the host from drains only -/

@[simp]
theorem forwardedKeyUps_append (l₁ l₂ : List HostCall) :
    forwardedKeyUps (l₁ ++ l₂) = forwardedKeyUps l₁ ++ forwardedKeyUps l₂ := by
  induction l₁ with
  | nil => rfl
  | cons c rest ih =>
    cases c with
    | ForwardKeyboardEvent e =>
      by_cases h : e.type = .KeyUp <;> simp [forwardedKeyUps, h, ih]
    | _ => simp [forwardedKeyUps, ih]

theorem forwardedKeyUps_fake (env : Platform) (bufs : List CString) :
    forwardedKeyUps (bufs.map (fun b => HostCall.ForwardKeyboardEvent (fakeKeyEvent env b))) =
      [] := by
  induction bufs with
  | nil => rfl
  | cons b rest ih => simp [forwardedKeyUps, fakeKeyEvent_type, ih]

theorem forwardedKeyUps_afterFakeKeys (env : Platform) (v : RenderWidgetHostViewEfl)
    (bufs : List CString) :
    forwardedKeyUps (afterFakeKeys env v bufs).host_calls = forwardedKeyUps v.host_calls := by
  simp [afterFakeKeys, forwardedKeyUps_fake]

theorem forwardedKeyUps_drainCalls (env : Platform) (processed : Bool) (cq : List String16)
    (pq : List CompositionText) (ku : List Int) (kd : List NativeWebKeyboardEvent)
    (hkd : ∀ e ∈ kd, e.type ≠ .KeyUp) :
    forwardedKeyUps (drainCalls env processed cq pq ku kd) =
      (ku.take 1).map (keyUpEventFor env) := by
  have hk : ∀ k, (keyUpEventFor env k).type = .KeyUp := fun _ => rfl
  cases kd with
  | nil =>
    cases processed <;> cases cq <;> cases pq <;> cases ku <;>
      simp [drainCalls, forwardedKeyUps, hk]
  | cons e rest =>
    have he : e.type ≠ .KeyUp := hkd e (List.mem_cons_self _ _)
    cases processed <;> cases cq <;> cases pq <;> cases ku <;>
      simp [drainCalls, forwardedKeyUps, hk, he]

/-- One drain cycle forwards the synthetic key-up of the front key-up entry, if
there is one, and no other key-up event. -/
theorem drainCycle_keyUps (env : Platform) (v : RenderWidgetHostViewEfl) (im : IMContextEfl)
    (processed : Bool) (him : v.im_context_ = some im) (hq : v.NoQueuedKeyUp) :
    forwardedKeyUps (v.drainCycle env processed).host_calls =
      forwardedKeyUps v.host_calls ++ (v.keyupev_queue_.take 1).map (keyUpEventFor env) := by
  rw [drainCycle_calls env v im processed him, forwardedKeyUps_append,
    forwardedKeyUps_drainCalls env processed _ _ _ _ hq]

theorem drainCycle_noQueuedKeyUp (env : Platform) (v : RenderWidgetHostViewEfl)
    (processed : Bool) (hq : v.NoQueuedKeyUp) : (v.drainCycle env processed).NoQueuedKeyUp := by
  rcases Option.eq_none_or_eq_some v.im_context_ with him | ⟨im, him⟩
  · rw [drainCycle_none env v processed him]; exact hq
  · intro e he
    rw [drainCycle_keydown env v im processed him] at he
    exact hq e (List.mem_of_mem_tail he)

theorem take_one_append_tail_take_one {α : Type} (l : List α) :
    l.take 1 ++ l.tail.take 1 = l.take 2 := by
  cases l with
  | nil => rfl
  | cons a rest => cases rest <;> rfl

/-- An acknowledgement on a view with a session forwards the synthetic key-ups
of the key-up entries it pops, at most two, and no other key-up event. -/
theorem ack_keyUps (env : Platform) (v : RenderWidgetHostViewEfl) (im : IMContextEfl)
    (e : WebInputEvent) (processed : Bool) (him : v.im_context_ = some im)
    (hq : v.NoQueuedKeyUp) :
    ∃ n, n ≤ 2 ∧
      forwardedKeyUps (v.OnDidInputEventHandled env e processed).host_calls =
        forwardedKeyUps v.host_calls ++ (v.keyupev_queue_.take n).map (keyUpEventFor env) ∧
      (v.OnDidInputEventHandled env e processed).keyupev_queue_ = v.keyupev_queue_.drop n := by
  rcases ack_cases env v e processed with h | h | h | h
  · exact ⟨0, by omega, by rw [h]; simp, by rw [h]; simp⟩
  · exact ⟨0, by omega, by rw [h]; simp, by rw [h]; simp⟩
  · refine ⟨1, by omega, ?_, ?_⟩
    · rw [h, drainCycle_keyUps env v im processed him hq]
    · rw [h, drainCycle_keyup env v im processed him]
      simp
  · have him₁ := drainCycle_im env v im processed him
    have hq₁ := drainCycle_noQueuedKeyUp env v processed hq
    refine ⟨2, by omega, ?_, ?_⟩
    · rw [h]
      show forwardedKeyUps ((v.drainCycle env processed).drainCycle env processed).host_calls = _
      rw [drainCycle_keyUps env _ _ processed him₁ hq₁, drainCycle_keyUps env v im processed him hq,
        drainCycle_keyup env v im processed him, List.append_assoc, ← List.map_append,
        take_one_append_tail_take_one]
    · rw [h]
      show ((v.drainCycle env processed).drainCycle env processed).keyupev_queue_ = _
      rw [drainCycle_keyup env _ _ processed him₁, drainCycle_keyup env v im processed him]
      cases v.keyupev_queue_ with
      | nil => rfl
      | cons a rest => cases rest <;> rfl

theorem withSession_keyUps (v : RenderWidgetHostViewEfl)
    (f : IMContextEfl → RenderWidgetHostViewEfl → IMContextEfl × RenderWidgetHostViewEfl)
    (hf : ∀ im, forwardedKeyUps (f im v).2.host_calls = forwardedKeyUps v.host_calls ∧
      (f im v).2.NoQueuedKeyUp) (hq : v.NoQueuedKeyUp) :
    forwardedKeyUps (v.withSession f).host_calls = forwardedKeyUps v.host_calls ∧
      (v.withSession f).NoQueuedKeyUp := by
  unfold RenderWidgetHostViewEfl.withSession
  split
  · exact ⟨rfl, hq⟩
  · exact hf _

theorem ClearQueues_noQueuedKeyUp (v : RenderWidgetHostViewEfl) :
    v.ClearQueues.NoQueuedKeyUp := by
  intro e he
  simp [RenderWidgetHostViewEfl.ClearQueues] at he

/-- Every event other than an acknowledgement forwards no key-up event to the
host of a view with a session, and queues no key-up event. -/
theorem step_keyUps (env : Platform) (hfac : ∀ e, (env.toWebKeyboardEvent e).type ≠ .KeyUp)
    (v : RenderWidgetHostViewEfl) (im : IMContextEfl) (him : v.im_context_ = some im)
    (hq : v.NoQueuedKeyUp) (ev : Event) (hev : ∀ e p, ev ≠ .ack e p) :
    forwardedKeyUps (v.step env ev).host_calls = forwardedKeyUps v.host_calls ∧
      (v.step env ev).NoQueuedKeyUp := by
  cases ev with
  | keyDown event filter =>
    simp only [RenderWidgetHostViewEfl.step]
    have ht : ¬ (hardwareEvent env event filter.filtered).type = .KeyUp := by
      rw [hardwareEvent_type]; exact hfac event
    constructor
    · rw [keyDown_calls env v im event filter him]
      split
      · simp [forwardedKeyUps, hfac event]
      · rfl
    · intro e he
      rw [keyDown_keydown env v im event filter him] at he
      split at he
      · exact hq e he
      · rcases List.mem_append.mp he with he | he
        · exact hq e he
        · simp only [List.mem_singleton] at he
          subst he
          exact ht
  | keyUp event filter =>
    obtain ⟨bufs, hb⟩ := deliverAll_view env im v filter.callbacks
    simp only [RenderWidgetHostViewEfl.step, RenderWidgetHostViewEfl.HandleEvasEvent_KeyUp, him,
      IMContextEfl.HandleKeyUpEvent, hb]
    exact ⟨forwardedKeyUps_afterFakeKeys env v bufs, hq⟩
  | imf cb =>
    simp only [RenderWidgetHostViewEfl.step]
    apply withSession_keyUps v _ _ hq
    intro im'
    obtain ⟨bufs, hb⟩ := deliver_view env im' v cb
    rw [hb]
    exact ⟨forwardedKeyUps_afterFakeKeys env v bufs, hq⟩
  | ack input_event processed => exact absurd rfl (hev input_event processed)
  | focusIn =>
    simp only [RenderWidgetHostViewEfl.step]
    apply withSession_keyUps v _ _ hq
    intro im'
    simp only [IMContextEfl.OnFocusIn, IMContextEfl.CancelComposition]
    repeat' split
    all_goals
      exact ⟨by simp [RenderWidgetHostViewEfl.ClearQueues, RenderWidgetHostViewEfl.call,
        forwardedKeyUps], ClearQueues_noQueuedKeyUp v⟩
  | focusOut =>
    simp only [RenderWidgetHostViewEfl.step]
    apply withSession_keyUps v _ _ hq
    intro im'
    simp only [IMContextEfl.OnFocusOut]
    repeat' split
    all_goals first
      | exact ⟨rfl, hq⟩
      | exact ⟨by simp [RenderWidgetHostViewEfl.ClearQueues, RenderWidgetHostViewEfl.call,
          forwardedKeyUps], ClearQueues_noQueuedKeyUp v⟩
  | reset =>
    simp only [RenderWidgetHostViewEfl.step]
    apply withSession_keyUps v _ _ hq
    intro im'
    exact ⟨rfl, ClearQueues_noQueuedKeyUp v⟩
  | cancelComposition =>
    simp only [RenderWidgetHostViewEfl.step]
    apply withSession_keyUps v _ _ hq
    intro im'
    exact ⟨rfl, ClearQueues_noQueuedKeyUp v⟩
  | languageChanged =>
    simp only [RenderWidgetHostViewEfl.step]
    apply withSession_keyUps v _ _ hq
    intro im'
    simp only [IMContextEfl.OnCandidateInputPanelLanguageChanged, IMContextEfl.Reset]
    split
    · exact ⟨rfl, hq⟩
    · exact ⟨by simp [RenderWidgetHostViewEfl.ClearQueues, RenderWidgetHostViewEfl.call,
        forwardedKeyUps], ClearQueues_noQueuedKeyUp v⟩
  | textInputStateChanged type is_showing =>
    simp only [RenderWidgetHostViewEfl.step]
    apply withSession_keyUps v _ _ hq
    intro im'
    simp only [IMContextEfl.UpdateInputMethodState1]
    repeat' split
    all_goals exact ⟨rfl, ClearQueues_noQueuedKeyUp v⟩

/-- The session of a view stays in place through every event. -/
theorem step_session (env : Platform) (v : RenderWidgetHostViewEfl) (im : IMContextEfl)
    (him : v.im_context_ = some im) (ev : Event) :
    ∃ im', (v.step env ev).im_context_ = some im' := by
  have hws : ∀ f, ∃ im', (v.withSession f).im_context_ = some im' := by
    intro f
    simp only [RenderWidgetHostViewEfl.withSession, him, RenderWidgetHostViewEfl.store]
    exact ⟨_, rfl⟩
  cases ev with
  | keyDown event filter =>
    simp only [RenderWidgetHostViewEfl.step]
    rw [HandleEvasEvent_KeyDown_eq env v im event filter him]
    exact ⟨_, rfl⟩
  | keyUp event filter =>
    simp only [RenderWidgetHostViewEfl.step, RenderWidgetHostViewEfl.HandleEvasEvent_KeyUp, him]
    exact ⟨_, rfl⟩
  | ack input_event processed =>
    simp only [RenderWidgetHostViewEfl.step]
    have h₁ := drainCycle_im env v im processed him
    rcases ack_cases env v input_event processed with h | h | h | h
    · rw [h]; exact ⟨_, him⟩
    · rw [h]; exact ⟨_, him⟩
    · rw [h]; exact ⟨_, h₁⟩
    · rw [h]; exact ⟨_, drainCycle_im env _ _ processed h₁⟩
  | imf cb => exact hws _
  | focusIn => exact hws _
  | focusOut => exact hws _
  | reset => exact hws _
  | cancelComposition => exact hws _
  | languageChanged => exact hws _
  | textInputStateChanged type is_showing => exact hws _

/-- C26: on a view with an input-method session, the key-event factory building
no key-up event from a hardware key-down and no key-up event waiting in the
key-down queue (which every event preserves): a hardware key-up forwards nothing
but the synthetic key-downs of the callbacks its filter call delivers, so the
key-up itself never reaches the host; every event forwards exactly the synthetic
key-ups of the key-up entries it pops in drain cycles (none unless it is an
acknowledgement, at most two then) and no other key-up event; and a hardware
key-down, whether forwarded or queued, appends exactly one entry, its key code,
to the key-up queue. -/
theorem C26_key_ups_only_from_drains (env : Platform)
    (hfac : ∀ e, (env.toWebKeyboardEvent e).type ≠ .KeyUp)
    (v : RenderWidgetHostViewEfl) (im : IMContextEfl) (him : v.im_context_ = some im)
    (hq : v.NoQueuedKeyUp) :
    (∀ event filter,
      forwardedKeyUps (v.HandleEvasEvent_KeyUp env event filter).host_calls =
        forwardedKeyUps v.host_calls ∧
      ∃ bufs : List CString, (v.HandleEvasEvent_KeyUp env event filter).host_calls =
        v.host_calls ++ bufs.map (fun b => HostCall.ForwardKeyboardEvent (fakeKeyEvent env b))) ∧
    (∀ ev, ∃ n, n ≤ 2 ∧
      forwardedKeyUps (v.step env ev).host_calls =
        forwardedKeyUps v.host_calls ++ (v.keyupev_queue_.take n).map (keyUpEventFor env) ∧
      (n = 0 ∨ ((∃ e p, ev = .ack e p) ∧
        (v.step env ev).keyupev_queue_ = v.keyupev_queue_.drop n))) ∧
    (∀ event filter,
      (v.HandleEvasEvent_KeyDown env event filter).keyupev_queue_ =
        v.keyupev_queue_ ++ [(env.toWebKeyboardEvent event).windowsKeyCode]) ∧
    (∀ ev, (∃ im', (v.step env ev).im_context_ = some im') ∧ (v.step env ev).NoQueuedKeyUp) := by
  have hack : ∀ e p, (v.step env (.ack e p)).NoQueuedKeyUp := by
    intro e p
    simp only [RenderWidgetHostViewEfl.step]
    rcases ack_cases env v e p with h | h | h | h
    · rw [h]; exact hq
    · rw [h]; exact hq
    · rw [h]; exact drainCycle_noQueuedKeyUp env v p hq
    · rw [h]
      exact drainCycle_noQueuedKeyUp env _ p (drainCycle_noQueuedKeyUp env v p hq)
  refine ⟨?_, ?_, ?_, ?_⟩
  · intro event filter
    obtain ⟨bufs, hb⟩ := deliverAll_view env im v filter.callbacks
    simp only [RenderWidgetHostViewEfl.HandleEvasEvent_KeyUp, him, IMContextEfl.HandleKeyUpEvent,
      hb]
    exact ⟨forwardedKeyUps_afterFakeKeys env v bufs, bufs, rfl⟩
  · intro ev
    by_cases hev : ∃ e p, ev = .ack e p
    · obtain ⟨e, p, rfl⟩ := hev
      obtain ⟨n, hn, h₁, h₂⟩ := ack_keyUps env v im e p him hq
      exact ⟨n, hn, h₁, Or.inr ⟨⟨e, p, rfl⟩, h₂⟩⟩
    · refine ⟨0, by omega, ?_, Or.inl rfl⟩
      rw [(step_keyUps env hfac v im him hq ev (fun e p h => hev ⟨e, p, h⟩)).1]
      simp
  · intro event filter
    exact keyDown_keyup env v im event filter him
  · intro ev
    refine ⟨step_session env v im him ev, ?_⟩
    by_cases hev : ∃ e p, ev = .ack e p
    · obtain ⟨e, p, rfl⟩ := hev
      exact hack e p
    · exact (step_keyUps env hfac v im him hq ev (fun e p h => hev ⟨e, p, h⟩)).2

/-- C26 at a concrete input: on the view with queued entries, the hardware
key-up of `a`, whose filter call commits `a`, forwards no key-up event. -/
theorem C26_key_ups_only_from_drains_witness :
    forwardedKeyUps (loadedView.step samplePlatform keyUpA).host_calls = [] ∧
    (loadedView.HandleEvasEvent_KeyDown samplePlatform keyA
        { callbacks := [], filtered := false }).keyupev_queue_ = [1, 2, 97] :=
  have h := C26_key_ups_only_from_drains samplePlatform (fun _ => by simp [samplePlatform])
    loadedView _ rfl (by unfold RenderWidgetHostViewEfl.NoQueuedKeyUp; decide)
  ⟨(h.1 keyA { callbacks := [.commit [97]], filtered := true }).1,
    h.2.2.1 keyA { callbacks := [], filtered := false }⟩

/-! ## C27: the key code of a synthetic key-up -/

/-- C27, evaluated at the failing input: with a signed `char`, the hardware
key-down of a key whose key code is 190 is forwarded with the key code 190 and
pushes 190 on the key-up queue, but the synthetic key-up event that the
acknowledgement emits for that entry carries the key code -66: the entry passes
through the `char` parameter of `SendCompositionKeyUpEvent`. -/
theorem C27_key_up_code_190_comes_out_as_minus_66 :
    (forwardedKeyDowns (freshView.HandleEvasEvent_KeyDown samplePlatform keyPeriod
      { callbacks := [], filtered := false }).host_calls).map (fun e => e.windowsKeyCode) =
      [190] ∧
    (freshView.HandleEvasEvent_KeyDown samplePlatform keyPeriod
      { callbacks := [], filtered := false }).keyupev_queue_ = [190] ∧
    (forwardedKeyUps ((freshView.HandleEvasEvent_KeyDown samplePlatform keyPeriod
      { callbacks := [], filtered := false }).OnDidInputEventHandled samplePlatform plainKeyDown
      false).host_calls).map (fun e => e.windowsKeyCode) = [-66] := by
  decide

/-! ## C28: input mode and autocapitalisation -/

/-- C28: whenever `ShowPanel` shows the panel, the input mode it sets is `ALPHA`
for every requested input mode, `NUMERIC` included (its case falls through to
the default case), and the autocapitalisation type it sets is `SENTENCE` when the
input type is `TEXT_AREA` and `NONE` for every other type. -/
theorem C28_mode_alpha_autocapital_for_text_area (env : Platform) (penv : PanelEnv)
    (im : IMContextEfl) (input_type : TextInputType) (input_mode : TextInputMode)
    (is_user_action : Bool)
    (hgate : (is_user_action || penv.useKeyPadWithoutUserAction) = true)
    (htype : input_type ≠ .NONE) :
    panelInputMode input_mode = .ALPHA ∧
    ∃ layout return_key_type allow_prediction cap_type,
      im.ShowPanel env penv input_type input_mode is_user_action =
        .ok { showBase penv im with
          panel_was_ever_shown_ := true
          context_ := (showBase penv im).context_ ++
            [.input_panel_layout_set layout, .input_mode_set .ALPHA,
             .input_panel_return_key_type_set return_key_type,
             .autocapital_type_set cap_type, .prediction_allow_set allow_prediction,
             .focus_in, .input_panel_show] } ∧
      (cap_type = .SENTENCE ↔ input_type = .TEXT_AREA) ∧
      (cap_type = .NONE ↔ input_type ≠ .TEXT_AREA) := by
  refine ⟨panelInputMode_eq input_mode, layoutTable input_type,
    returnKeyLabel input_type im.is_in_form_tag_, decide (input_type ≠ .PASSWORD),
    (if input_type = .TEXT_AREA then .SENTENCE else .NONE),
    ShowPanel_shown env penv im input_type input_mode is_user_action hgate htype, ?_, ?_⟩
  · by_cases h : input_type = .TEXT_AREA <;> simp [h]
  · by_cases h : input_type = .TEXT_AREA <;> simp [h]

/-- C28 at a concrete input: a text area with the numeric input mode requested. -/
theorem C28_mode_alpha_autocapital_for_text_area_witness :
    ∃ im', focusedSession.ShowPanel samplePlatform samplePanelEnv .TEXT_AREA .NUMERIC true =
        .ok im' ∧
      ImfCall.input_mode_set .ALPHA ∈ im'.context_ ∧
      ImfCall.autocapital_type_set .SENTENCE ∈ im'.context_ :=
  match (C28_mode_alpha_autocapital_for_text_area samplePlatform samplePanelEnv focusedSession
      .TEXT_AREA .NUMERIC true rfl (by decide)).2 with
  | ⟨_, _, _, cap_type, h, hs, _⟩ =>
    ⟨_, h, by simp, by have hz : cap_type = .SENTENCE := hs.2 rfl; subst hz; simp⟩

/-! ## C29: removing a released touch point -/

/-- The shifting loop, started at `i` with `n` iterations inside the array,
moves the `n` elements after index `i` one place down and touches the indices
from `i` to `i + n` only. -/
theorem shiftTouches_spec (touches : List WebTouchPoint) (i n : Nat)
    (h : i + n < touches.length) :
    ∃ touches' accessed, shiftTouches touches i n = some (touches', accessed) ∧
      touches'.length = touches.length ∧
      (∀ j, touches'[j]? = if i ≤ j ∧ j < i + n then touches[j + 1]? else touches[j]?) ∧
      ∀ a ∈ accessed, i ≤ a ∧ a ≤ i + n := by
  induction n generalizing touches i with
  | zero =>
    refine ⟨touches, [], rfl, rfl, ?_, ?_⟩
    · intro j
      have hj : ¬ (i ≤ j ∧ j < i + 0) := by omega
      rw [if_neg hj]
    · intro a ha
      cases ha
  | succ n ih =>
    have h₁ : i + 1 < touches.length := by omega
    obtain ⟨next, hnext⟩ : ∃ next, touches[i + 1]? = some next :=
      ⟨touches[i + 1], List.getElem?_eq_getElem h₁⟩
    have hlen : (touches.set i next).length = touches.length := List.length_set _ _ _
    obtain ⟨t', acc, hs, hl, hget, hacc⟩ := ih (touches.set i next) (i + 1)
      (by rw [hlen]; omega)
    refine ⟨t', (i + 1) :: i :: acc, ?_, hl.trans hlen, ?_, ?_⟩
    · have hi : i < touches.length := by omega
      simp [shiftTouches, hnext, hi, hs]
    · intro j
      rw [hget j]
      have hi : i < touches.length := by omega
      by_cases hj : i + 1 ≤ j ∧ j < i + 1 + n
      · have h₂ : i ≤ j ∧ j < i + (n + 1) := by omega
        have h₃ : ¬ i = j + 1 := by omega
        simp [hj, h₂, List.getElem?_set, h₃]
      · by_cases hji : j = i
        · subst hji
          have h₂ : j ≤ j ∧ j < j + (n + 1) := by omega
          simp [hj, h₂, List.getElem?_set, hi, hnext]
        · have h₂ : ¬ (i ≤ j ∧ j < i + (n + 1)) := by omega
          have h₃ : ¬ i = j := fun h => hji h.symm
          simp [hj, h₂, List.getElem?_set, h₃]
    · intro a ha
      simp only [List.mem_cons] at ha
      rcases ha with rfl | rfl | ha
      · omega
      · omega
      · have := hacc a ha
        omega

/-- C29: for a touch event whose count `touchesLength` does not exceed the
capacity of its array and a point at an index below `touchesLength`: when the
point's state is `StateReleased` or `StateCancelled` the function returns, the
count is decreased by one, the touch list (the first `touchesLength` elements)
is the original list with the element at that index removed, the other points
in their original order, and no array element at or beyond the original count
is read or written; for every other state the event is left unchanged. -/
theorem C29_released_point_is_removed (event : WebTouchEvent) (point : Nat)
    (hpoint : point < event.touchesLength)
    (hcap : event.touchesLength ≤ event.touches.length)
    (h32 : event.touchesLength < 2 ^ 32) :
    ∃ p, event.touches[point]? = some p ∧
      ((p.state = .StateReleased ∨ p.state = .StateCancelled) →
        ∃ event' accessed,
          UpdateWebTouchEventAfterDispatch event point = some (event', accessed) ∧
          event'.touchesLength = event.touchesLength - 1 ∧
          event'.touches.take event'.touchesLength =
            (event.touches.take event.touchesLength).eraseIdx point ∧
          event'.touches.length = event.touches.length ∧
          ∀ a ∈ accessed, a < event.touchesLength) ∧
      (¬ (p.state = .StateReleased ∨ p.state = .StateCancelled) →
        UpdateWebTouchEventAfterDispatch event point = some (event, [point])) := by
  obtain ⟨len, touches⟩ := event
  simp only at hpoint hcap h32 ⊢
  have hp : point < touches.length := by omega
  refine ⟨touches[point], List.getElem?_eq_getElem hp, ?_, ?_⟩
  · intro hstate
    have hdec : (len + 2 ^ 32 - 1) % 2 ^ 32 = len - 1 := by omega
    obtain ⟨t', acc, hs, hl, hget, hacc⟩ := shiftTouches_spec touches point (len - 1 - point)
      (by omega)
    refine ⟨{ touchesLength := len - 1, touches := t' }, point :: acc, ?_, rfl, ?_, hl, ?_⟩
    · have hcond : ¬ (touches[point].state ≠ .StateReleased ∧
          touches[point].state ≠ .StateCancelled) := by
        rcases hstate with h | h <;> simp [h]
      simp only [UpdateWebTouchEventAfterDispatch, List.getElem?_eq_getElem hp, hcond, if_false,
        hdec, hs, Option.map_some']
    · apply List.ext_getElem?
      intro j
      simp only [List.getElem?_take, List.getElem?_eraseIdx, hget]
      by_cases h₁ : j < len - 1
      · by_cases h₂ : j < point
        · have h₃ : ¬ (point ≤ j ∧ j < point + (len - 1 - point)) := by omega
          have h₄ : j < len := by omega
          simp [h₁, h₂, h₃, h₄]
        · have h₃ : point ≤ j ∧ j < point + (len - 1 - point) := by omega
          have h₄ : j + 1 < len := by omega
          simp [h₁, h₂, h₃, h₄]
      · by_cases h₂ : j < point
        · omega
        · have h₄ : ¬ j + 1 < len := by omega
          simp [h₁, h₂, h₄]
    · intro a ha
      simp only [List.mem_cons] at ha
      rcases ha with rfl | ha
      · exact hpoint
      · have := hacc a ha
        omega
  · intro hstate
    have hcond : touches[point].state ≠ .StateReleased ∧
        touches[point].state ≠ .StateCancelled := by
      constructor <;> intro h <;> exact hstate (by simp [h])
    simp only [UpdateWebTouchEventAfterDispatch, List.getElem?_eq_getElem hp]
    rw [if_pos hcond]

/-- C29 at a concrete input: the released middle point of three is removed. -/
theorem C29_released_point_is_removed_witness :
    (UpdateWebTouchEventAfterDispatch threeTouches 1).map
        (fun r => (r.1.touchesLength, r.1.touches.take r.1.touchesLength, r.2)) =
      some (2, [touchPoint 0 .StateMoved, touchPoint 2 .StateStationary], [1, 2, 1]) ∧
    ∃ p, threeTouches.touches[1]? = some p ∧
      ((p.state = .StateReleased ∨ p.state = .StateCancelled) →
        ∃ event' accessed,
          UpdateWebTouchEventAfterDispatch threeTouches 1 = some (event', accessed) ∧
          event'.touchesLength = 2) :=
  ⟨by decide,
    match C29_released_point_is_removed threeTouches 1 (by decide) (by decide) (by decide) with
    | ⟨p, hp, hrel, _⟩ =>
      ⟨p, hp, fun hstate =>
        match hrel hstate with
        | ⟨event', accessed, h, hl, _⟩ => ⟨event', accessed, h, hl⟩⟩⟩

/-! ## C30: the search for a free file name -/

theorem decimalDigits_length (fuel n d : Nat) (hd : 1 ≤ d) (h : n < 10 ^ d) :
    (decimalDigits fuel n).length ≤ d := by
  induction fuel generalizing n d with
  | zero => simp [decimalDigits]
  | succ fuel ih =>
    unfold decimalDigits
    split
    · simpa using hd
    · rename_i hn
      have hd2 : 2 ≤ d := by
        by_contra hlt
        have : d = 1 := by omega
        subst this
        omega
      have hdiv : n / 10 < 10 ^ (d - 1) := by
        have hpow : 10 ^ d = 10 ^ (d - 1) * 10 := by
          rw [← pow_succ]
          congr 1
          omega
        rw [hpow] at h
        exact Nat.div_lt_of_lt_mul (by rw [Nat.mul_comm]; exact h)
      have := ih (n / 10) (d - 1) (by omega) hdiv
      simp only [List.length_append, List.length_singleton]
      omega

/-- The six-byte buffer holds the whole of `"(i)"` for every index up to 999. -/
theorem snprintf_formatIndex (i : Nat) (h : i ≤ 999) :
    snprintf 6 (formatIndex i) = formatIndex i := by
  have hlen := decimalDigits_length (i + 1) i 3 (by omega) (by omega)
  unfold snprintf
  apply List.take_of_length_le
  simp only [formatIndex, List.length_append, List.length_singleton]
  omega

theorem forLoop_free (denv : DownloadEnv) (outputDir fileName : FilePath) (n i : Nat)
    (fullPath : FilePath) (h : denv.PathExists fullPath = false) :
    DownloadFile.forLoop denv outputDir fileName n i fullPath = fullPath := by
  cases n with
  | zero => rfl
  | succ n => simp [DownloadFile.forLoop, h]

/-- The `for` loop has left by its 1001st condition test: allowing more tests
changes nothing. -/
theorem forLoop_enough (denv : DownloadEnv) (outputDir fileName : FilePath) (n m i : Nat)
    (fullPath : FilePath) (h : 1001 ≤ i + n) :
    DownloadFile.forLoop denv outputDir fileName (n + m) i fullPath =
      DownloadFile.forLoop denv outputDir fileName n i fullPath := by
  induction n generalizing i fullPath with
  | zero =>
    have hi : ¬ i ≤ 999 := by omega
    cases m with
    | zero => rfl
    | succ m => simp [DownloadFile.forLoop, hi]
  | succ n ih =>
    have hnm : n + 1 + m = (n + m) + 1 := by omega
    rw [hnm]
    simp only [DownloadFile.forLoop]
    split
    · exact ih (i + 1) _ (by omega)
    · rfl

/-- The `for` loop stops at the smallest free index. -/
theorem forLoop_spec (denv : DownloadEnv) (outputDir fileName : FilePath) (j : Nat)
    (hj : j ≤ 999)
    (hfree : denv.PathExists (DownloadFile.variant denv outputDir fileName j) = false)
    (n i : Nat) (fullPath : FilePath) (hfull : denv.PathExists fullPath = true) (hij : i ≤ j)
    (hbelow : ∀ k, i ≤ k → k < j →
      denv.PathExists (DownloadFile.variant denv outputDir fileName k) = true)
    (hn : j + 1 ≤ i + n) :
    DownloadFile.forLoop denv outputDir fileName n i fullPath =
      DownloadFile.variant denv outputDir fileName j := by
  induction n generalizing i fullPath with
  | zero => omega
  | succ n ih =>
    have hi : i ≤ 999 := by omega
    simp only [DownloadFile.forLoop, hfull, hi, decide_True, Bool.and_self, if_true]
    by_cases hcase : i = j
    · subst hcase
      exact forLoop_free denv outputDir fileName n (i + 1) _ hfree
    · exact ih (i + 1) _ (hbelow i (Nat.le_refl i) (by omega)) (by omega)
        (fun k hk hkj => hbelow k (by omega) hkj) (by omega)

/-- C30: when the generated name is free the search returns it at once.  When it
exists and some variant with `"(i)"` inserted before the extension, `i` from 0 to
999, does not, the search terminates (two iterations of the outer loop suffice)
and returns the variant with the smallest free index, a path that does not exist.
The six-byte buffer holds `"(i)"` in full for every such `i`. -/
theorem C30_download_file_name_search (denv : DownloadEnv) (outputDir fileName : FilePath) :
    (denv.PathExists (denv.Append outputDir fileName) = false →
      ∀ fuel, ContextMenuControllerEfl.DownloadFile denv (fuel + 1) outputDir fileName =
        some (denv.Append outputDir fileName)) ∧
    (denv.PathExists (denv.Append outputDir fileName) = true →
      (∃ i, i ≤ 999 ∧
        denv.PathExists (DownloadFile.variant denv outputDir fileName i) = false) →
      ∃ j, j ≤ 999 ∧
        denv.PathExists (DownloadFile.variant denv outputDir fileName j) = false ∧
        (∀ k, k < j →
          denv.PathExists (DownloadFile.variant denv outputDir fileName k) = true) ∧
        ∀ fuel, ContextMenuControllerEfl.DownloadFile denv (fuel + 2) outputDir fileName =
          some (DownloadFile.variant denv outputDir fileName j)) ∧
    (∀ i, i ≤ 999 →
      snprintf 6 (formatIndex i) = formatIndex i ∧
      DownloadFile.variant denv outputDir fileName i =
        denv.Append outputDir (denv.InsertBeforeExtension fileName (formatIndex i))) := by
  refine ⟨?_, ?_, ?_⟩
  · intro h fuel
    simp [ContextMenuControllerEfl.DownloadFile, DownloadFile.whileLoop, h]
  · intro hgen hex
    have hex' : ∃ i, i ≤ 999 ∧
        denv.PathExists (DownloadFile.variant denv outputDir fileName i) = false := hex
    classical
    let j := Nat.find hex'
    have hj : j ≤ 999 ∧
        denv.PathExists (DownloadFile.variant denv outputDir fileName j) = false :=
      Nat.find_spec hex'
    have hmin : ∀ k, k < j →
        denv.PathExists (DownloadFile.variant denv outputDir fileName k) = true := by
      intro k hk
      have hnot := Nat.find_min hex' hk
      have hk999 : k ≤ 999 := by omega
      cases hpe : denv.PathExists (DownloadFile.variant denv outputDir fileName k) with
      | true => rfl
      | false => exact absurd ⟨hk999, hpe⟩ hnot
    refine ⟨j, hj.1, hj.2, hmin, ?_⟩
    intro fuel
    have hloop := forLoop_spec denv outputDir fileName j hj.1 hj.2 1001 0
      (denv.Append outputDir fileName) hgen (Nat.zero_le j) (fun k _ hk => hmin k hk) (by omega)
    simp [ContextMenuControllerEfl.DownloadFile, DownloadFile.whileLoop, hgen, hloop, hj.2]
  · intro i hi
    have hs := snprintf_formatIndex i hi
    exact ⟨hs, by simp [DownloadFile.variant, hs]⟩

/-- C30 at a concrete input: `d/f`, `d/f(0)` and `d/f(1)` exist; the search
returns `d/f(2)`. -/
theorem C30_download_file_name_search_witness :
    ContextMenuControllerEfl.DownloadFile sampleDownloadEnv 2 [100] [102] =
      some [100, 47, 102, 40, 50, 41] ∧
    ∃ j, j ≤ 999 ∧
      ∀ fuel, ContextMenuControllerEfl.DownloadFile sampleDownloadEnv (fuel + 2) [100] [102] =
        some (DownloadFile.variant sampleDownloadEnv [100] [102] j) :=
  ⟨by decide,
    match (C30_download_file_name_search sampleDownloadEnv [100] [102]).2.1 (by decide)
      ⟨2, by decide, by decide⟩ with
    | ⟨j, hj, _, _, h⟩ => ⟨j, hj, h⟩⟩

end content
